import Mathlib

/-!
Verification of `scripts/generate_puzzles.py` from the unvelo-content
repository.

The program turns a delimited content table into per-day puzzle JSON
artifacts and a manifest index.  Its text is embedded shallowly:

* Python strings become `Str := List Char`.
* The source table is modelled post-tokenization (the `csv` module's
  delimiter detection and quote handling are external library code): a file
  is a `List (List Str)` of records, each record a list of fields.
* The manifest file is modelled as the JSON value it parses to
  (`Option Json`); `none` stands for a missing or unparseable file,
  which the program treats as fatal, and a parsed non-object value is
  fatal too (`ensure_manifest_shape` raises `TypeError` on it).
* `csv.DictReader` keeps the surplus fields of an over-long record as a
  list under the `restkey` `None`; since its only observable effect is
  the `AttributeError` `_row_has_any_content` raises on it, rows carry
  their named fields (`zipRow`) and `recordRestkeyCrash` marks the
  records on which the loop raises.
* The filesystem is explicit state: puzzle files are an association list
  from file name to file text; `generate` returns the new state.
* `hashlib.sha256(...).hexdigest()` is an external cryptographic
  primitive.  It is modelled as an injective fingerprint of the input
  text (the spec's stated contract for the digest: a fixed-output
  cryptographic digest whose output differs whenever its input differs);
  concretely, `sha256Text` is the identity on the serialized text, which
  keeps every hash comparison in the program exactly as discriminating as
  the canonical serialization itself.
* `datetime.now` is modelled by passing the current UTC time to
  `generate` as an explicit argument.
-/

set_option maxHeartbeats 1000000
set_option maxRecDepth 8192

namespace Unvelo

/-- Python `str` modelled as a list of characters. -/
abbrev Str := List Char

/-- The double-quote character. -/
def quoteChar : Char := Char.ofNat 34

/-- The single-quote character. -/
def squoteChar : Char := Char.ofNat 39

/-- The backslash character. -/
def backslashChar : Char := Char.ofNat 92

/-- The opening curly brace character. -/
def obraceChar : Char := Char.ofNat 123

/-- The closing curly brace character. -/
def cbraceChar : Char := Char.ofNat 125

/-- Characters stripped by Python's `str.strip()` (the ASCII whitespace
subset; the table data is ASCII). -/
def isPySpace (c : Char) : Bool :=
  c = ' ' || c = '\t' || c = '\n' || c = '\r' || c = '\x0b' || c = '\x0c'

/-- Python `str.lstrip()`. -/
def pyLStrip (s : Str) : Str := s.dropWhile isPySpace

/-- Python `str.rstrip()`. -/
def pyRStrip (s : Str) : Str := (s.reverse.dropWhile isPySpace).reverse

/-- Python `str.strip()`. -/
def pyStrip (s : Str) : Str := pyLStrip (pyRStrip s)

/-- Number of occurrences of a character, Python `s.count(c)` for a
single-character needle. -/
def countChar (c : Char) : Str → Nat
  | [] => 0
  | x :: t => (if x = c then 1 else 0) + countChar c t

/-- `_strip_wrapping_quotes`: strips one layer of matching wrapping
quotes, with the source's recovery heuristics for asymmetric single
quotes. -/
def stripWrappingQuotes (text : Str) : Str :=
  let s := pyStrip text
  if 2 ≤ s.length ∧ s.head? = s.getLast? ∧
      (s.head? = some quoteChar ∨ s.head? = some squoteChar) then
    pyStrip (s.drop 1).dropLast
  else
    let s1 :=
      if s.getLast? = some squoteChar ∧ ¬ s.head? = some squoteChar then
        if 2 ≤ s.length ∧ (s.dropLast.getLast? = some '.' ∨
            s.dropLast.getLast? = some '!' ∨ s.dropLast.getLast? = some '?') then
          pyRStrip s.dropLast
        else if countChar squoteChar s = 1 then
          pyRStrip s.dropLast
        else s
      else s
    if s1.head? = some squoteChar ∧ ¬ s1.getLast? = some squoteChar then
      if countChar squoteChar s1 = 1 then pyLStrip (s1.drop 1) else s1
    else s1

/-- Python `s.split(sep)` for a single-character separator (which yields
`[""]` on the empty string). -/
def splitOnChar (c : Char) : Str → List Str
  | [] => [[]]
  | x :: xs =>
    match splitOnChar c xs with
    | [] => [[]]
    | y :: ys => if x = c then [] :: y :: ys else (x :: y) :: ys

/-- `_split_semicolon_list`. -/
def splitSemicolonList (text : Str) : List Str :=
  let s := stripWrappingQuotes text
  if s = [] then []
  else ((splitOnChar ';' s).map pyStrip).filter (fun p => ¬ p = [])

/-- `_split_comma_list`. -/
def splitCommaList (text : Str) : List Str :=
  let s := stripWrappingQuotes text
  if s = [] then []
  else ((splitOnChar ',' s).map pyStrip).filter (fun p => ¬ p = [])

/-- The decimal digit characters, as produced by Python's `str(int)`. -/
def digitChar : Nat → Char
  | 0 => '0' | 1 => '1' | 2 => '2' | 3 => '3' | 4 => '4'
  | 5 => '5' | 6 => '6' | 7 => '7' | 8 => '8' | 9 => '9'
  | _ + 10 => '0'

/-- Decimal value of a digit character, `none` for non-digits. -/
def digitVal? (c : Char) : Option Nat :=
  if '0' ≤ c ∧ c ≤ '9' then some (c.toNat - '0'.toNat) else none

/-- Accumulating decimal parse of a digit string. -/
def parseDigitsAux (acc : Nat) : Str → Option Nat
  | [] => some acc
  | c :: cs =>
    match digitVal? c with
    | some d => parseDigitsAux (acc * 10 + d) cs
    | none => none

/-- Parse a non-empty all-digit string as a natural number. -/
def parseDigits : Str → Option Nat
  | [] => none
  | c :: cs => parseDigitsAux 0 (c :: cs)

/-- Python `int(s)` on an already-stripped string: optional sign followed
by decimal digits. -/
def pyParseInt (s : Str) : Option Int :=
  match s with
  | '-' :: rest => (parseDigits rest).map (fun n => -(n : Int))
  | '+' :: rest => (parseDigits rest).map (fun n => (n : Int))
  | _ => (parseDigits s).map (fun n => (n : Int))

/-- `_parse_int`: unquote, return the default when blank or unparseable. -/
def parseIntDefault (value : Str) (dflt : Int) : Int :=
  let s := stripWrappingQuotes value
  if s = [] then dflt
  else
    match pyParseInt s with
    | some n => n
    | none => dflt

/-- Decimal digits, least significant first, with explicit fuel (kept
structurally recursive so that the kernel can evaluate it). -/
def natDigitsRevFuel : Nat → Nat → Str
  | 0, _ => []
  | _ + 1, 0 => []
  | fuel + 1, n + 1 => digitChar ((n + 1) % 10) :: natDigitsRevFuel fuel ((n + 1) / 10)

/-- Decimal digits of a positive number, least significant first. -/
def natDigitsRev (n : Nat) : Str := natDigitsRevFuel n n

/-- Python `str(n)` for a natural number. -/
def natRepr (n : Nat) : Str := if n = 0 then ['0'] else (natDigitsRev n).reverse

/-- Python `str(n)` for an `int`. -/
def intRepr (n : Int) : Str :=
  if n < 0 then '-' :: natRepr n.natAbs else natRepr n.toNat

/-! ## JSON values and serialization (`json.dumps`) -/

/-- JSON values, as produced by `json.loads` / consumed by `json.dumps`
(floats are outside the model; the program itself only builds strings,
integers, arrays and objects). -/
inductive Json where
  | str : Str → Json
  | num : Int → Json
  | bool : Bool → Json
  | null : Json
  | arr : List Json → Json
  | obj : List (Str × Json) → Json

/-- JSON objects: insertion-ordered key/value pairs (Python dicts). -/
abbrev JObj := List (Str × Json)

mutual

/-- Structural equality test for JSON values. -/
def jsonBEq : Json → Json → Bool
  | .str a, .str b => decide (a = b)
  | .num a, .num b => decide (a = b)
  | .bool a, .bool b => decide (a = b)
  | .null, .null => true
  | .arr xs, .arr ys => jsonListBEq xs ys
  | .obj ms, .obj ns => jsonObjBEq ms ns
  | _, _ => false

/-- Structural equality test for JSON arrays. -/
def jsonListBEq : List Json → List Json → Bool
  | [], [] => true
  | x :: xs, y :: ys => jsonBEq x y && jsonListBEq xs ys
  | _, _ => false

/-- Structural equality test for JSON object member lists. -/
def jsonObjBEq : List (Str × Json) → List (Str × Json) → Bool
  | [], [] => true
  | (k, v) :: ms, (l, w) :: ns => decide (k = l) && jsonBEq v w && jsonObjBEq ms ns
  | _, _ => false

end

theorem jsonBEq_iff_aux (n : Nat) :
    (∀ a b : Json, sizeOf a ≤ n → (jsonBEq a b = true ↔ a = b)) ∧
    (∀ xs ys : List Json, sizeOf xs ≤ n → (jsonListBEq xs ys = true ↔ xs = ys)) ∧
    (∀ ms ns : List (Str × Json), sizeOf ms ≤ n → (jsonObjBEq ms ns = true ↔ ms = ns)) := by
  induction n using Nat.strong_induction_on with
  | _ n ih =>
    refine ⟨?_, ?_, ?_⟩
    · intro a b hn
      cases a <;> cases b <;>
        simp only [jsonBEq, decide_eq_true_eq, Bool.false_eq_true, Json.str.injEq,
          Json.num.injEq, Json.bool.injEq, Json.arr.injEq, Json.obj.injEq] <;>
        try (first | rfl | simp)
      case arr.arr xs ys =>
        have hs : sizeOf xs < n := by
          have := Json.arr.sizeOf_spec xs; omega
        exact (ih _ hs).2.1 xs ys (le_refl _)
      case obj.obj ms ns =>
        have hs : sizeOf ms < n := by
          have := Json.obj.sizeOf_spec ms; omega
        exact (ih _ hs).2.2 ms ns (le_refl _)
    · intro xs ys hn
      cases xs with
      | nil => cases ys <;> simp [jsonListBEq]
      | cons x xs =>
        cases ys with
        | nil => simp [jsonListBEq]
        | cons y ys =>
          have h1 : sizeOf x < n := by
            have := List.cons.sizeOf_spec x xs; omega
          have h2 : sizeOf xs < n := by
            have := List.cons.sizeOf_spec x xs; omega
          simp only [jsonListBEq, Bool.and_eq_true, List.cons.injEq]
          rw [(ih _ h1).1 x y (le_refl _), (ih _ h2).2.1 xs ys (le_refl _)]
    · intro ms ns hn
      cases ms with
      | nil => cases ns <;> simp [jsonObjBEq]
      | cons m ms =>
        cases ns with
        | nil => simp [jsonObjBEq]
        | cons p ns =>
          obtain ⟨k, v⟩ := m
          obtain ⟨l, w⟩ := p
          have hm : sizeOf (k, v) < n := by
            have := List.cons.sizeOf_spec (k, v) ms; omega
          have h1 : sizeOf v < n := by
            have := Prod.mk.sizeOf_spec k v; omega
          have h2 : sizeOf ms < n := by
            have := List.cons.sizeOf_spec (k, v) ms; omega
          simp only [jsonObjBEq, Bool.and_eq_true, decide_eq_true_eq, List.cons.injEq,
            Prod.mk.injEq]
          rw [(ih _ h1).1 v w (le_refl _), (ih _ h2).2.2 ms ns (le_refl _)]
          try tauto

theorem jsonBEq_iff (a b : Json) : jsonBEq a b = true ↔ a = b :=
  (jsonBEq_iff_aux (sizeOf a)).1 a b (le_refl _)

instance : DecidableEq Json := fun a b =>
  decidable_of_iff (jsonBEq a b = true) (jsonBEq_iff a b)

/-- The lowercase hexadecimal digits used by `\uXXXX` escapes. -/
def hexDigit : Nat → Char
  | 0 => '0' | 1 => '1' | 2 => '2' | 3 => '3' | 4 => '4'
  | 5 => '5' | 6 => '6' | 7 => '7' | 8 => '8' | 9 => '9'
  | 10 => 'a' | 11 => 'b' | 12 => 'c' | 13 => 'd' | 14 => 'e' | 15 => 'f'
  | _ + 16 => '0'

/-- `json.dumps` escaping of one character with `ensure_ascii=False`:
quote, backslash and the named control escapes go through the escape
table, remaining control characters become `\u00XX`, everything else is
emitted literally. -/
def jsonEscChar (c : Char) : Str :=
  if c = quoteChar then [backslashChar, quoteChar]
  else if c = backslashChar then [backslashChar, backslashChar]
  else if c = '\n' then [backslashChar, 'n']
  else if c = '\r' then [backslashChar, 'r']
  else if c = '\t' then [backslashChar, 't']
  else if c = '\x08' then [backslashChar, 'b']
  else if c = '\x0c' then [backslashChar, 'f']
  else if c.toNat < 32 then
    [backslashChar, 'u', '0', '0', hexDigit (c.toNat / 16), hexDigit (c.toNat % 16)]
  else [c]

/-- Escape every character of a string body. -/
def jsonEscape : Str → Str
  | [] => []
  | c :: cs => jsonEscChar c ++ jsonEscape cs

/-- A serialized JSON string: quote, escaped body, quote. -/
def jsonString (s : Str) : Str := quoteChar :: jsonEscape s ++ [quoteChar]

mutual

/-- Compact serialization: `json.dumps(v, ensure_ascii=False,
separators=(",", ":"))`.  Object members are emitted in list order;
`sort_keys=True` is realized by building objects with their keys already
sorted. -/
def serJson : Json → Str
  | .str s => jsonString s
  | .num n => intRepr n
  | .bool b => if b then "true".data else "false".data
  | .null => "null".data
  | .arr xs => '[' :: serArr xs ++ [']']
  | .obj ms => obraceChar :: serObj ms ++ [cbraceChar]

/-- Compact serialization of array elements, comma separated. -/
def serArr : List Json → Str
  | [] => []
  | [x] => serJson x
  | x :: y :: t => serJson x ++ ',' :: serArr (y :: t)

/-- Compact serialization of object members, comma separated, `:` between
key and value. -/
def serObj : List (Str × Json) → Str
  | [] => []
  | [(k, v)] => jsonString k ++ ':' :: serJson v
  | (k, v) :: m :: t => jsonString k ++ ':' :: serJson v ++ ',' :: serObj (m :: t)

end

/-- `indent * level` spaces. -/
def indentStr (n : Nat) : Str := List.replicate n ' '

mutual

/-- Indented serialization: `json.dumps(v, ensure_ascii=False, indent=2)`
at nesting level `lvl` (so members are indented by `2 * (lvl + 1)`
spaces); separators are `(",", ": ")` as Python defaults them under
`indent`. -/
def serJsonInd (lvl : Nat) : Json → Str
  | .str s => jsonString s
  | .num n => intRepr n
  | .bool b => if b then "true".data else "false".data
  | .null => "null".data
  | .arr [] => ['[', ']']
  | .arr (x :: t) =>
    '[' :: '\n' :: serArrInd (lvl + 1) (x :: t) ++ '\n' :: indentStr (2 * lvl) ++ [']']
  | .obj [] => [obraceChar, cbraceChar]
  | .obj (m :: t) =>
    obraceChar :: '\n' :: serObjInd (lvl + 1) (m :: t) ++ '\n' :: indentStr (2 * lvl) ++ [cbraceChar]

/-- Indented serialization of array elements, each on its own line. -/
def serArrInd (lvl : Nat) : List Json → Str
  | [] => []
  | [x] => indentStr (2 * lvl) ++ serJsonInd lvl x
  | x :: y :: t =>
    indentStr (2 * lvl) ++ serJsonInd lvl x ++ ',' :: '\n' :: serArrInd lvl (y :: t)

/-- Indented serialization of object members, each on its own line. -/
def serObjInd (lvl : Nat) : List (Str × Json) → Str
  | [] => []
  | [(k, v)] => indentStr (2 * lvl) ++ jsonString k ++ ':' :: ' ' :: serJsonInd lvl v
  | (k, v) :: m :: t =>
    indentStr (2 * lvl) ++ jsonString k ++ ':' :: ' ' :: serJsonInd lvl v ++
      ',' :: '\n' :: serObjInd lvl (m :: t)

end

/-- `_sha256_text`: applies `hashlib.sha256` to the UTF-8 bytes of the
text and returns the hex digest.  The library digest is external
primitive code; per the spec's contract for it ("cryptographic
fixed-output digest: any other field difference changes the hash") it is
modelled as an injective fingerprint of the input text, concretely the
identity embedding. -/
def sha256Text (s : Str) : Str := s

/-! ## Rows, the puzzle record, and the content hash -/

/-- A parsed table row: column name to raw field text, in header order
(Python's `csv.DictReader` row dict). -/
abbrev Row := List (Str × Str)

/-- First-match association-list lookup (Python dict lookup; the rows and
objects built by the program have distinct keys). -/
def alookup (k : Str) : List (Str × α) → Option α
  | [] => none
  | (a, b) :: t => if a = k then some b else alookup k t

/-- Python dict assignment `d[k] = v`: replace the first binding in
place, or append a new one. -/
def aset (k : Str) (v : α) : List (Str × α) → List (Str × α)
  | [] => [(k, v)]
  | (a, b) :: t => if a = k then (k, v) :: t else (a, b) :: aset k v t

/-- `row.get(col, "")`. -/
def rowGet (r : Row) (c : Str) : Str := (alookup c r).getD []

def DATEKEY_COL : Str := "dateKey (YYYY-MM-DD)".data
def CATEGORY_COL : Str := "category".data
def TAGS_COL : Str := "tags (semicolon-separated)".data
def ANSWER_CANONICAL_COL : Str := "answerCanonical".data
def ANSWER_ALIASES_COL : Str := "answerAliases (comma-separated)".data
def SOLUTION_EXPLANATION_COL : Str := "solutionExplanation".data
def VERSION_COL : Str := "version".data
def CONTENT_HASH_COL : Str := "contentHash".data

/-- The hint text column `hint{i+1}` (`_hint_columns`, 0-based position). -/
def hintCol (i : Nat) : Str := "hint".data ++ natRepr (i + 1)

/-- The hint explanation column `hint{i+1}Explanation`. -/
def hintExplCol (i : Nat) : Str := "hint".data ++ natRepr (i + 1) ++ "Explanation".data

/-- One hint object of a puzzle record. -/
structure Hint where
  id : Str
  index : Nat
  text : Str
  explanationText : Option Str
deriving DecidableEq

/-- A puzzle record as built by `build_puzzle_object` (field order is the
dict insertion order). -/
structure Puzzle where
  id : Str
  dateKey : Str
  version : Int
  category : Str
  tags : List Str
  answerCanonical : Str
  answerAliases : List Str
  hints : List Hint
  solutionExplanation : Str
deriving DecidableEq

/-- The hint built from row position `idx` (0-based), if its text is
non-empty. -/
def buildHint (row : Row) (idx : Nat) : Option Hint :=
  let ht := stripWrappingQuotes (rowGet row (hintCol idx))
  if ht = [] then none
  else
    let ex := stripWrappingQuotes (rowGet row (hintExplCol idx))
    some { id := 'h' :: natRepr (idx + 1), index := idx, text := ht,
           explanationText := if ex = [] then none else some ex }

/-- `build_puzzle_object`. -/
def build_puzzle_object (row : Row) (version : Int) : Puzzle :=
  { id := stripWrappingQuotes (rowGet row DATEKEY_COL)
    dateKey := stripWrappingQuotes (rowGet row DATEKEY_COL)
    version := version
    category := stripWrappingQuotes (rowGet row CATEGORY_COL)
    tags := splitSemicolonList (rowGet row TAGS_COL)
    answerCanonical := stripWrappingQuotes (rowGet row ANSWER_CANONICAL_COL)
    answerAliases := splitCommaList (rowGet row ANSWER_ALIASES_COL)
    hints := (List.range 5).filterMap (buildHint row)
    solutionExplanation := stripWrappingQuotes (rowGet row SOLUTION_EXPLANATION_COL) }

/-- Stable insertion of a hint behind all strictly smaller indices
(elements with equal index keep their relative order, as Python's stable
`sorted`). -/
def insertHint (h : Hint) : List Hint → List Hint
  | [] => [h]
  | x :: t => if x.index < h.index then x :: insertHint h t else h :: x :: t

/-- `sorted(hints, key=lambda h: h["index"])`: stable sort by index. -/
def sortHintsByIndex : List Hint → List Hint
  | [] => []
  | h :: t => insertHint h (sortHintsByIndex t)

/-- A hint as serialized inside the content hash: `sort_keys=True` orders
the keys `explanationText < id < index < text`. -/
def hintJsonSorted (h : Hint) : Json :=
  .obj ((match h.explanationText with
         | some e => [("explanationText".data, Json.str e)]
         | none => []) ++
        [("id".data, .str h.id), ("index".data, .num h.index), ("text".data, .str h.text)])

/-- The content object hashed by `compute_content_hash`: the puzzle
record without `version`, hints sorted by index, keys in sorted order
(realizing `sort_keys=True`). -/
def contentJson (p : Puzzle) : Json :=
  .obj [("answerAliases".data, .arr (p.answerAliases.map .str)),
        ("answerCanonical".data, .str p.answerCanonical),
        ("category".data, .str p.category),
        ("dateKey".data, .str p.dateKey),
        ("hints".data, .arr ((sortHintsByIndex p.hints).map hintJsonSorted)),
        ("id".data, .str p.id),
        ("solutionExplanation".data, .str p.solutionExplanation),
        ("tags".data, .arr (p.tags.map .str))]

/-- `compute_content_hash`: digest of the canonical serialization of the
record minus its `version` field. -/
def compute_content_hash (p : Puzzle) : Str := sha256Text (serJson (contentJson p))

/-- A hint as serialized into the artifact file (dict insertion order:
`id`, `index`, `text`, then `explanationText` when present). -/
def hintJsonFull (h : Hint) : Json :=
  .obj ([("id".data, .str h.id), ("index".data, .num h.index), ("text".data, .str h.text)] ++
        (match h.explanationText with
         | some e => [("explanationText".data, Json.str e)]
         | none => []))

/-- The full puzzle object in dict insertion order (including `version`),
as passed to `json.dumps(..., indent=2)`. -/
def puzzleJson (p : Puzzle) : Json :=
  .obj [("id".data, .str p.id),
        ("dateKey".data, .str p.dateKey),
        ("version".data, .num p.version),
        ("category".data, .str p.category),
        ("tags".data, .arr (p.tags.map .str)),
        ("answerCanonical".data, .str p.answerCanonical),
        ("answerAliases".data, .arr (p.answerAliases.map .str)),
        ("hints".data, .arr (p.hints.map hintJsonFull)),
        ("solutionExplanation".data, .str p.solutionExplanation)]

/-- The text written to a puzzle artifact file: the indented dump plus a
trailing newline (`write_puzzle_json`; the artifact sha256 is taken over
exactly this text). -/
def serializeArtifact (p : Puzzle) : Str := serJsonInd 0 (puzzleJson p) ++ ['\n']

/-! ## The table, the manifest, and the `generate` pipeline

The source file is modelled post-tokenization: a list of records, each a
list of fields (the `csv` module's delimiter detection and quoting are
external library code and round-trip at this level; the `delimiter`
carried by `CsvTable` plays no further role and is dropped). -/

/-- `CsvTable` (header plus parsed rows). -/
structure CsvTable where
  header : List Str
  rows : List Row
deriving DecidableEq

/-- The named fields of a `csv.DictReader` row: `dict(zip(fieldnames,
values))` with missing values defaulting to `None` → `""` (`restval`
plus the row normalization).  Surplus values are not dropped by
`DictReader`: it stores them as a list under the `restkey` `None`, an
entry the row normalization keeps (a list is not `None`).  That entry is
unreadable through `row.get(<string>, ...)` and is never written back
(`write_csv_table` emits header keys only), so its only observable
effect is the `AttributeError` it causes in `_row_has_any_content`,
modelled by `recordRestkeyCrash` below. -/
def zipRow : List Str → List Str → Row
  | [], _ => []
  | c :: cs, [] => (c, []) :: zipRow cs []
  | c :: cs, v :: vs => (c, v) :: zipRow cs vs

/-- `read_csv_table`: an empty file and a missing header are fatal;
`csv.DictReader` skips empty records among the data rows. -/
def read_csv_table (records : List (List Str)) : Except Str CsvTable :=
  match records with
  | [] => .error ("Empty CSV/TSV".data)
  | hd :: tl =>
    if hd = [] then .error ("No header detected".data)
    else .ok ⟨hd, (tl.filter (fun r => ¬ r = [])).map (zipRow hd)⟩

/-- `write_csv_table` at the tokenized level: one record per row with the
fields in header order (`row.get(k, "")`). -/
def serializeTable (t : CsvTable) : List (List Str) :=
  t.header :: t.rows.map (fun r => t.header.map (fun c => rowGet r c))

/-- The columns `_require_columns` is called with. -/
def REQUIRED_COLS : List Str :=
  [DATEKEY_COL, CATEGORY_COL, TAGS_COL, ANSWER_CANONICAL_COL,
   ANSWER_ALIASES_COL, SOLUTION_EXPLANATION_COL, VERSION_COL]

/-- The required columns absent from the header (`_require_columns`
raises when this is non-empty). -/
def missingColumns (t : CsvTable) : List Str :=
  REQUIRED_COLS.filter (fun c => ¬ c ∈ t.header)

/-- `_row_has_any_content`: some field is non-blank after stripping. -/
def rowHasAnyContent (r : Row) : Bool :=
  r.any (fun kv => ¬ (pyStrip kv.2).isEmpty)

/-- The records on which `_row_has_any_content` raises `AttributeError`.
A record with more fields than the header makes `DictReader` store the
surplus as a (non-empty) list under the `restkey` `None`, inserted after
the named fields; `_row_has_any_content` scans the values in insertion
order and returns early at the first non-blank named value, so it
reaches the list — and crashes calling `.strip()` on it — exactly when
every named value is blank. -/
def recordRestkeyCrash (header : List Str) (fields : List Str) : Bool :=
  decide (header.length < fields.length) && ! rowHasAnyContent (zipRow header fields)

/-- `ensure_manifest_shape`: a missing or non-object `puzzles`/`meta`
member is replaced by an empty object, in place. -/
def ensure_manifest_shape (m : JObj) : JObj :=
  let m1 : JObj :=
    match alookup "puzzles".data m with
    | some (Json.obj _) => m
    | _ => aset "puzzles".data (.obj []) m
  match alookup "meta".data m1 with
  | some (Json.obj _) => m1
  | _ => aset "meta".data (.obj []) m1

/-- The member list of an object-valued key (used after
`ensure_manifest_shape` has guaranteed the shape). -/
def getObj (m : JObj) (k : Str) : JObj :=
  match alookup k m with
  | some (Json.obj o) => o
  | _ => []

/-- A fresh manifest entry `{"version": v, "url": u, "sha256": s}`. -/
def manifestEntry (version : Int) (url : Str) (sha : Str) : Json :=
  .obj [("version".data, .num version), ("url".data, .str url), ("sha256".data, .str sha)]

/-- `json.loads` numeric equality used inside dict comparison: Python
`bool` is an `int`, so `True == 1` and `False == 0`. -/
def intOfJsonNum : Json → Option Int
  | .num n => some n
  | .bool b => some (if b then 1 else 0)
  | _ => none

/-- Python dict equality of an arbitrary JSON value against the fresh
entry `{"version": v, "url": u, "sha256": s}` (unordered key comparison). -/
def entryEqPy (e : Json) (version : Int) (url sha : Str) : Bool :=
  match e with
  | .obj ms =>
    decide (ms.length = 3) &&
    (match alookup "version".data ms with
     | some j => decide (intOfJsonNum j = some version)
     | none => false) &&
    (match alookup "url".data ms with
     | some (.str u) => decide (u = url)
     | _ => false) &&
    (match alookup "sha256".data ms with
     | some (.str s) => decide (s = sha)
     | _ => false)
  | _ => false

/-- `RowResult`. -/
structure RowResult where
  date_key : Str
  version : Int
  created : Bool
  refreshed : Bool
  bumped : Bool
  reason : Str
deriving DecidableEq

/-- The state threaded through the per-row loop of `generate`: the
report accumulators, the update flags, the puzzles directory, the
`puzzles` manifest object, and the (mutated) rows seen so far. -/
structure LoopState where
  results : List RowResult
  skippedBlank : Nat
  skippedDate : Nat
  anyCsv : Bool
  anyMan : Bool
  dir : List (Str × Str)
  pm : JObj
  rowsOut : List Row
deriving DecidableEq

/-- The body of `generate`'s row loop, one row. -/
def stepRow (dryRun : Bool) (st : LoopState) (row : Row) : LoopState :=
  if ¬ rowHasAnyContent row then
    { st with skippedBlank := st.skippedBlank + 1, rowsOut := st.rowsOut ++ [row] }
  else
    let dateKey := stripWrappingQuotes (rowGet row DATEKEY_COL)
    if dateKey = [] then
      { st with skippedDate := st.skippedDate + 1, rowsOut := st.rowsOut ++ [row] }
    else
      let currentVersion := parseIntDefault (rowGet row VERSION_COL) 1
      let storedHash := stripWrappingQuotes (rowGet row CONTENT_HASH_COL)
      let computedHash := compute_content_hash (build_puzzle_object row currentVersion)
      let bumped : Bool := decide (¬ storedHash = [] ∧ ¬ storedHash = computedHash)
      let currentVersion' := if bumped then currentVersion + 1 else currentVersion
      let puzzleObj :=
        if bumped then build_puzzle_object row currentVersion'
        else build_puzzle_object row currentVersion
      let anyCsv1 := if storedHash = [] then true else st.anyCsv
      let row1 := if bumped then aset VERSION_COL (intRepr currentVersion') row else row
      let anyCsv2 := if bumped then true else anyCsv1
      let row2 := aset CONTENT_HASH_COL computedHash row1
      let filename := dateKey ++ ".v".data ++ intRepr currentVersion' ++ ".json".data
      let url := "/puzzles/".data ++ filename
      let existedBefore := (alookup filename st.dir).isSome
      let sha := sha256Text (serializeArtifact puzzleObj)
      let dir' := if dryRun then st.dir else aset filename (serializeArtifact puzzleObj) st.dir
      let entryChanged : Bool :=
        match alookup dateKey st.pm with
        | some e => ¬ entryEqPy e currentVersion' url sha
        | none => true
      let anyMan' := if entryChanged then true else st.anyMan
      let pm' := aset dateKey (manifestEntry currentVersion' url sha) st.pm
      let created := !existedBefore && !dryRun
      let refreshed := existedBefore && !dryRun
      let created := if dryRun then !existedBefore else created
      let refreshed := if dryRun then existedBefore else refreshed
      let reason :=
        if bumped then "content changed -> version bumped".data
        else if storedHash = [] then "initialized contentHash".data
        else "no content change".data
      { results := st.results ++
          [⟨dateKey, currentVersion', created, refreshed, bumped, reason⟩],
        skippedBlank := st.skippedBlank, skippedDate := st.skippedDate,
        anyCsv := anyCsv2, anyMan := anyMan', dir := dir', pm := pm',
        rowsOut := st.rowsOut ++ [row2] }

/-- The current UTC time, second precision (microseconds already
dropped, as `_utc_now_iso_z` replaces them with zero). -/
structure UtcTime where
  year : Nat
  month : Nat
  day : Nat
  hour : Nat
  minute : Nat
  second : Nat
deriving DecidableEq

/-- Two-digit zero-padded field of `datetime.isoformat()`. -/
def pad2 (n : Nat) : Str := if n < 10 then '0' :: natRepr n else natRepr n

/-- Four-digit zero-padded year of `datetime.isoformat()`. -/
def pad4 (n : Nat) : Str :=
  if n < 10 then '0' :: '0' :: '0' :: natRepr n
  else if n < 100 then '0' :: '0' :: natRepr n
  else if n < 1000 then '0' :: natRepr n
  else natRepr n

/-- `_utc_now_iso_z`: second-precision ISO-8601 with the `+00:00` offset
rewritten to `Z`. -/
def utc_now_iso_z (t : UtcTime) : Str :=
  (pad4 t.year ++ ['-'] ++ pad2 t.month ++ ['-'] ++ pad2 t.day ++
    ['T'] ++ pad2 t.hour ++ [':'] ++ pad2 t.minute ++ [':'] ++ pad2 t.second) ++ ['Z']

/-- The filesystem state read by `generate`: the tokenized source table,
the puzzles directory (file name to file text), and the manifest file as
the JSON value it parses to (`none`: missing or unparseable —
`FileNotFoundError` / `JSONDecodeError` — which is fatal; a value that
is valid JSON but not an object is also fatal, in
`ensure_manifest_shape`, where assigning `manifest["puzzles"]` into a
non-dict raises `TypeError`). -/
structure FsIn where
  csvFile : List (List Str)
  puzzleFiles : List (Str × Str)
  manifestFile : Option Json
deriving DecidableEq

/-- Everything `generate` leaves behind: the in-memory table and
manifest, the report, and the on-disk state after the run. -/
structure GenOut where
  table : CsvTable
  results : List RowResult
  skippedBlank : Nat
  skippedDate : Nat
  anyCsv : Bool
  anyMan : Bool
  manifest : JObj
  csvFileOut : List (List Str)
  manifestFileOut : Option Json
  dirOut : List (Str × Str)
deriving DecidableEq

/-- `generate`.  Errors model the uncaught exceptions, in program order:
empty input, no header, missing required column (each raised before any
output is produced), the missing or unparseable manifest
(`FileNotFoundError` / `JSONDecodeError`), the `TypeError` that
`ensure_manifest_shape` raises when the manifest parses to a non-object,
and the `AttributeError` the row loop raises on a `restkey` record whose
named fields are all blank (`recordRestkeyCrash`).  The last is raised
mid-loop, after earlier rows were processed, so a real run may by then
have written artifacts of earlier rows; the error value abstracts from
that partial on-disk state.  `now` models the clock read by
`_utc_now_iso_z`.  Directory creation (`mkdir`) has no file content and
is not modelled. -/
def generate (fs : FsIn) (dryRun : Bool) (now : UtcTime) : Except Str GenOut :=
  match read_csv_table fs.csvFile with
  | .error e => .error e
  | .ok table =>
    if ¬ missingColumns table = [] then .error ("Missing required column(s)".data)
    else
      let header :=
        if CONTENT_HASH_COL ∈ table.header then table.header
        else table.header ++ [CONTENT_HASH_COL]
      match fs.manifestFile with
      | none => .error ("manifest missing or unparseable".data)
      | some (Json.obj m0) =>
        match (fs.csvFile.drop 1).any (recordRestkeyCrash table.header) with
        | true => .error ("AttributeError: list has no attribute strip".data)
        | false =>
          let m := ensure_manifest_shape m0
          let pm0 := getObj m "puzzles".data
          let init : LoopState := ⟨[], 0, 0, false, false, fs.puzzleFiles, pm0, []⟩
          let fin := table.rows.foldl (stepRow dryRun) init
          let m1 := aset "puzzles".data (.obj fin.pm) m
          let m2 :=
            if fin.anyMan then
              aset "meta".data
                (.obj (aset "generatedAtUtc".data (.str (utc_now_iso_z now))
                  (getObj m1 "meta".data))) m1
            else m1
          let table' : CsvTable := ⟨header, fin.rowsOut⟩
          .ok { table := table', results := fin.results,
                skippedBlank := fin.skippedBlank, skippedDate := fin.skippedDate,
                anyCsv := fin.anyCsv, anyMan := fin.anyMan, manifest := m2,
                csvFileOut :=
                  if ¬ dryRun ∧ fin.anyCsv then serializeTable table' else fs.csvFile,
                manifestFileOut :=
                  if ¬ dryRun ∧ fin.anyMan then some (Json.obj m2) else fs.manifestFile,
                dirOut := fin.dir }
      | some _ => .error ("TypeError: manifest is not an object".data)

/-! ## Lemmas about the string helpers -/

theorem dropWhile_append_of_ne_nil {p : Char → Bool} {xs : Str} (ys : Str)
    (h : ¬ xs.dropWhile p = []) :
    (xs ++ ys).dropWhile p = xs.dropWhile p ++ ys := by
  induction xs with
  | nil => exact absurd rfl h
  | cons x xs ih =>
    cases hx : p x with
    | true =>
      simp only [List.cons_append, List.dropWhile_cons, hx, if_true] at *
      exact ih h
    | false => simp [List.dropWhile_cons, hx] at *

theorem dropWhile_append_of_nil {p : Char → Bool} {xs : Str} (ys : Str)
    (h : xs.dropWhile p = []) :
    (xs ++ ys).dropWhile p = ys.dropWhile p := by
  induction xs with
  | nil => simp
  | cons x xs ih =>
    cases hx : p x with
    | true =>
      simp only [List.dropWhile_cons, hx, if_true] at h
      simp only [List.cons_append, List.dropWhile_cons, hx, if_true]
      exact ih h
    | false => simp [List.dropWhile_cons, hx] at h

/-- `rstrip` commutes with a non-space head. -/
theorem pyRStrip_cons (c : Char) (t : Str) (hc : isPySpace c = false) :
    pyRStrip (c :: t) = c :: pyRStrip t := by
  unfold pyRStrip
  rw [List.reverse_cons]
  by_cases h : t.reverse.dropWhile isPySpace = []
  · rw [dropWhile_append_of_nil [c] h, h]
    simp [List.dropWhile_cons, hc]
  · rw [dropWhile_append_of_ne_nil [c] h]
    simp

/-- The head of a `dropWhile` result falsifies the predicate. -/
theorem head_dropWhile_false {p : Char → Bool} {xs : Str} {c : Char}
    (h : (xs.dropWhile p).head? = some c) : p c = false := by
  induction xs with
  | nil => simp at h
  | cons x xs ih =>
    cases hx : p x with
    | true =>
      simp only [List.dropWhile_cons, hx, if_true] at h
      exact ih h
    | false =>
      simp only [List.dropWhile_cons, hx, Bool.false_eq_true, if_false,
        List.head?_cons, Option.some.injEq] at h
      exact h ▸ hx

/-- The head of a stripped string is not whitespace. -/
theorem pyStrip_head_not_space {s : Str} {c : Char}
    (h : (pyStrip s).head? = some c) : isPySpace c = false :=
  head_dropWhile_false h

/-- `lstrip` keeps a string with a non-space head unchanged. -/
theorem pyLStrip_of_head {c : Char} {s : Str} (hc : isPySpace c = false)
    (h : s.head? = some c) : pyLStrip s = s := by
  cases s with
  | nil => simp at h
  | cons x t =>
    simp only [List.head?_cons, Option.some.injEq] at h
    subst h
    simp [pyLStrip, List.dropWhile_cons, hc]

/-- `pyStrip` is idempotent-ish on strings already stripped on the
right: more precisely `rstrip` keeps the head of a stripped string. -/
theorem pyRStrip_head {s : Str} {c : Char} (hs : s.head? = some c)
    (hc : isPySpace c = false) : (pyRStrip s).head? = some c ∨ pyRStrip s = [] := by
  cases s with
  | nil => simp at hs
  | cons x t =>
    simp only [List.head?_cons, Option.some.injEq] at hs
    rw [hs, pyRStrip_cons c t hc]
    simp

theorem two_le_length_of_head_ne_last {s : Str} {a b : Char}
    (hl : s.getLast? = some a) (hh : s.head? = some b) (hne : ¬ b = a) :
    2 ≤ s.length := by
  match s with
  | [] => simp at hl
  | [x] =>
    simp only [List.head?_cons, Option.some.injEq] at hh
    simp only [List.getLast?_singleton, Option.some.injEq] at hl
    exact absurd (hh.symm.trans hl) hne
  | x :: y :: t => simp

theorem head_dropLast {s : Str} (h : 2 ≤ s.length) :
    s.dropLast.head? = s.head? := by
  match s with
  | [] => simp at h
  | [x] => simp at h
  | x :: y :: t => simp [List.dropLast]

/-- **C8**: `_strip_wrapping_quotes` strips exactly one layer of matching
wrapping quotes (same first and last character, `"` or `'`, re-trimmed
inner substring); otherwise a trailing unmatched single quote is dropped
when preceded by terminal punctuation or when it is the string's only
single quote, a leading unmatched single quote is dropped when it is the
string's only single quote, and every other string comes back trimmed
but otherwise unchanged. -/
theorem claim_C8_strip_wrapping_quotes (text : Str) :
    (2 ≤ (pyStrip text).length ∧ (pyStrip text).head? = (pyStrip text).getLast? ∧
        ((pyStrip text).head? = some quoteChar ∨ (pyStrip text).head? = some squoteChar) →
      stripWrappingQuotes text = pyStrip ((pyStrip text).drop 1).dropLast) ∧
    (¬ (2 ≤ (pyStrip text).length ∧ (pyStrip text).head? = (pyStrip text).getLast? ∧
        ((pyStrip text).head? = some quoteChar ∨ (pyStrip text).head? = some squoteChar)) →
      (pyStrip text).getLast? = some squoteChar →
      ¬ (pyStrip text).head? = some squoteChar →
      ((pyStrip text).dropLast.getLast? = some '.' ∨
        (pyStrip text).dropLast.getLast? = some '!' ∨
        (pyStrip text).dropLast.getLast? = some '?' ∨
        countChar squoteChar (pyStrip text) = 1) →
      stripWrappingQuotes text = pyRStrip (pyStrip text).dropLast) ∧
    (¬ (2 ≤ (pyStrip text).length ∧ (pyStrip text).head? = (pyStrip text).getLast? ∧
        ((pyStrip text).head? = some quoteChar ∨ (pyStrip text).head? = some squoteChar)) →
      (pyStrip text).head? = some squoteChar →
      ¬ (pyStrip text).getLast? = some squoteChar →
      countChar squoteChar (pyStrip text) = 1 →
      stripWrappingQuotes text = pyLStrip ((pyStrip text).drop 1)) ∧
    (¬ (2 ≤ (pyStrip text).length ∧ (pyStrip text).head? = (pyStrip text).getLast? ∧
        ((pyStrip text).head? = some quoteChar ∨ (pyStrip text).head? = some squoteChar)) →
      ¬ ((pyStrip text).getLast? = some squoteChar ∧
          ¬ (pyStrip text).head? = some squoteChar ∧
          ((pyStrip text).dropLast.getLast? = some '.' ∨
            (pyStrip text).dropLast.getLast? = some '!' ∨
            (pyStrip text).dropLast.getLast? = some '?' ∨
            countChar squoteChar (pyStrip text) = 1)) →
      ¬ ((pyStrip text).head? = some squoteChar ∧
          ¬ (pyStrip text).getLast? = some squoteChar ∧
          countChar squoteChar (pyStrip text) = 1) →
      stripWrappingQuotes text = pyStrip text) := by
  refine ⟨?_, ?_, ?_, ?_⟩
  · intro hbig
    unfold stripWrappingQuotes
    rw [if_pos hbig]
  · intro hbig hlast hhead hdrop
    have hs2 : 2 ≤ (pyStrip text).length := by
      cases hh : (pyStrip text).head? with
      | none =>
        rw [List.head?_eq_none_iff] at hh
        rw [hh] at hlast; simp at hlast
      | some c =>
        refine two_le_length_of_head_ne_last hlast hh ?_
        intro hc; rw [hc] at hh; exact hhead hh
    obtain ⟨c, hc⟩ : ∃ c, (pyStrip text).head? = some c := by
      cases hh : (pyStrip text).head? with
      | none =>
        rw [List.head?_eq_none_iff] at hh
        rw [hh] at hlast; simp at hlast
      | some c => exact ⟨c, rfl⟩
    have hcsp : isPySpace c = false := pyStrip_head_not_space hc
    have hcq : ¬ c = squoteChar := by
      intro h; rw [h] at hc; exact hhead hc
    have hdl : (pyStrip text).dropLast.head? = some c := (head_dropLast hs2).trans hc
    have hrs : (pyRStrip (pyStrip text).dropLast).head? = some c ∨
        pyRStrip (pyStrip text).dropLast = [] := pyRStrip_head hdl hcsp
    have hg2 : (pyStrip text).getLast? = some squoteChar ∧
        ¬ (pyStrip text).head? = some squoteChar := ⟨hlast, hhead⟩
    have hguard : ¬ ((pyRStrip (pyStrip text).dropLast).head? = some squoteChar ∧
        ¬ (pyRStrip (pyStrip text).dropLast).getLast? = some squoteChar) := by
      intro hx
      rcases hrs with h | h
      · rw [h] at hx
        exact hcq (Option.some.inj hx.1)
      · rw [h] at hx; simp at hx
    unfold stripWrappingQuotes
    rw [if_neg hbig, if_pos hg2]
    by_cases hp : 2 ≤ (pyStrip text).length ∧ ((pyStrip text).dropLast.getLast? = some '.' ∨
        (pyStrip text).dropLast.getLast? = some '!' ∨ (pyStrip text).dropLast.getLast? = some '?')
    · rw [if_pos hp, if_neg hguard]
    · have hcnt : countChar squoteChar (pyStrip text) = 1 := by
        rcases hdrop with h | h | h | h
        · exact absurd ⟨hs2, Or.inl h⟩ hp
        · exact absurd ⟨hs2, Or.inr (Or.inl h)⟩ hp
        · exact absurd ⟨hs2, Or.inr (Or.inr h)⟩ hp
        · exact h
      rw [if_neg hp, if_pos hcnt, if_neg hguard]
  · intro hbig hhead hlast hcount
    unfold stripWrappingQuotes
    have hguard2 : ¬ ((pyStrip text).getLast? = some squoteChar ∧
        ¬ (pyStrip text).head? = some squoteChar) := by
      intro hx; exact hlast hx.1
    have hg3 : (pyStrip text).head? = some squoteChar ∧
        ¬ (pyStrip text).getLast? = some squoteChar := ⟨hhead, hlast⟩
    rw [if_neg hbig, if_neg hguard2, if_pos hg3, if_pos hcount]
  · intro hbig hno2 hno3
    unfold stripWrappingQuotes
    by_cases hg : (pyStrip text).getLast? = some squoteChar ∧
        ¬ (pyStrip text).head? = some squoteChar
    · have hnp : ¬ (2 ≤ (pyStrip text).length ∧ ((pyStrip text).dropLast.getLast? = some '.' ∨
          (pyStrip text).dropLast.getLast? = some '!' ∨
          (pyStrip text).dropLast.getLast? = some '?')) := by
        intro hx
        rcases hx.2 with h | h | h
        · exact hno2 ⟨hg.1, hg.2, Or.inl h⟩
        · exact hno2 ⟨hg.1, hg.2, Or.inr (Or.inl h)⟩
        · exact hno2 ⟨hg.1, hg.2, Or.inr (Or.inr (Or.inl h))⟩
      have hnc : ¬ countChar squoteChar (pyStrip text) = 1 := by
        intro hx; exact hno2 ⟨hg.1, hg.2, Or.inr (Or.inr (Or.inr hx))⟩
      have hguard3 : ¬ ((pyStrip text).head? = some squoteChar ∧
          ¬ (pyStrip text).getLast? = some squoteChar) := by
        intro hx; exact hg.2 hx.1
      rw [if_neg hbig, if_pos hg, if_neg hnp, if_neg hnc, if_neg hguard3]
    · by_cases hg3 : (pyStrip text).head? = some squoteChar ∧
          ¬ (pyStrip text).getLast? = some squoteChar
      · have hnc : ¬ countChar squoteChar (pyStrip text) = 1 := by
          intro hx; exact hno3 ⟨hg3.1, hg3.2, hx⟩
        rw [if_neg hbig, if_neg hg, if_pos hg3, if_neg hnc]
      · rw [if_neg hbig, if_neg hg, if_neg hg3]
/-! ## Association list lemmas -/

theorem alookup_aset_self (k : Str) (v : α) (l : List (Str × α)) :
    alookup k (aset k v l) = some v := by
  induction l with
  | nil => simp [aset, alookup]
  | cons p t ih =>
    obtain ⟨a, b⟩ := p
    by_cases h : a = k
    · subst h
      simp [aset, alookup]
    · simp [aset, alookup, h, ih]

theorem alookup_aset_ne {k k' : Str} (h : ¬ k = k') (v : α) (l : List (Str × α)) :
    alookup k' (aset k v l) = alookup k' l := by
  induction l with
  | nil => simp [aset, alookup, h]
  | cons p t ih =>
    obtain ⟨a, b⟩ := p
    by_cases ha : a = k
    · subst ha
      simp [aset, alookup, h]
    · simp only [aset, if_neg ha]
      by_cases hk : a = k'
      · simp [alookup, hk]
      · simp [alookup, hk, ih]

theorem aset_self_of_alookup {k : Str} {v : α} {l : List (Str × α)}
    (h : alookup k l = some v) : aset k v l = l := by
  induction l with
  | nil => simp [alookup] at h
  | cons p t ih =>
    obtain ⟨a, b⟩ := p
    by_cases ha : a = k
    · subst ha
      simp only [alookup, if_pos] at h
      rw [← Option.some.inj h]
      simp [aset]
    · simp only [alookup, if_neg ha] at h
      simp [aset, ha, ih h]

theorem alookup_eq_none_of_not_mem_keys {k : Str} {l : List (Str × α)}
    (h : ¬ k ∈ l.map Prod.fst) : alookup k l = none := by
  induction l with
  | nil => rfl
  | cons p t ih =>
    obtain ⟨a, b⟩ := p
    simp only [List.map_cons, List.mem_cons] at h
    push_neg at h
    have ha : ¬ a = k := fun hh => h.1 hh.symm
    simp only [alookup, if_neg ha]
    exact ih h.2

theorem mem_of_alookup_eq_some {k : Str} {v : α} {l : List (Str × α)}
    (h : alookup k l = some v) : (k, v) ∈ l := by
  induction l with
  | nil => simp [alookup] at h
  | cons p t ih =>
    obtain ⟨a, b⟩ := p
    by_cases ha : a = k
    · subst ha
      simp only [alookup, if_pos] at h
      rw [← Option.some.inj h]
      simp
    · simp only [alookup, if_neg ha] at h
      exact List.mem_cons_of_mem _ (ih h)

/-! ## Per-row helper functions

These name the values `generate`'s loop computes for one row; the
characterization lemmas below show `stepRow` equal to an explicit state
update phrased with them. -/

/-- The normalized day key of a row. -/
def rowDk (r : Row) : Str := stripWrappingQuotes (rowGet r DATEKEY_COL)

/-- The parsed version column of a row (default 1). -/
def rowVer (r : Row) : Int := parseIntDefault (rowGet r VERSION_COL) 1

/-- The normalized stored content hash of a row. -/
def rowStored (r : Row) : Str := stripWrappingQuotes (rowGet r CONTENT_HASH_COL)

/-- The content hash computed for a row. -/
def rowHash (r : Row) : Str := compute_content_hash (build_puzzle_object r (rowVer r))

/-- Whether the row's version is bumped: stored hash present and
different from the computed hash. -/
def rowBump (r : Row) : Bool := decide (¬ rowStored r = [] ∧ ¬ rowStored r = rowHash r)

/-- The version the row ends up with. -/
def rowFinalVer (r : Row) : Int := if rowBump r then rowVer r + 1 else rowVer r

/-- The puzzle record the row produces (rebuilt with the bumped version
when bumped). -/
def rowPuzzle (r : Row) : Puzzle := build_puzzle_object r (rowFinalVer r)

/-- The artifact file name `{dateKey}.v{version}.json`. -/
def rowFile (r : Row) : Str :=
  rowDk r ++ ".v".data ++ intRepr (rowFinalVer r) ++ ".json".data

/-- The manifest URL `/puzzles/{filename}`. -/
def rowUrl (r : Row) : Str := "/puzzles/".data ++ rowFile r

/-- The artifact digest recorded in the manifest. -/
def rowSha (r : Row) : Str := sha256Text (serializeArtifact (rowPuzzle r))

/-- The fresh manifest entry the row upserts. -/
def rowEntry (r : Row) : Json := manifestEntry (rowFinalVer r) (rowUrl r) (rowSha r)

/-- The row as mutated by the loop: version written back when bumped,
computed hash always written back. -/
def rowOut (r : Row) : Row :=
  aset CONTENT_HASH_COL (rowHash r)
    (if rowBump r then aset VERSION_COL (intRepr (rowFinalVer r)) r else r)

/-- Whether the upsert for this row changes the manifest by dict
equality, given the current `puzzles` object. -/
def rowEntryChanged (r : Row) (pm : JObj) : Bool :=
  match alookup (rowDk r) pm with
  | some e => ¬ entryEqPy e (rowFinalVer r) (rowUrl r) (rowSha r)
  | none => true

/-- The reason string reported for the row. -/
def rowReason (r : Row) : Str :=
  if rowBump r then "content changed -> version bumped".data
  else if rowStored r = [] then "initialized contentHash".data
  else "no content change".data

/-- The `RowResult` of a processed row against a directory state. -/
def rowResult (r : Row) (dir : List (Str × Str)) : RowResult :=
  ⟨rowDk r, rowFinalVer r, !(alookup (rowFile r) dir).isSome,
    (alookup (rowFile r) dir).isSome, rowBump r, rowReason r⟩

/-- A row is processed when it has content and a non-empty day key. -/
def rowProcessed (r : Row) : Bool :=
  rowHasAnyContent r && !(rowDk r).isEmpty

theorem stepRow_skip_blank (dry : Bool) (st : LoopState) (row : Row)
    (h : ¬ rowHasAnyContent row = true) :
    stepRow dry st row =
      { st with skippedBlank := st.skippedBlank + 1, rowsOut := st.rowsOut ++ [row] } := by
  unfold stepRow
  rw [if_pos h]

theorem stepRow_skip_date (dry : Bool) (st : LoopState) (row : Row)
    (h1 : rowHasAnyContent row = true) (h2 : rowDk row = []) :
    stepRow dry st row =
      { st with skippedDate := st.skippedDate + 1, rowsOut := st.rowsOut ++ [row] } := by
  have hnb : ¬ ¬ rowHasAnyContent row = true := by simp [h1]
  have h2' : stripWrappingQuotes (rowGet row DATEKEY_COL) = [] := h2
  simp only [stepRow]
  rw [if_neg hnb, if_pos h2']

/-- The loop body on a processed row, written out with the per-row
helpers. -/
theorem stepRow_processed (dry : Bool) (st : LoopState) (row : Row)
    (h1 : rowHasAnyContent row = true) (h2 : ¬ rowDk row = []) :
    stepRow dry st row =
      { results := st.results ++ [rowResult row st.dir],
        skippedBlank := st.skippedBlank,
        skippedDate := st.skippedDate,
        anyCsv := if rowBump row then true
          else if rowStored row = [] then true else st.anyCsv,
        anyMan := if rowEntryChanged row st.pm then true else st.anyMan,
        dir := if dry then st.dir
          else aset (rowFile row) (serializeArtifact (rowPuzzle row)) st.dir,
        pm := aset (rowDk row) (rowEntry row) st.pm,
        rowsOut := st.rowsOut ++ [rowOut row] } := by
  have hnb : ¬ ¬ rowHasAnyContent row = true := by simp [h1]
  have h2' : ¬ stripWrappingQuotes (rowGet row DATEKEY_COL) = [] := h2
  simp only [stepRow]
  rw [if_neg hnb, if_neg h2']
  simp only [rowResult, rowDk, rowVer, rowStored, rowHash, rowBump, rowFinalVer,
    rowPuzzle, rowFile, rowUrl, rowSha, rowEntry, rowOut, rowEntryChanged, rowReason]
  by_cases hb : (¬ stripWrappingQuotes (rowGet row CONTENT_HASH_COL) = [] ∧
      ¬ stripWrappingQuotes (rowGet row CONTENT_HASH_COL) =
        compute_content_hash (build_puzzle_object row
          (parseIntDefault (rowGet row VERSION_COL) 1))) <;>
    cases dry <;>
    simp [hb, Bool.and_true, Bool.and_false, apply_ite]

/-! ## Claim C2: version reconciliation -/

/-- **C2**: the version column parses with default 1 when blank or
unparseable (no exception escapes); a non-empty stored hash different
from the computed hash bumps the version by exactly one, rebuilds the
record with the new version and marks the row bumped; an empty stored
hash does not bump; the computed hash is always written back into the
row's contentHash field. -/
theorem claim_C2_version_reconciliation (dry : Bool) (st : LoopState) (row : Row)
    (h1 : rowHasAnyContent row = true) (h2 : ¬ rowDk row = []) :
    (stripWrappingQuotes (rowGet row VERSION_COL) = [] → rowVer row = 1) ∧
    (pyParseInt (stripWrappingQuotes (rowGet row VERSION_COL)) = none → rowVer row = 1) ∧
    (¬ rowStored row = [] → ¬ rowStored row = rowHash row →
      rowBump row = true ∧
      rowFinalVer row = rowVer row + 1 ∧
      rowPuzzle row = build_puzzle_object row (rowVer row + 1) ∧
      rowGet (rowOut row) VERSION_COL = intRepr (rowVer row + 1)) ∧
    (rowStored row = [] → rowBump row = false ∧ rowFinalVer row = rowVer row) ∧
    rowGet (rowOut row) CONTENT_HASH_COL = rowHash row ∧
    (stepRow dry st row).rowsOut = st.rowsOut ++ [rowOut row] ∧
    (stepRow dry st row).results =
      st.results ++ [⟨rowDk row, rowFinalVer row, !(alookup (rowFile row) st.dir).isSome,
        (alookup (rowFile row) st.dir).isSome, rowBump row, rowReason row⟩] := by
  have hVC : ¬ CONTENT_HASH_COL = VERSION_COL := by decide
  refine ⟨?_, ?_, ?_, ?_, ?_, ?_, ?_⟩
  · intro h
    simp [rowVer, parseIntDefault, h]
  · intro h
    by_cases hs : stripWrappingQuotes (rowGet row VERSION_COL) = []
    · simp [rowVer, parseIntDefault, hs]
    · simp [rowVer, parseIntDefault, hs, h]
  · intro hst hne
    have hb : rowBump row = true := by simp [rowBump, hst, hne]
    refine ⟨hb, ?_, ?_, ?_⟩
    · simp [rowFinalVer, hb]
    · simp [rowPuzzle, rowFinalVer, hb]
    · rw [rowOut, hb, if_pos rfl, rowGet, alookup_aset_ne hVC, alookup_aset_self]
      simp [rowFinalVer, hb]
  · intro hst
    have hb : rowBump row = false := by simp [rowBump, hst]
    exact ⟨hb, by simp [rowFinalVer, hb]⟩
  · rw [rowOut, rowGet, alookup_aset_self]
    rfl
  · rw [stepRow_processed dry st row h1 h2]
  · rw [stepRow_processed dry st row h1 h2]
    rfl

/-- Witness for C2: a row with a stale stored hash is bumped from
version 1 to 2 and gets the computed hash written back. -/
theorem claim_C2_version_reconciliation_witness :
    rowBump [(DATEKEY_COL, "2024-01-01".data), (VERSION_COL, "x1".data),
      (CONTENT_HASH_COL, "stale".data)] = true ∧
    rowVer [(DATEKEY_COL, "2024-01-01".data), (VERSION_COL, "x1".data),
      (CONTENT_HASH_COL, "stale".data)] = 1 ∧
    rowFinalVer [(DATEKEY_COL, "2024-01-01".data), (VERSION_COL, "x1".data),
      (CONTENT_HASH_COL, "stale".data)] = 2 ∧
    rowGet (rowOut [(DATEKEY_COL, "2024-01-01".data), (VERSION_COL, "x1".data),
        (CONTENT_HASH_COL, "stale".data)]) CONTENT_HASH_COL =
      rowHash [(DATEKEY_COL, "2024-01-01".data), (VERSION_COL, "x1".data),
        (CONTENT_HASH_COL, "stale".data)] := by
  have h := claim_C2_version_reconciliation false ⟨[], 0, 0, false, false, [], [], []⟩
    [(DATEKEY_COL, "2024-01-01".data), (VERSION_COL, "x1".data),
      (CONTENT_HASH_COL, "stale".data)] (by decide) (by decide)
  have hb := h.2.2.1 (by decide) (by decide)
  refine ⟨hb.1, h.2.1 (by decide), ?_, h.2.2.2.2.1⟩
  rw [hb.2.1, h.2.1 (by decide)]
  decide

/-! ## Claims C7 and C10: fatal conditions and manifest shape repair -/

/-- Whether a run completed without an uncaught exception. -/
def exceptIsOk : Except Str GenOut → Bool
  | .ok _ => true
  | .error _ => false

instance {ε α : Type} [DecidableEq ε] [DecidableEq α] : DecidableEq (Except ε α) := fun a b =>
  match a, b with
  | .ok x, .ok y =>
    if h : x = y then .isTrue (h ▸ rfl) else .isFalse (fun hh => h (Except.ok.inj hh))
  | .error x, .error y =>
    if h : x = y then .isTrue (h ▸ rfl) else .isFalse (fun hh => h (Except.error.inj hh))
  | .ok _, .error _ => .isFalse (fun hh => Except.noConfusion hh)
  | .error _, .ok _ => .isFalse (fun hh => Except.noConfusion hh)

/-- The final table header of a successful run. -/
def genTableHeader : Except Str GenOut → Option (List Str)
  | .ok o => some o.table.header
  | .error _ => none

/-- The `anyMan` report flag of a successful run. -/
def genAnyMan : Except Str GenOut → Option Bool
  | .ok o => some o.anyMan
  | .error _ => none

/-- The manifest file left on disk by a successful run. -/
def genManifestFileOut : Except Str GenOut → Option (Option Json)
  | .ok o => some o.manifestFileOut
  | .error _ => none

/-- The `puzzles` entry of the final in-memory manifest at a key. -/
def manifestEntryAt (k : Str) : Except Str GenOut → Option (Option Json)
  | .ok o => some (alookup k (getObj o.manifest "puzzles".data))
  | .error _ => none

/-- A well-formed two-record fixture file: the full header and one row. -/
def fixtureRecords : List (List Str) :=
  [REQUIRED_COLS ++ [CONTENT_HASH_COL],
   ["2024-01-01".data, "cat".data, [], "ans".data, [], "sol".data, [], []]]

/-- A fixed clock value for concrete runs. -/
def fixtureNow : UtcTime := ⟨2026, 1, 1, 0, 0, 0⟩

/-- A fixture whose data record is one field longer than the header,
with every field blank: `DictReader` hands the row loop a `restkey`
list and the loop crashes. -/
def restkeyRecords : List (List Str) :=
  [REQUIRED_COLS ++ [CONTENT_HASH_COL],
   [[], [], [], [], [], [], [], [], []]]

/-- A manifest file parsing to a non-object JSON value is fatal
(`ensure_manifest_shape` raises `TypeError` assigning into it),
whatever else holds. -/
theorem generate_err_of_nonobj (fs : FsIn) (dry : Bool) (now : UtcTime)
    (j : Json) (hno : ∀ o, ¬ j = Json.obj o) (hmf : fs.manifestFile = some j) :
    ∃ e, generate fs dry now = .error e := by
  cases hcsv : read_csv_table fs.csvFile with
  | error e => exact ⟨e, by simp only [generate, hcsv]⟩
  | ok t =>
    by_cases hmiss : ¬ missingColumns t = []
    · exact ⟨"Missing required column(s)".data, by
        simp only [generate, hcsv, if_pos hmiss]⟩
    · cases j with
      | obj o => exact absurd rfl (hno o)
      | str s => exact ⟨"TypeError: manifest is not an object".data, by
          simp only [generate, hcsv, if_neg hmiss, hmf]⟩
      | num n => exact ⟨"TypeError: manifest is not an object".data, by
          simp only [generate, hcsv, if_neg hmiss, hmf]⟩
      | bool b => exact ⟨"TypeError: manifest is not an object".data, by
          simp only [generate, hcsv, if_neg hmiss, hmf]⟩
      | null => exact ⟨"TypeError: manifest is not an object".data, by
          simp only [generate, hcsv, if_neg hmiss, hmf]⟩
      | arr l => exact ⟨"TypeError: manifest is not an object".data, by
          simp only [generate, hcsv, if_neg hmiss, hmf]⟩

/-- A `restkey` record with blank named fields makes the run fail,
whatever else holds (the earlier fatal conditions produce their own
errors; otherwise the row loop raises `AttributeError`). -/
theorem generate_restkey_err (fs : FsIn) (dry : Bool) (now : UtcTime)
    (t : CsvTable) (hcsv : read_csv_table fs.csvFile = .ok t)
    (hcr : (fs.csvFile.drop 1).any (recordRestkeyCrash t.header) = true) :
    ∃ e, generate fs dry now = .error e := by
  by_cases hmiss : ¬ missingColumns t = []
  · exact ⟨"Missing required column(s)".data, by
      simp only [generate, hcsv, if_pos hmiss]⟩
  · cases hmf : fs.manifestFile with
    | none => exact ⟨"manifest missing or unparseable".data, by
        simp only [generate, hcsv, if_neg hmiss, hmf]⟩
    | some j =>
      cases j with
      | obj m0 => exact ⟨"AttributeError: list has no attribute strip".data, by
          simp only [generate, hcsv, if_neg hmiss, hmf, hcr]⟩
      | str s =>
        exact generate_err_of_nonobj fs dry now _ (fun o h => Json.noConfusion h) hmf
      | num n =>
        exact generate_err_of_nonobj fs dry now _ (fun o h => Json.noConfusion h) hmf
      | bool b =>
        exact generate_err_of_nonobj fs dry now _ (fun o h => Json.noConfusion h) hmf
      | null =>
        exact generate_err_of_nonobj fs dry now _ (fun o h => Json.noConfusion h) hmf
      | arr l =>
        exact generate_err_of_nonobj fs dry now _ (fun o h => Json.noConfusion h) hmf

/-- A successful run implies no record crashes the row loop. -/
theorem generate_ok_no_crash {fs : FsIn} {dry : Bool} {now : UtcTime}
    {t : CsvTable} {out : GenOut}
    (hcsv : read_csv_table fs.csvFile = .ok t)
    (hok : generate fs dry now = .ok out) :
    (fs.csvFile.drop 1).any (recordRestkeyCrash t.header) = false := by
  cases hcr : (fs.csvFile.drop 1).any (recordRestkeyCrash t.header) with
  | false => rfl
  | true =>
    obtain ⟨e, he⟩ := generate_restkey_err fs dry now t hcsv hcr
    rw [hok] at he
    cases he

/-- A successful run implies the manifest file parsed to an object. -/
theorem generate_ok_manifest_obj {fs : FsIn} {dry : Bool} {now : UtcTime}
    {out : GenOut} (hok : generate fs dry now = .ok out) :
    ∃ m0, fs.manifestFile = some (Json.obj m0) := by
  cases hmf : fs.manifestFile with
  | none =>
    cases hcsv : read_csv_table fs.csvFile with
    | error e =>
      have : generate fs dry now = .error e := by simp only [generate, hcsv]
      rw [hok] at this
      cases this
    | ok t =>
      by_cases hmiss : ¬ missingColumns t = []
      · have : generate fs dry now =
            .error ("Missing required column(s)".data) := by
          simp only [generate, hcsv, if_pos hmiss]
        rw [hok] at this
        cases this
      · have : generate fs dry now =
            .error ("manifest missing or unparseable".data) := by
          simp only [generate, hcsv, if_neg hmiss, hmf]
        rw [hok] at this
        cases this
  | some j =>
    cases hj : j with
    | obj m0 => exact ⟨m0, rfl⟩
    | str s =>
      obtain ⟨e, he⟩ :=
        generate_err_of_nonobj fs dry now _ (fun o h => Json.noConfusion h) (hj ▸ hmf)
      rw [hok] at he
      cases he
    | num n =>
      obtain ⟨e, he⟩ :=
        generate_err_of_nonobj fs dry now _ (fun o h => Json.noConfusion h) (hj ▸ hmf)
      rw [hok] at he
      cases he
    | bool b =>
      obtain ⟨e, he⟩ :=
        generate_err_of_nonobj fs dry now _ (fun o h => Json.noConfusion h) (hj ▸ hmf)
      rw [hok] at he
      cases he
    | null =>
      obtain ⟨e, he⟩ :=
        generate_err_of_nonobj fs dry now _ (fun o h => Json.noConfusion h) (hj ▸ hmf)
      rw [hok] at he
      cases he
    | arr l =>
      obtain ⟨e, he⟩ :=
        generate_err_of_nonobj fs dry now _ (fun o h => Json.noConfusion h) (hj ▸ hmf)
      rw [hok] at he
      cases he

theorem read_csv_table_error_iff (records : List (List Str)) :
    (∃ e, read_csv_table records = .error e) ↔
      records = [] ∨ ∃ hd tl, records = hd :: tl ∧ hd = [] := by
  cases records with
  | nil => simp [read_csv_table]
  | cons hd tl =>
    by_cases h : hd = []
    · simp [read_csv_table, h]
    · simp [read_csv_table, h]

/-- **C7** (amended): `generate` aborts with an error exactly when the
input file is empty, no header row is detected, a required column is
missing, the manifest file is missing, unparseable or parses to a
non-object JSON value, or some record has more fields than the header
while all its named fields are blank (the `restkey` list makes
`_row_has_any_content` raise `AttributeError`; that abort happens
mid-loop, so a real run may already have written artifacts of earlier
rows, while the other aborts precede all output); a missing
contentHash column is not fatal and is instead appended to the
header. -/
theorem claim_C7_abort_conditions (fs : FsIn) (dry : Bool) (now : UtcTime) :
    ((∃ e, generate fs dry now = .error e) ↔
      (fs.csvFile = [] ∨ (∃ hd tl, fs.csvFile = hd :: tl ∧ hd = []) ∨
        (∃ t, read_csv_table fs.csvFile = .ok t ∧ ¬ missingColumns t = []) ∨
        fs.manifestFile = none ∨
        (∃ j, fs.manifestFile = some j ∧ ∀ o, ¬ j = Json.obj o) ∨
        (∃ t, read_csv_table fs.csvFile = .ok t ∧
          (fs.csvFile.drop 1).any (recordRestkeyCrash t.header) = true))) ∧
    (∀ t out, read_csv_table fs.csvFile = .ok t →
      generate fs dry now = .ok out →
      out.table.header =
        (if CONTENT_HASH_COL ∈ t.header then t.header
         else t.header ++ [CONTENT_HASH_COL])) := by
  constructor
  · constructor
    · rintro ⟨e, he⟩
      cases hcsv : read_csv_table fs.csvFile with
      | error e2 =>
        rcases (read_csv_table_error_iff fs.csvFile).mp ⟨e2, hcsv⟩ with h | h
        · exact Or.inl h
        · exact Or.inr (Or.inl h)
      | ok t =>
        by_cases hmiss : ¬ missingColumns t = []
        · exact Or.inr (Or.inr (Or.inl ⟨t, rfl, hmiss⟩))
        · cases hmf : fs.manifestFile with
          | none => exact Or.inr (Or.inr (Or.inr (Or.inl rfl)))
          | some j =>
            by_cases hobj : ∃ o, j = Json.obj o
            · obtain ⟨m0, rfl⟩ := hobj
              cases hcr : (fs.csvFile.drop 1).any (recordRestkeyCrash t.header) with
              | true =>
                exact Or.inr (Or.inr (Or.inr (Or.inr (Or.inr ⟨t, rfl, hcr⟩))))
              | false =>
                obtain ⟨out, hout⟩ : ∃ out, generate fs dry now = .ok out := by
                  simp only [generate, hcsv, if_neg hmiss, hmf, hcr]
                  exact ⟨_, rfl⟩
                rw [hout] at he
                cases he
            · push_neg at hobj
              exact Or.inr (Or.inr (Or.inr (Or.inr (Or.inl ⟨j, rfl, hobj⟩))))
    · intro h
      cases hcsv : read_csv_table fs.csvFile with
      | error e2 =>
        exact ⟨e2, by simp only [generate, hcsv]⟩
      | ok t =>
        by_cases hmiss : ¬ missingColumns t = []
        · exact ⟨"Missing required column(s)".data, by
            simp only [generate, hcsv, if_pos hmiss]⟩
        · cases hmf : fs.manifestFile with
          | none =>
            exact ⟨"manifest missing or unparseable".data, by
              simp only [generate, hcsv, if_neg hmiss, hmf]⟩
          | some j =>
            by_cases hobj : ∃ o, j = Json.obj o
            · obtain ⟨m0, rfl⟩ := hobj
              cases hcr : (fs.csvFile.drop 1).any (recordRestkeyCrash t.header) with
              | true => exact generate_restkey_err fs dry now t hcsv hcr
              | false =>
                exfalso
                rcases h with h | h | h | h | h | h
                · rw [h] at hcsv; simp [read_csv_table] at hcsv
                · obtain ⟨hd, tl, hrec, hhd⟩ := h
                  rw [hrec] at hcsv
                  simp [read_csv_table, hhd] at hcsv
                · obtain ⟨t2, ht2, hm2⟩ := h
                  rw [hcsv] at ht2
                  cases ht2
                  exact hmiss hm2
                · rw [hmf] at h; cases h
                · obtain ⟨j2, hj2, hno⟩ := h
                  rw [hmf] at hj2
                  simp only [Option.some.injEq] at hj2
                  exact hno m0 hj2.symm
                · obtain ⟨t2, ht2, hcr2⟩ := h
                  rw [hcsv] at ht2
                  cases ht2
                  rw [hcr] at hcr2
                  cases hcr2
            · push_neg at hobj
              exact generate_err_of_nonobj fs dry now j hobj hmf
  · intro t out hcsv hok
    have hcr : (fs.csvFile.drop 1).any (recordRestkeyCrash t.header) = false :=
      generate_ok_no_crash hcsv hok
    obtain ⟨m0, hmf⟩ := generate_ok_manifest_obj hok
    simp only [generate, hcsv] at hok
    by_cases hmiss : ¬ missingColumns t = []
    · rw [if_pos hmiss] at hok; cases hok
    · rw [if_neg hmiss, hmf] at hok
      simp only [hcr, Except.ok.injEq] at hok
      rw [← hok]

/-- Counterexample for C7 as frozen: a run whose input table is
non-empty, has a detected header and every required column, yet aborts
because the manifest file is absent — so the listed conditions are not
the only fatal ones. -/
theorem claim_C7_counterexample :
    exceptIsOk (generate ⟨fixtureRecords, [], none⟩ false fixtureNow) = false ∧
    fixtureRecords.length = 2 ∧
    (fixtureRecords.headD []).length = 8 ∧
    missingColumns ⟨fixtureRecords.headD [], []⟩ = [] := by decide

/-- Witness for C7: every abort condition hit concretely — empty file,
blank header record, missing required column, absent manifest,
non-object manifest, `restkey` crash record — and a missing contentHash
column appended. -/
theorem claim_C7_abort_conditions_witness :
    exceptIsOk (generate ⟨[], [], some (Json.obj [])⟩ false fixtureNow) = false ∧
    exceptIsOk (generate ⟨[[], ["x".data]], [], some (Json.obj [])⟩ false fixtureNow) = false ∧
    exceptIsOk (generate ⟨[["x".data]], [], some (Json.obj [])⟩ false fixtureNow) = false ∧
    exceptIsOk (generate ⟨fixtureRecords, [], none⟩ false fixtureNow) = false ∧
    exceptIsOk (generate ⟨fixtureRecords, [], some (Json.arr [])⟩ false fixtureNow) = false ∧
    exceptIsOk (generate ⟨restkeyRecords, [], some (Json.obj [])⟩ false fixtureNow) = false ∧
    genTableHeader (generate ⟨[REQUIRED_COLS, []], [], some (Json.obj [])⟩ false fixtureNow) =
      some (REQUIRED_COLS ++ [CONTENT_HASH_COL]) := by
  refine ⟨?_, ?_, ?_, ?_, ?_, ?_, ?_⟩
  · obtain ⟨e, he⟩ := (claim_C7_abort_conditions ⟨[], [], some (Json.obj [])⟩
      false fixtureNow).1.mpr (Or.inl rfl)
    rw [he]; rfl
  · obtain ⟨e, he⟩ := (claim_C7_abort_conditions ⟨[[], ["x".data]], [], some (Json.obj [])⟩
      false fixtureNow).1.mpr (Or.inr (Or.inl ⟨[], [["x".data]], rfl, rfl⟩))
    rw [he]; rfl
  · obtain ⟨e, he⟩ := (claim_C7_abort_conditions ⟨[["x".data]], [], some (Json.obj [])⟩
      false fixtureNow).1.mpr
      (Or.inr (Or.inr (Or.inl ⟨⟨["x".data], []⟩, by decide, by decide⟩)))
    rw [he]; rfl
  · obtain ⟨e, he⟩ := (claim_C7_abort_conditions ⟨fixtureRecords, [], none⟩
      false fixtureNow).1.mpr (Or.inr (Or.inr (Or.inr (Or.inl rfl))))
    rw [he]; rfl
  · obtain ⟨e, he⟩ := (claim_C7_abort_conditions ⟨fixtureRecords, [], some (Json.arr [])⟩
      false fixtureNow).1.mpr (Or.inr (Or.inr (Or.inr (Or.inr (Or.inl
        ⟨Json.arr [], rfl, fun o h => Json.noConfusion h⟩)))))
    rw [he]; rfl
  · obtain ⟨e, he⟩ := (claim_C7_abort_conditions ⟨restkeyRecords, [], some (Json.obj [])⟩
      false fixtureNow).1.mpr (Or.inr (Or.inr (Or.inr (Or.inr (Or.inr
        ⟨⟨restkeyRecords.headD [],
          [zipRow (restkeyRecords.headD []) (restkeyRecords.getD 1 [])]⟩,
          by decide, by decide⟩)))))
    rw [he]; rfl
  · cases hgen : generate ⟨[REQUIRED_COLS, []], [], some (Json.obj [])⟩ false fixtureNow with
    | error e =>
      have hok : exceptIsOk (generate ⟨[REQUIRED_COLS, []], [], some (Json.obj [])⟩ false fixtureNow)
          = true := by decide
      rw [hgen] at hok
      simp [exceptIsOk] at hok
    | ok out =>
      have := (claim_C7_abort_conditions ⟨[REQUIRED_COLS, []], [], some (Json.obj [])⟩
        false fixtureNow).2 ⟨REQUIRED_COLS, []⟩ out (by decide) hgen
      simp only [genTableHeader, Option.some.injEq]
      rw [this]
      decide

/-- How `ensure_manifest_shape` affects each key: a well-shaped
`puzzles`/`meta` member is preserved, an absent or non-object one is
replaced by an empty object, and every other member is untouched. -/
theorem ensure_shape_spec (m : JObj) :
    (alookup "puzzles".data (ensure_manifest_shape m) =
      (match alookup "puzzles".data m with
       | some (Json.obj o) => some (Json.obj o)
       | _ => some (Json.obj []))) ∧
    (alookup "meta".data (ensure_manifest_shape m) =
      (match alookup "meta".data m with
       | some (Json.obj o) => some (Json.obj o)
       | _ => some (Json.obj []))) ∧
    (∀ k, ¬ k = "puzzles".data → ¬ k = "meta".data →
      alookup k (ensure_manifest_shape m) = alookup k m) := by
  have hpm : ¬ ("meta".data : Str) = "puzzles".data := by decide
  set m1 : JObj := (match alookup "puzzles".data m with
    | some (Json.obj _) => m
    | _ => aset "puzzles".data (Json.obj []) m) with hm1
  have h1p : alookup "puzzles".data m1 =
      (match alookup "puzzles".data m with
       | some (Json.obj o) => some (Json.obj o)
       | _ => some (Json.obj [])) := by
    rw [hm1]
    cases hp : alookup "puzzles".data m with
    | none => simp [alookup_aset_self]
    | some j => cases j <;> simp [alookup_aset_self, hp]
  have hmp : ¬ ("puzzles".data : Str) = "meta".data := by decide
  have h1m : alookup "meta".data m1 = alookup "meta".data m := by
    rw [hm1]
    cases hp : alookup "puzzles".data m with
    | none => simp [alookup_aset_ne hmp]
    | some j => cases j <;> simp [alookup_aset_ne hmp]
  have h1o : ∀ k, ¬ k = "puzzles".data → alookup k m1 = alookup k m := by
    intro k hk
    have hpk : ¬ ("puzzles".data : Str) = k := fun h => hk h.symm
    rw [hm1]
    cases hp : alookup "puzzles".data m with
    | none => simp [alookup_aset_ne hpk]
    | some j => cases j <;> simp [alookup_aset_ne hpk]
  have hens : ensure_manifest_shape m =
      (match alookup "meta".data m1 with
       | some (Json.obj _) => m1
       | _ => aset "meta".data (Json.obj []) m1) := by
    rw [hm1]
    rfl
  refine ⟨?_, ?_, ?_⟩
  · rw [hens]
    cases hml : alookup "meta".data m1 with
    | none => rw [alookup_aset_ne hpm]; exact h1p
    | some j =>
      cases j <;>
        first
          | exact h1p
          | (rw [alookup_aset_ne hpm]; exact h1p)
  · rw [hens, ← h1m]
    cases hml : alookup "meta".data m1 with
    | none => simp [alookup_aset_self]
    | some j => cases j <;> simp [alookup_aset_self, hml]
  · intro k hk1 hk2
    have hmk : ¬ ("meta".data : Str) = k := fun h => hk2 h.symm
    rw [hens, ← h1o k hk1]
    cases hml : alookup "meta".data m1 with
    | none => rw [alookup_aset_ne hmk]
    | some j =>
      cases j <;>
        first
          | rfl
          | rw [alookup_aset_ne hmk]

/-- **C10** (amended): a manifest file that parses as a JSON *object*
lacking a `puzzles` or `meta` member, or whose member is not an object,
does not abort the run: the offending member is replaced in memory by an
empty object, other members are untouched, and processing proceeds.  A
missing or unparseable manifest file is fatal — and, contrary to the
claim as frozen, so is a manifest file that parses to a non-object JSON
value, where `ensure_manifest_shape` assigns into the non-dict and
raises `TypeError` (see the counterexample). -/
theorem claim_C10_manifest_shape (m : JObj) (j : Json) (fs : FsIn) (dry : Bool)
    (now : UtcTime) :
    ((¬ ∃ o, alookup "puzzles".data m = some (Json.obj o)) →
      alookup "puzzles".data (ensure_manifest_shape m) = some (Json.obj [])) ∧
    (∀ o, alookup "puzzles".data m = some (Json.obj o) →
      alookup "puzzles".data (ensure_manifest_shape m) = some (Json.obj o)) ∧
    ((¬ ∃ o, alookup "meta".data m = some (Json.obj o)) →
      alookup "meta".data (ensure_manifest_shape m) = some (Json.obj [])) ∧
    (∀ o, alookup "meta".data m = some (Json.obj o) →
      alookup "meta".data (ensure_manifest_shape m) = some (Json.obj o)) ∧
    (∀ k, ¬ k = "puzzles".data → ¬ k = "meta".data →
      alookup k (ensure_manifest_shape m) = alookup k m) ∧
    (∀ t, read_csv_table fs.csvFile = .ok t → missingColumns t = [] →
      (fs.csvFile.drop 1).any (recordRestkeyCrash t.header) = false →
      fs.manifestFile = some (Json.obj m) → ∃ out, generate fs dry now = .ok out) ∧
    (fs.manifestFile = none → ∃ e, generate fs dry now = .error e) ∧
    ((∀ o, ¬ j = Json.obj o) → fs.manifestFile = some j →
      ∃ e, generate fs dry now = .error e) := by
  obtain ⟨hp, hm, ho⟩ := ensure_shape_spec m
  refine ⟨?_, ?_, ?_, ?_, ho, ?_, ?_, ?_⟩
  · intro hno
    rw [hp]
    cases hj : alookup "puzzles".data m with
    | none => rfl
    | some j =>
      cases j <;> first
        | rfl
        | exact absurd ⟨_, hj⟩ hno
  · intro o hj
    rw [hp, hj]
  · intro hno
    rw [hm]
    cases hj : alookup "meta".data m with
    | none => rfl
    | some j =>
      cases j <;> first
        | rfl
        | exact absurd ⟨_, hj⟩ hno
  · intro o hj
    rw [hm, hj]
  · intro t hcsv hmiss hcr hmf
    have hmiss2 : ¬ ¬ missingColumns t = [] := by simp [hmiss]
    simp only [generate, hcsv, if_neg hmiss2, hmf, hcr]
    exact ⟨_, rfl⟩
  · intro hmf
    cases hcsv : read_csv_table fs.csvFile with
    | error e => exact ⟨e, by simp only [generate, hcsv]⟩
    | ok t =>
      by_cases hmiss : ¬ missingColumns t = []
      · exact ⟨"Missing required column(s)".data, by
          simp only [generate, hcsv, if_pos hmiss]⟩
      · exact ⟨"manifest missing or unparseable".data, by
          simp only [generate, hcsv, if_neg hmiss, hmf]⟩
  · intro hno hmf
    exact generate_err_of_nonobj fs dry now j hno hmf

/-- Counterexample for C10 as frozen: a manifest file holding `[]` —
valid JSON that lacks a `puzzles` and a `meta` key — aborts the run,
while the same run over a manifest parsing to the empty object
succeeds; so a missing or unparseable manifest file is not the only
fatal manifest state. -/
theorem claim_C10_counterexample :
    exceptIsOk (generate ⟨fixtureRecords, [], some (Json.arr [])⟩ false fixtureNow)
      = false ∧
    exceptIsOk (generate ⟨fixtureRecords, [], some (Json.obj [])⟩ false fixtureNow)
      = true := by decide

/-- Witness for C10: a manifest object with a string `puzzles` member
and no `meta` is repaired in memory and the run succeeds; the absent
manifest and the array-valued manifest abort. -/
theorem claim_C10_manifest_shape_witness :
    alookup "puzzles".data
      (ensure_manifest_shape [("puzzles".data, Json.str "x".data)]) =
      some (Json.obj []) ∧
    alookup "meta".data
      (ensure_manifest_shape [("puzzles".data, Json.str "x".data)]) =
      some (Json.obj []) ∧
    exceptIsOk (generate ⟨fixtureRecords, [],
      some (Json.obj [("puzzles".data, Json.str "x".data)])⟩ false fixtureNow) = true ∧
    exceptIsOk (generate ⟨fixtureRecords, [], none⟩ false fixtureNow) = false ∧
    exceptIsOk (generate ⟨restkeyRecords, [], some (Json.str "x".data)⟩
      false fixtureNow) = false := by
  have h := claim_C10_manifest_shape [("puzzles".data, Json.str "x".data)]
    (Json.str "x".data)
    ⟨fixtureRecords, [], some (Json.obj [("puzzles".data, Json.str "x".data)])⟩
    false fixtureNow
  have h2 := claim_C10_manifest_shape [("puzzles".data, Json.str "x".data)]
    (Json.str "x".data) ⟨fixtureRecords, [], none⟩ false fixtureNow
  have h3 := claim_C10_manifest_shape [] (Json.str "x".data)
    ⟨restkeyRecords, [], some (Json.str "x".data)⟩ false fixtureNow
  have hnp : ¬ ∃ o, alookup "puzzles".data [("puzzles".data, Json.str "x".data)] =
      some (Json.obj o) := by
    rintro ⟨o, ho⟩
    rw [show alookup "puzzles".data [("puzzles".data, Json.str "x".data)] =
      some (Json.str "x".data) from rfl] at ho
    simp at ho
  have hnm : ¬ ∃ o, alookup "meta".data [("puzzles".data, Json.str "x".data)] =
      some (Json.obj o) := by
    rintro ⟨o, ho⟩
    rw [show alookup "meta".data [("puzzles".data, Json.str "x".data)] =
      none from rfl] at ho
    simp at ho
  obtain ⟨out, hout⟩ := h.2.2.2.2.2.1
    ⟨fixtureRecords.headD [], [fixtureRecords.getD 1 []].map (zipRow (fixtureRecords.headD []))⟩
    (by decide) (by decide) (by decide) rfl
  obtain ⟨e, herr⟩ := h2.2.2.2.2.2.2.1 rfl
  obtain ⟨e2, herr2⟩ := h3.2.2.2.2.2.2.2 (fun o hh => Json.noConfusion hh) rfl
  refine ⟨h.1 hnp, h.2.2.1 hnm, ?_, ?_, ?_⟩
  · rw [hout]; rfl
  · rw [herr]; rfl
  · rw [herr2]; rfl

/-! ## Claim C6: skip semantics -/

/-- **C6** (amended): a row with at most header-many fields whose fields
are all blank, or any row reaching the loop body whose day key
normalizes to empty, is skipped and counted, and contributes no puzzle
artifact, no manifest entry, no table mutation and no row result (the
state changes only its counter, and the row is carried through
unchanged); every other row reaching the loop body is processed into
exactly one row result.  Contrary to the claim as frozen, a record with
more fields than the header whose named fields are all blank is not
skipped: `DictReader` keeps the surplus as a list under the `restkey`
`None`, `_row_has_any_content` raises `AttributeError` on it, and the
run aborts (see the counterexample). -/
theorem claim_C6_skip_semantics (dry : Bool) (st : LoopState) (row : Row)
    (fs : FsIn) (now : UtcTime) :
    (¬ rowHasAnyContent row = true →
      stepRow dry st row =
        { st with skippedBlank := st.skippedBlank + 1,
                  rowsOut := st.rowsOut ++ [row] }) ∧
    (rowHasAnyContent row = true → rowDk row = [] →
      stepRow dry st row =
        { st with skippedDate := st.skippedDate + 1,
                  rowsOut := st.rowsOut ++ [row] }) ∧
    (rowHasAnyContent row = true → ¬ rowDk row = [] →
      (stepRow dry st row).results = st.results ++ [rowResult row st.dir] ∧
      (stepRow dry st row).skippedBlank = st.skippedBlank ∧
      (stepRow dry st row).skippedDate = st.skippedDate) ∧
    ((∃ t, read_csv_table fs.csvFile = .ok t ∧
        (fs.csvFile.drop 1).any (recordRestkeyCrash t.header) = true) →
      ∃ e, generate fs dry now = .error e) := by
  refine ⟨fun h => stepRow_skip_blank dry st row h,
    fun h1 h2 => stepRow_skip_date dry st row h1 h2,
    fun h1 h2 => ?_, fun h3 => ?_⟩
  · rw [stepRow_processed dry st row h1 h2]
    exact ⟨rfl, rfl, rfl⟩
  · obtain ⟨t, hcsv, hcr⟩ := h3
    exact generate_restkey_err fs dry now t hcsv hcr

/-- Counterexample for C6 as frozen: a record of nine blank fields under
the eight-column header — every field blank after stripping — aborts the
run with an error instead of being skipped and counted. -/
theorem claim_C6_counterexample :
    (restkeyRecords.getD 1 []).all (fun f => (pyStrip f).isEmpty) = true ∧
    (restkeyRecords.getD 1 []).length = 9 ∧
    (restkeyRecords.headD []).length = 8 ∧
    exceptIsOk (generate ⟨restkeyRecords, [], some (Json.obj [])⟩ false fixtureNow)
      = false := by decide

/-- Witness for C6: a blank row, a missing-date row, a processed row,
and a run aborted by a blank over-long record. -/
theorem claim_C6_skip_semantics_witness :
    stepRow false ⟨[], 0, 0, false, false, [], [], []⟩ [(CATEGORY_COL, "  ".data)] =
      ⟨[], 1, 0, false, false, [], [], [[(CATEGORY_COL, "  ".data)]]⟩ ∧
    stepRow false ⟨[], 0, 0, false, false, [], [], []⟩ [(CATEGORY_COL, "x".data)] =
      ⟨[], 0, 1, false, false, [], [], [[(CATEGORY_COL, "x".data)]]⟩ ∧
    (stepRow false ⟨[], 0, 0, false, false, [], [], []⟩
        [(DATEKEY_COL, "2024-01-01".data)]).results.length = 1 ∧
    exceptIsOk (generate ⟨restkeyRecords, [], some (Json.obj [])⟩ false fixtureNow)
      = false := by
  refine ⟨?_, ?_, ?_, ?_⟩
  · exact ((claim_C6_skip_semantics false _ _ ⟨[], [], none⟩ fixtureNow).1
      (by decide)).trans (by decide)
  · exact ((claim_C6_skip_semantics false _ _ ⟨[], [], none⟩ fixtureNow).2.1
      (by decide) (by decide)).trans (by decide)
  · rw [((claim_C6_skip_semantics false _ _ ⟨[], [], none⟩ fixtureNow).2.2.1
      (by decide) (by decide)).1]
    decide
  · obtain ⟨e, he⟩ := (claim_C6_skip_semantics false
      ⟨[], 0, 0, false, false, [], [], []⟩ []
      ⟨restkeyRecords, [], some (Json.obj [])⟩ fixtureNow).2.2.2
      ⟨⟨restkeyRecords.headD [],
        [zipRow (restkeyRecords.headD []) (restkeyRecords.getD 1 [])]⟩,
        by decide, by decide⟩
    rw [he]; rfl

/-! ## Claim C9: the manifest update is upsert-only -/

/-- The normalized day keys of the processed rows of a list. -/
def processedDks (rows : List Row) : List Str :=
  (rows.filter (fun r => rowProcessed r)).map rowDk

/-- The loop state `generate` starts its row loop from. -/
def initState (fs : FsIn) (m0 : JObj) : LoopState :=
  ⟨[], 0, 0, false, false, fs.puzzleFiles,
    getObj (ensure_manifest_shape m0) "puzzles".data, []⟩

theorem rowProcessed_iff (r : Row) :
    rowProcessed r = true ↔ (rowHasAnyContent r = true ∧ ¬ rowDk r = []) := by
  simp [rowProcessed, List.isEmpty_iff]

theorem processedDks_cons (r : Row) (rows : List Row) :
    processedDks (r :: rows) =
      if rowProcessed r = true then rowDk r :: processedDks rows
      else processedDks rows := by
  by_cases h : rowProcessed r = true <;> simp [processedDks, List.filter_cons, h]

/-- One loop step leaves the `pm` entry of any key other than the row's
day key untouched. -/
theorem stepRow_pm_other (dry : Bool) (st : LoopState) (r : Row) (k : Str)
    (hk : rowProcessed r = true → ¬ rowDk r = k) :
    alookup k (stepRow dry st r).pm = alookup k st.pm := by
  by_cases h1 : rowHasAnyContent r = true
  · by_cases h2 : rowDk r = []
    · rw [stepRow_skip_date dry st r h1 h2]
    · have hpr : rowProcessed r = true := (rowProcessed_iff r).mpr ⟨h1, h2⟩
      rw [stepRow_processed dry st r h1 h2]
      exact alookup_aset_ne (hk hpr) _ _
  · rw [stepRow_skip_blank dry st r h1]

theorem stepRow_not_processed (dry : Bool) (st : LoopState) (r : Row)
    (h : ¬ rowProcessed r = true) :
    (stepRow dry st r).pm = st.pm ∧ (stepRow dry st r).dir = st.dir ∧
    (stepRow dry st r).anyCsv = st.anyCsv ∧ (stepRow dry st r).anyMan = st.anyMan ∧
    (stepRow dry st r).results = st.results := by
  by_cases h1 : rowHasAnyContent r = true
  · by_cases h2 : rowDk r = []
    · rw [stepRow_skip_date dry st r h1 h2]
      exact ⟨rfl, rfl, rfl, rfl, rfl⟩
    · exact absurd ((rowProcessed_iff r).mpr ⟨h1, h2⟩) h
  · rw [stepRow_skip_blank dry st r h1]
    exact ⟨rfl, rfl, rfl, rfl, rfl⟩

theorem foldl_pm_not_processed (dry : Bool) (rows : List Row) (st : LoopState)
    (k : Str) (hk : ¬ k ∈ processedDks rows) :
    alookup k (rows.foldl (stepRow dry) st).pm = alookup k st.pm := by
  induction rows generalizing st with
  | nil => rfl
  | cons r rows ih =>
    rw [processedDks_cons] at hk
    rw [List.foldl_cons]
    by_cases hpr : rowProcessed r = true
    · rw [if_pos hpr, List.mem_cons] at hk
      push_neg at hk
      rw [ih _ hk.2, stepRow_pm_other dry st r k (fun _ h => hk.1 h.symm)]
    · rw [if_neg hpr] at hk
      rw [ih _ hk, stepRow_pm_other dry st r k (fun h => absurd h hpr)]

/-- Presence in `pm` is preserved by the loop (entries are never
deleted). -/
theorem foldl_pm_isSome (dry : Bool) (rows : List Row) (st : LoopState)
    (k : Str) (hk : (alookup k st.pm).isSome = true) :
    (alookup k (rows.foldl (stepRow dry) st).pm).isSome = true := by
  induction rows generalizing st with
  | nil => exact hk
  | cons r rows ih =>
    rw [List.foldl_cons]
    refine ih _ ?_
    by_cases h1 : rowHasAnyContent r = true
    · by_cases h2 : rowDk r = []
      · rw [stepRow_skip_date dry st r h1 h2]; exact hk
      · rw [stepRow_processed dry st r h1 h2]
        by_cases hdk : rowDk r = k
        · subst hdk
          rw [alookup_aset_self]
          rfl
        · rw [alookup_aset_ne hdk]
          exact hk
    · rw [stepRow_skip_blank dry st r h1]; exact hk

theorem getObj_aset_self (k : Str) (o : JObj) (m : JObj) :
    getObj (aset k (Json.obj o) m) k = o := by
  unfold getObj
  rw [alookup_aset_self]

theorem getObj_aset_ne {k k' : Str} (h : ¬ k = k') (v : Json) (m : JObj) :
    getObj (aset k v m) k' = getObj m k' := by
  unfold getObj
  rw [alookup_aset_ne h]

/-- The `puzzles` member of the final in-memory manifest is the loop's
final `pm` object. -/
theorem generate_manifest_puzzles (fs : FsIn) (dry : Bool) (now : UtcTime)
    (m0 : JObj) (t : CsvTable) (out : GenOut)
    (hmf : fs.manifestFile = some (Json.obj m0))
    (hcsv : read_csv_table fs.csvFile = .ok t)
    (hok : generate fs dry now = .ok out) :
    getObj out.manifest "puzzles".data =
      (t.rows.foldl (stepRow dry) (initState fs m0)).pm ∧
    out.anyMan = (t.rows.foldl (stepRow dry) (initState fs m0)).anyMan ∧
    out.anyCsv = (t.rows.foldl (stepRow dry) (initState fs m0)).anyCsv ∧
    out.results = (t.rows.foldl (stepRow dry) (initState fs m0)).results ∧
    out.dirOut = (t.rows.foldl (stepRow dry) (initState fs m0)).dir := by
  have hpm : ¬ ("meta".data : Str) = "puzzles".data := by decide
  have hcr : (fs.csvFile.drop 1).any (recordRestkeyCrash t.header) = false :=
    generate_ok_no_crash hcsv hok
  simp only [generate, hcsv] at hok
  by_cases hmiss : ¬ missingColumns t = []
  · rw [if_pos hmiss] at hok; cases hok
  · rw [if_neg hmiss, hmf] at hok
    simp only [hcr, Except.ok.injEq] at hok
    subst hok
    rw [show (⟨[], 0, 0, false, false, fs.puzzleFiles,
      getObj (ensure_manifest_shape m0) "puzzles".data, []⟩ : LoopState) =
      initState fs m0 from rfl]
    refine ⟨?_, rfl, rfl, rfl, rfl⟩
    by_cases hman : (t.rows.foldl (stepRow dry) (initState fs m0)).anyMan = true
    · rw [if_pos hman, getObj_aset_ne hpm, getObj_aset_self]
    · rw [if_neg hman, getObj_aset_self]

/-- **C9**: the manifest update is upsert-only: every pre-existing
`puzzles` entry whose key is not the day key of a processed row is
preserved unchanged in the final manifest, and no entry is ever
removed. -/
theorem claim_C9_upsert_only (fs : FsIn) (dry : Bool) (now : UtcTime)
    (m0 : JObj) (t : CsvTable) (out : GenOut)
    (hmf : fs.manifestFile = some (Json.obj m0))
    (hcsv : read_csv_table fs.csvFile = .ok t)
    (hok : generate fs dry now = .ok out) :
    (∀ k, ¬ k ∈ processedDks t.rows →
      alookup k (getObj out.manifest "puzzles".data) =
        alookup k (getObj (ensure_manifest_shape m0) "puzzles".data)) ∧
    (∀ k, (alookup k (getObj (ensure_manifest_shape m0) "puzzles".data)).isSome = true →
      (alookup k (getObj out.manifest "puzzles".data)).isSome = true) := by
  obtain ⟨hpm, -⟩ := generate_manifest_puzzles fs dry now m0 t out hmf hcsv hok
  rw [hpm]
  exact ⟨fun k hk => foldl_pm_not_processed dry t.rows (initState fs m0) k hk,
    fun k hk => foldl_pm_isSome dry t.rows (initState fs m0) k hk⟩

/-- The manifest fixture for the C9 witness: one pre-existing entry
under an untouched key. -/
def mC9 : JObj := [("puzzles".data, Json.obj [("2020-05-05".data, Json.null)])]

/-- The parsed fixture table. -/
def tFix : CsvTable :=
  ⟨fixtureRecords.headD [], [fixtureRecords.getD 1 []].map (zipRow (fixtureRecords.headD []))⟩

/-- Witness for C9: a pre-existing entry under another key survives a
real run untouched. -/
theorem claim_C9_upsert_only_witness :
    manifestEntryAt "2020-05-05".data
      (generate ⟨fixtureRecords, [], some (Json.obj mC9)⟩ false fixtureNow) =
      some (some Json.null) := by
  cases hgen : generate ⟨fixtureRecords, [], some (Json.obj mC9)⟩ false fixtureNow with
  | error e =>
    have hok : exceptIsOk (generate ⟨fixtureRecords, [], some (Json.obj mC9)⟩ false fixtureNow)
        = true := by decide
    rw [hgen] at hok
    simp [exceptIsOk] at hok
  | ok out =>
    have h := claim_C9_upsert_only ⟨fixtureRecords, [], some (Json.obj mC9)⟩ false fixtureNow
      mC9 tFix out rfl (by decide) hgen
    simp only [manifestEntryAt, Option.some.injEq]
    rw [h.1 "2020-05-05".data (by decide)]
    decide

/-! ## Claim C4: manifest timestamp and persistence -/

theorem stepRow_anyMan (dry : Bool) (st : LoopState) (r : Row) :
    (stepRow dry st r).anyMan =
      if rowProcessed r = true then
        (if rowEntryChanged r st.pm = true then true else st.anyMan)
      else st.anyMan := by
  by_cases h1 : rowHasAnyContent r = true
  · by_cases h2 : rowDk r = []
    · rw [stepRow_skip_date dry st r h1 h2,
        if_neg (by simp [rowProcessed_iff, h1, h2])]

    · rw [stepRow_processed dry st r h1 h2,
        if_pos ((rowProcessed_iff r).mpr ⟨h1, h2⟩)]
  · rw [stepRow_skip_blank dry st r h1,
      if_neg (by simp [rowProcessed_iff, h1])]

theorem foldl_anyMan_mono (dry : Bool) (rows : List Row) (st : LoopState)
    (h : st.anyMan = true) : (rows.foldl (stepRow dry) st).anyMan = true := by
  induction rows generalizing st with
  | nil => exact h
  | cons r rows ih =>
    rw [List.foldl_cons]
    refine ih _ ?_
    rw [stepRow_anyMan]
    split_ifs <;> simp [h]

/-- The final `anyMan` flag holds exactly when some processed row's
fresh entry differed (by dict equality) from the `puzzles` entry present
when that row was reached. -/
theorem foldl_anyMan_iff (dry : Bool) (rows : List Row) (st : LoopState) :
    (rows.foldl (stepRow dry) st).anyMan = true ↔
      st.anyMan = true ∨ ∃ pre r post, rows = pre ++ r :: post ∧
        rowProcessed r = true ∧
        rowEntryChanged r ((pre.foldl (stepRow dry) st).pm) = true := by
  induction rows generalizing st with
  | nil =>
    constructor
    · exact Or.inl
    · rintro (h | ⟨pre, r, post, hr, -, -⟩)
      · exact h
      · exact absurd hr (by simp)
  | cons r rows ih =>
    rw [List.foldl_cons, ih]
    constructor
    · rintro (h | ⟨pre, r', post, hr, hp, hc⟩)
      · rw [stepRow_anyMan] at h
        by_cases hpr : rowProcessed r = true
        · rw [if_pos hpr] at h
          by_cases hch : rowEntryChanged r st.pm = true
          · exact Or.inr ⟨[], r, rows, rfl, hpr, hch⟩
          · rw [if_neg hch] at h
            exact Or.inl h
        · rw [if_neg hpr] at h
          exact Or.inl h
      · exact Or.inr ⟨r :: pre, r', post, by rw [hr, List.cons_append], hp,
          by rw [List.foldl_cons]; exact hc⟩
    · rintro (h | ⟨pre, r', post, hr, hp, hc⟩)
      · left
        rw [stepRow_anyMan]
        split_ifs <;> simp [h]
      · cases pre with
        | nil =>
          simp only [List.nil_append, List.cons.injEq] at hr
          obtain ⟨hr1, hr2⟩ := hr
          subst hr1
          subst hr2
          left
          rw [stepRow_anyMan, if_pos hp,
            if_pos (show rowEntryChanged r st.pm = true from hc)]
        | cons q pre' =>
          simp only [List.cons_append, List.cons.injEq] at hr
          obtain ⟨hq, hrows⟩ := hr
          subst hq
          right
          exact ⟨pre', r', post, hrows, hp, by
            rw [List.foldl_cons] at hc
            exact hc⟩

/-- The generated timestamp is `Z`-suffixed. -/
theorem utc_now_iso_z_last (t : UtcTime) :
    (utc_now_iso_z t).getLast? = some 'Z' := by
  rw [utc_now_iso_z]
  exact List.getLast?_concat _

/-- What a real run does to the manifest file and the `meta` timestamp,
as a function of the final `anyMan` flag. -/
theorem generate_manifest_out (fs : FsIn) (now : UtcTime)
    (m0 : JObj) (t : CsvTable) (out : GenOut)
    (hmf : fs.manifestFile = some (Json.obj m0))
    (hcsv : read_csv_table fs.csvFile = .ok t)
    (hok : generate fs false now = .ok out) :
    (out.anyMan = true →
      out.manifestFileOut = some (Json.obj out.manifest) ∧
      alookup "generatedAtUtc".data (getObj out.manifest "meta".data) =
        some (Json.str (utc_now_iso_z now))) ∧
    (out.anyMan = false → out.manifestFileOut = fs.manifestFile) := by
  have hcr : (fs.csvFile.drop 1).any (recordRestkeyCrash t.header) = false :=
    generate_ok_no_crash hcsv hok
  simp only [generate, hcsv] at hok
  by_cases hmiss : ¬ missingColumns t = []
  · rw [if_pos hmiss] at hok; cases hok
  · rw [if_neg hmiss, hmf] at hok
    simp only [hcr, Except.ok.injEq] at hok
    subst hok
    rw [show (⟨[], 0, 0, false, false, fs.puzzleFiles,
      getObj (ensure_manifest_shape m0) "puzzles".data, []⟩ : LoopState) =
      initState fs m0 from rfl]
    dsimp only
    constructor
    · intro hman
      rw [if_pos hman, if_pos ⟨by simp, hman⟩]
      exact ⟨rfl, by rw [getObj_aset_self, alookup_aset_self]⟩
    · intro hman
      rw [if_neg (show ¬ (t.rows.foldl (stepRow false) (initState fs m0)).anyMan = true by
            simp [hman]),
        if_neg (show ¬ (¬ (false : Bool) = true ∧
            (t.rows.foldl (stepRow false) (initState fs m0)).anyMan = true) from
          fun hc => by rw [hman] at hc; exact absurd hc.2 (by simp))]
      exact hmf.symm

/-- **C4** (amended): on a run that is not a dry run, the manifest file
is persisted, with `meta.generatedAtUtc` stamped to the current UTC time
in second-precision `Z`-suffixed ISO-8601 form, exactly when at least
one upserted manifest entry differed by dict equality from the entry
present when its row was reached; when every upserted entry equals the
existing entry, the manifest file and its timestamp are left untouched.
(As frozen the claim also covers dry runs, where the file is never
persisted even when entries changed — see the counterexample.) -/
theorem claim_C4_manifest_stamp (fs : FsIn) (now : UtcTime)
    (m0 : JObj) (t : CsvTable) (out : GenOut)
    (hmf : fs.manifestFile = some (Json.obj m0))
    (hcsv : read_csv_table fs.csvFile = .ok t)
    (hok : generate fs false now = .ok out) :
    (out.anyMan = true ↔
      ∃ pre r post, t.rows = pre ++ r :: post ∧ rowProcessed r = true ∧
        rowEntryChanged r ((pre.foldl (stepRow false) (initState fs m0)).pm) = true) ∧
    (out.anyMan = true →
      out.manifestFileOut = some (Json.obj out.manifest) ∧
      alookup "generatedAtUtc".data (getObj out.manifest "meta".data) =
        some (Json.str (utc_now_iso_z now)) ∧
      (utc_now_iso_z now).getLast? = some 'Z') ∧
    (out.anyMan = false → out.manifestFileOut = fs.manifestFile) := by
  obtain ⟨-, hman, -, -, -⟩ :=
    generate_manifest_puzzles fs false now m0 t out hmf hcsv hok
  obtain ⟨hpos, hneg⟩ := generate_manifest_out fs now m0 t out hmf hcsv hok
  refine ⟨?_, ?_, hneg⟩
  · rw [hman, foldl_anyMan_iff]
    simp [initState]
  · intro h
    obtain ⟨ho1, ho2⟩ := hpos h
    exact ⟨ho1, ho2, utc_now_iso_z_last now⟩

/-- Counterexample for C4 as frozen: a dry run in which an entry changed
by dict equality (`anyMan` reports true) but the manifest file is left
untouched, so "persisted iff an entry changed" fails for dry runs. -/
theorem claim_C4_counterexample :
    genAnyMan (generate ⟨fixtureRecords, [], some (Json.obj [])⟩ true fixtureNow) = some true ∧
    genManifestFileOut (generate ⟨fixtureRecords, [], some (Json.obj [])⟩ true fixtureNow) =
      some (some (Json.obj [])) := by decide

/-- Witness for C4: a real run over an empty manifest changes an entry
and persists the stamped manifest; the stamp is the formatted clock. -/
theorem claim_C4_manifest_stamp_witness :
    genManifestFileOut (generate ⟨fixtureRecords, [], some (Json.obj [])⟩ false fixtureNow) ≠
      some (some (Json.obj [])) ∧
    (utc_now_iso_z fixtureNow).getLast? = some 'Z' := by
  cases hgen : generate ⟨fixtureRecords, [], some (Json.obj [])⟩ false fixtureNow with
  | error e =>
    have hok : exceptIsOk (generate ⟨fixtureRecords, [], some (Json.obj [])⟩ false fixtureNow)
        = true := by decide
    rw [hgen] at hok
    simp [exceptIsOk] at hok
  | ok out =>
    have h := claim_C4_manifest_stamp ⟨fixtureRecords, [], some (Json.obj [])⟩ fixtureNow
      [] tFix out rfl (by decide) hgen
    have hman : out.anyMan = true := by
      have hh : genAnyMan (generate ⟨fixtureRecords, [], some (Json.obj [])⟩ false fixtureNow) =
          some true := by decide
      rw [hgen] at hh
      simpa [genAnyMan] using hh
    obtain ⟨hfile, hstamp, hz⟩ := h.2.1 hman
    refine ⟨?_, hz⟩
    simp only [genManifestFileOut, hfile, ne_eq, Option.some.injEq, Json.obj.injEq]
    intro hcontr
    rw [hcontr] at hstamp
    rw [show getObj ([] : JObj) "meta".data = [] from rfl] at hstamp
    simp [alookup] at hstamp


/-- Witness for C8: each interesting branch hit at a concrete input. -/
theorem claim_C8_strip_wrapping_quotes_witness :
    stripWrappingQuotes "  'abc'  ".data = "abc".data ∧
    stripWrappingQuotes "hi! '".data = "hi!".data ∧
    stripWrappingQuotes "it'".data = "it".data ∧
    stripWrappingQuotes "'tis".data = "tis".data ∧
    stripWrappingQuotes "don't".data = "don't".data := by
  refine ⟨?_, ?_, ?_, ?_, ?_⟩
  · exact ((claim_C8_strip_wrapping_quotes _).1 (by decide)).trans (by decide)
  · exact ((claim_C8_strip_wrapping_quotes _).2.1 (by decide) (by decide) (by decide)
      (by decide)).trans (by decide)
  · exact ((claim_C8_strip_wrapping_quotes _).2.1 (by decide) (by decide) (by decide)
      (by decide)).trans (by decide)
  · exact ((claim_C8_strip_wrapping_quotes _).2.2.1 (by decide) (by decide) (by decide)
      (by decide)).trans (by decide)
  · exact ((claim_C8_strip_wrapping_quotes _).2.2.2 (by decide) (by decide)
      (by decide)).trans (by decide)

/-! ## Claim C1: the content hash determines exactly the non-version fields

With the digest modelled injectively, hash equality is equality of the
canonical serializations; the lemmas below show that serialization is
uniquely decodable, so equal serializations force equal field values. -/

/-- Hexadecimal value of a lowercase hex digit. -/
def hexVal? (c : Char) : Option Nat :=
  if '0' ≤ c ∧ c ≤ '9' then some (c.toNat - '0'.toNat)
  else if 'a' ≤ c ∧ c ≤ 'f' then some (c.toNat - 'a'.toNat + 10)
  else none

/-- Decoder for one escaped character at the head of a string body. -/
def decodeEsc : Str → Option (Char × Str)
  | [] => none
  | c :: rest =>
    if c = backslashChar then
      match rest with
      | [] => none
      | e :: rest2 =>
        if e = quoteChar then some (quoteChar, rest2)
        else if e = backslashChar then some (backslashChar, rest2)
        else if e = 'n' then some ('\n', rest2)
        else if e = 'r' then some ('\r', rest2)
        else if e = 't' then some ('\t', rest2)
        else if e = 'b' then some ('\x08', rest2)
        else if e = 'f' then some ('\x0c', rest2)
        else if e = 'u' then
          match rest2 with
          | d1 :: d2 :: d3 :: d4 :: rest3 =>
            match hexVal? d1, hexVal? d2, hexVal? d3, hexVal? d4 with
            | some a, some b, some x, some y =>
              some (Char.ofNat (((a * 16 + b) * 16 + x) * 16 + y), rest3)
            | _, _, _, _ => none
          | _ => none
        else none
    else some (c, rest)

theorem hexVal_hexDigit {n : Nat} (h : n < 16) : hexVal? (hexDigit n) = some n := by
  interval_cases n <;> decide

/-- `decodeEsc` inverts `jsonEscChar` at the head of any stream. -/
theorem decodeEsc_escChar (c : Char) (rest : Str) :
    decodeEsc (jsonEscChar c ++ rest) = some (c, rest) := by
  unfold jsonEscChar
  split_ifs with h1 h2 h3 h4 h5 h6 h7 h8
  · subst h1; rfl
  · subst h2; rfl
  · subst h3; rfl
  · subst h4; rfl
  · subst h5; rfl
  · subst h6; rfl
  · subst h7; rfl
  · show decodeEsc (backslashChar :: 'u' :: '0' :: '0' ::
      hexDigit (c.toNat / 16) :: hexDigit (c.toNat % 16) :: rest) = some (c, rest)
    rw [decodeEsc]
    rw [if_pos rfl]
    rw [if_neg (by decide), if_neg (by decide), if_neg (by decide), if_neg (by decide),
      if_neg (by decide), if_neg (by decide), if_neg (by decide), if_pos rfl]
    have hd1 : hexVal? ('0' : Char) = some 0 := by decide
    have hdiv : c.toNat / 16 < 16 := by omega
    have hmod : c.toNat % 16 < 16 := by omega
    rw [hd1, hexVal_hexDigit hdiv, hexVal_hexDigit hmod]
    have hv : ((0 * 16 + 0) * 16 + c.toNat / 16) * 16 + c.toNat % 16 = c.toNat := by omega
    dsimp only
    rw [hv, Char.ofNat_toNat]
  · show decodeEsc (c :: rest) = some (c, rest)
    simp [decodeEsc, h2]

/-- Escape streams cancel: the first escaped character and the remainder
are determined. -/
theorem jsonEscChar_cancel {a b : Char} {r s : Str}
    (h : jsonEscChar a ++ r = jsonEscChar b ++ s) : a = b ∧ r = s := by
  have := congrArg decodeEsc h
  rw [decodeEsc_escChar, decodeEsc_escChar] at this
  simp only [Option.some.injEq, Prod.mk.injEq] at this
  exact this

/-- An escaped character never starts with the quote character. -/
theorem jsonEscChar_head (c : Char) :
    ∃ d t, jsonEscChar c = d :: t ∧ ¬ d = quoteChar := by
  unfold jsonEscChar
  split_ifs with h1 h2 h3 h4 h5 h6 h7 h8
  · exact ⟨backslashChar, _, rfl, by decide⟩
  · exact ⟨backslashChar, _, rfl, by decide⟩
  · exact ⟨backslashChar, _, rfl, by decide⟩
  · exact ⟨backslashChar, _, rfl, by decide⟩
  · exact ⟨backslashChar, _, rfl, by decide⟩
  · exact ⟨backslashChar, _, rfl, by decide⟩
  · exact ⟨backslashChar, _, rfl, by decide⟩
  · exact ⟨backslashChar, _, rfl, by decide⟩
  · exact ⟨c, [], rfl, h1⟩

/-- Escaped string bodies terminated by an unescaped quote cancel. -/
theorem jsonEscape_cancel : ∀ (xs ys : Str) (r s : Str),
    jsonEscape xs ++ quoteChar :: r = jsonEscape ys ++ quoteChar :: s →
    xs = ys ∧ r = s := by
  intro xs
  induction xs with
  | nil =>
    intro ys r s h
    cases ys with
    | nil =>
      simp only [jsonEscape, List.nil_append, List.cons.injEq] at h
      exact ⟨rfl, h.2⟩
    | cons y ys =>
      obtain ⟨d, t, hd, hq⟩ := jsonEscChar_head y
      simp only [jsonEscape] at h
      rw [hd] at h
      simp only [List.nil_append, List.cons_append, List.cons.injEq] at h
      exact absurd h.1.symm hq
  | cons x xs ih =>
    intro ys r s h
    cases ys with
    | nil =>
      obtain ⟨d, t, hd, hq⟩ := jsonEscChar_head x
      simp only [jsonEscape] at h
      rw [hd] at h
      simp only [List.nil_append, List.cons_append, List.cons.injEq] at h
      exact absurd h.1 hq
    | cons y ys =>
      simp only [jsonEscape] at h
      rw [List.append_assoc, List.append_assoc] at h
      obtain ⟨hxy, hrest⟩ := jsonEscChar_cancel h
      obtain ⟨hxs, hrs⟩ := ih ys r s hrest
      exact ⟨by rw [hxy, hxs], hrs⟩

/-- Serialized JSON strings cancel in any stream. -/
theorem jsonString_cancel {a b : Str} {r s : Str}
    (h : jsonString a ++ r = jsonString b ++ s) : a = b ∧ r = s := by
  rw [jsonString, jsonString] at h
  simp only [List.cons_append, List.append_assoc, List.singleton_append,
    List.cons.injEq, true_and] at h
  exact jsonEscape_cancel a b r s h

/-- A stream splits uniquely at the first occurrence of a separator
absent from both prefixes. -/
theorem append_cancel_of_not_mem {c : Char} : ∀ {a b r s : Str},
    ¬ c ∈ a → ¬ c ∈ b → a ++ c :: r = b ++ c :: s → a = b ∧ r = s := by
  intro a
  induction a with
  | nil =>
    intro b r s _ hb h
    cases b with
    | nil =>
      simp only [List.nil_append, List.cons.injEq] at h
      exact ⟨rfl, h.2⟩
    | cons x t =>
      simp only [List.nil_append, List.cons_append, List.cons.injEq] at h
      exact absurd (h.1 ▸ List.mem_cons_self x t) hb
  | cons y a ih =>
    intro b r s ha hb h
    cases b with
    | nil =>
      simp only [List.cons_append, List.nil_append, List.cons.injEq] at h
      exact absurd (h.1 ▸ List.mem_cons_self y a) ha
    | cons x t =>
      simp only [List.cons_append, List.cons.injEq] at h
      obtain ⟨hxy, hrest⟩ := h
      have hr := ih (fun hm => ha (List.mem_cons_of_mem _ hm))
        (fun hm => hb (List.mem_cons_of_mem _ hm)) hrest
      exact ⟨by rw [hxy, hr.1], hr.2⟩

theorem digitChar_mem (m : Nat) : digitChar m ∈ "0123456789".data :=
  match m with
  | 0 => by decide
  | 1 => by decide
  | 2 => by decide
  | 3 => by decide
  | 4 => by decide
  | 5 => by decide
  | 6 => by decide
  | 7 => by decide
  | 8 => by decide
  | 9 => by decide
  | _ + 10 => by show ('0' : Char) ∈ _; decide

theorem natDigitsRevFuel_mem : ∀ (f n : Nat) (c : Char),
    c ∈ natDigitsRevFuel f n → c ∈ "0123456789".data := by
  intro f
  induction f with
  | zero => intro n c h; simp [natDigitsRevFuel] at h
  | succ f ih =>
    intro n c h
    cases n with
    | zero => simp [natDigitsRevFuel] at h
    | succ m =>
      rw [natDigitsRevFuel] at h
      rcases List.mem_cons.mp h with h | h
      · exact h ▸ digitChar_mem _
      · exact ih _ c h

theorem natRepr_mem {n : Nat} {c : Char} (h : c ∈ natRepr n) :
    c ∈ "0123456789".data := by
  rw [natRepr] at h
  by_cases h0 : n = 0
  · rw [if_pos h0] at h
    simp only [List.mem_singleton] at h
    subst h; decide
  · rw [if_neg h0] at h
    exact natDigitsRevFuel_mem n n c (List.mem_reverse.mp h)

theorem intRepr_mem {v : Int} {c : Char} (h : c ∈ intRepr v) :
    c ∈ '-' :: "0123456789".data := by
  rw [intRepr] at h
  by_cases hv : v < 0
  · rw [if_pos hv] at h
    rcases List.mem_cons.mp h with h | h
    · exact h ▸ List.mem_cons_self _ _
    · exact List.mem_cons_of_mem _ (natRepr_mem h)
  · rw [if_neg hv] at h
    exact List.mem_cons_of_mem _ (natRepr_mem h)

theorem natDigitsRevFuel_eq (n : Nat) : ∀ f g, n ≤ f → n ≤ g →
    natDigitsRevFuel f n = natDigitsRevFuel g n := by
  induction n using Nat.strong_induction_on with
  | _ n ih =>
    intro f g hf hg
    cases n with
    | zero => cases f <;> cases g <;> rfl
    | succ m =>
      obtain ⟨f', rfl⟩ : ∃ f', f = f' + 1 := ⟨f - 1, by omega⟩
      obtain ⟨g', rfl⟩ : ∃ g', g = g' + 1 := ⟨g - 1, by omega⟩
      show digitChar ((m + 1) % 10) :: natDigitsRevFuel f' ((m + 1) / 10) =
        digitChar ((m + 1) % 10) :: natDigitsRevFuel g' ((m + 1) / 10)
      have hlt : (m + 1) / 10 < m + 1 := Nat.div_lt_self (by omega) (by omega)
      rw [ih ((m + 1) / 10) hlt f' g' (by omega) (by omega)]

theorem natDigitsRev_succ (n : Nat) (h : 0 < n) :
    natDigitsRev n = digitChar (n % 10) :: natDigitsRev (n / 10) := by
  obtain ⟨m, rfl⟩ : ∃ m, n = m + 1 := ⟨n - 1, by omega⟩
  show digitChar ((m + 1) % 10) :: natDigitsRevFuel m ((m + 1) / 10) = _
  have hle : (m + 1) / 10 ≤ m := by omega
  rw [natDigitsRevFuel_eq ((m + 1) / 10) m ((m + 1) / 10) hle (le_refl _)]
  rfl

theorem parseDigitsAux_append (acc : Nat) (xs ys : Str) :
    parseDigitsAux acc (xs ++ ys) =
      match parseDigitsAux acc xs with
      | some a => parseDigitsAux a ys
      | none => none := by
  induction xs generalizing acc with
  | nil => rfl
  | cons c cs ih =>
    show parseDigitsAux acc (c :: (cs ++ ys)) = _
    cases hdv : digitVal? c with
    | none => simp [parseDigitsAux, hdv]
    | some d => simp [parseDigitsAux, hdv, ih]

theorem digitVal_digitChar {m : Nat} (h : m < 10) : digitVal? (digitChar m) = some m := by
  interval_cases m <;> decide

theorem parseAux_natDigitsRev (n : Nat) : ∀ acc, 0 < n →
    parseDigitsAux acc (natDigitsRev n).reverse =
      some (acc * 10 ^ (natDigitsRev n).length + n) := by
  induction n using Nat.strong_induction_on with
  | _ n ih =>
    intro acc hn
    rw [natDigitsRev_succ n hn, List.reverse_cons, parseDigitsAux_append]
    by_cases hq : 0 < n / 10
    · rw [ih (n / 10) (Nat.div_lt_self hn (by omega)) acc hq]
      show parseDigitsAux (acc * 10 ^ (natDigitsRev (n / 10)).length + n / 10)
        [digitChar (n % 10)] = _
      rw [show ∀ a : Nat, parseDigitsAux a [digitChar (n % 10)] =
          (digitVal? (digitChar (n % 10))).map (fun d => a * 10 + d) from
        fun a => by cases hdv : digitVal? (digitChar (n % 10)) <;>
          simp [parseDigitsAux, hdv]]
      rw [digitVal_digitChar (by omega)]
      simp only [Option.map_some', Option.map, List.length_cons, pow_succ]
      exact congrArg some (by rw [← Nat.mul_assoc]; omega)
    · have h0 : n / 10 = 0 := by omega
      rw [h0]
      show parseDigitsAux acc [digitChar (n % 10)] = _
      rw [show parseDigitsAux acc [digitChar (n % 10)] =
          (digitVal? (digitChar (n % 10))).map (fun d => acc * 10 + d) from
        by cases hdv : digitVal? (digitChar (n % 10)) <;> simp [parseDigitsAux, hdv]]
      rw [digitVal_digitChar (by omega)]
      have hlen : (natDigitsRev 0).length = 0 := rfl
      simp only [Option.map_some', Option.map, List.length_cons, hlen, pow_succ, pow_zero]
      exact congrArg some (by omega)

theorem natRepr_ne_nil (n : Nat) : ¬ natRepr n = [] := by
  rw [natRepr]
  by_cases h0 : n = 0
  · rw [if_pos h0]; simp
  · rw [if_neg h0, natDigitsRev_succ n (by omega)]
    simp

theorem parseDigits_natRepr (n : Nat) : parseDigits (natRepr n) = some n := by
  by_cases h0 : n = 0
  · subst h0; rfl
  · have h1 := parseAux_natDigitsRev n 0 (by omega)
    rw [natRepr, if_neg h0]
    cases hx : (natDigitsRev n).reverse with
    | nil =>
      exfalso
      rw [natDigitsRev_succ n (by omega)] at hx
      simp at hx
    | cons c cs =>
      show parseDigitsAux 0 (c :: cs) = some n
      rw [← hx, h1]
      simp

theorem pyParseInt_cons_other {c : Char} (cs : Str) (h1 : ¬ c = '-') (h2 : ¬ c = '+') :
    pyParseInt (c :: cs) = (parseDigits (c :: cs)).map (fun n => (n : Int)) := by
  simp [pyParseInt, h1, h2]

theorem pyParseInt_intRepr (v : Int) : pyParseInt (intRepr v) = some v := by
  by_cases hv : v < 0
  · rw [intRepr, if_pos hv]
    show (parseDigits (natRepr v.natAbs)).map (fun n => -(n : Int)) = some v
    rw [parseDigits_natRepr]
    exact congrArg some (show -((v.natAbs : Nat) : Int) = v by omega)
  · rw [intRepr, if_neg hv]
    cases hx : natRepr v.toNat with
    | nil => exact absurd hx (natRepr_ne_nil _)
    | cons c cs =>
      have hcd : c ∈ "0123456789".data := natRepr_mem (hx ▸ List.mem_cons_self c cs)
      have hc1 : ¬ c = '-' := by intro h; subst h; revert hcd; decide
      have hc2 : ¬ c = '+' := by intro h; subst h; revert hcd; decide
      rw [pyParseInt_cons_other cs hc1 hc2, ← hx, parseDigits_natRepr]
      exact congrArg some (show ((v.toNat : Nat) : Int) = v by omega)

theorem intRepr_inj {a b : Int} (h : intRepr a = intRepr b) : a = b := by
  have := congrArg pyParseInt h
  rw [pyParseInt_intRepr, pyParseInt_intRepr] at this
  exact Option.some.inj this

theorem intRepr_no_comma (v : Int) : ¬ (',' : Char) ∈ intRepr v := by
  intro h
  have := intRepr_mem h
  revert this
  decide

/-- An integer serialization followed by a comma cancels. -/
theorem intRepr_comma_cancel {a b : Int} {r s : Str}
    (h : intRepr a ++ ',' :: r = intRepr b ++ ',' :: s) : a = b ∧ r = s := by
  obtain ⟨h1, h2⟩ :=
    append_cancel_of_not_mem (intRepr_no_comma a) (intRepr_no_comma b) h
  exact ⟨intRepr_inj h1, h2⟩



/-! ## Claim C1: content-hash version independence and injectivity -/

/-- The comma-prefixed continuation of an array serialization. -/
def serArrTail : List Json → Str
  | [] => []
  | x :: t => ',' :: serArr (x :: t)

theorem serArr_cons (a : Json) (l : List Json) :
    serArr (a :: l) = serJson a ++ serArrTail l := by
  cases l with
  | nil => simp [serArr, serArrTail]
  | cons x t => rfl

/-- Arrays of values with cancelling serializations whose first character
is neither `]` nor `,` cancel in any stream, element by element. -/
theorem serArr_map_cancel {α : Type} (f : α → Json)
    (hcancel : ∀ (a b : α) (r s : Str),
      serJson (f a) ++ r = serJson (f b) ++ s → a = b ∧ r = s)
    (hhead : ∀ a : α, ∃ c cs, serJson (f a) = c :: cs ∧ ¬ c = ']' ∧ ¬ c = ',') :
    ∀ (xs ys : List α) (r s : Str),
      serArr (xs.map f) ++ ']' :: r = serArr (ys.map f) ++ ']' :: s →
      xs = ys ∧ r = s := by
  intro xs
  induction xs with
  | nil =>
    intro ys r s h
    cases ys with
    | nil =>
      simp only [List.map_nil, serArr, List.nil_append, List.cons.injEq, true_and] at h
      exact ⟨rfl, h⟩
    | cons y t =>
      rw [List.map_cons, serArr_cons] at h
      obtain ⟨c, cs, hc, hc1, -⟩ := hhead y
      rw [hc] at h
      simp only [List.nil_append, List.cons_append, List.append_assoc] at h
      exact absurd (List.cons.inj h).1 (fun he => hc1 he.symm)
  | cons x xs ih =>
    intro ys r s h
    cases ys with
    | nil =>
      rw [List.map_cons, serArr_cons] at h
      obtain ⟨c, cs, hc, hc1, -⟩ := hhead x
      rw [hc] at h
      simp only [List.nil_append, List.cons_append, List.append_assoc] at h
      exact absurd (List.cons.inj h).1 hc1
    | cons y t =>
      rw [List.map_cons, List.map_cons, serArr_cons, serArr_cons,
        List.append_assoc, List.append_assoc] at h
      obtain ⟨hxy, h2⟩ := hcancel x y _ _ h
      cases xs with
      | nil =>
        cases t with
        | nil =>
          simp only [List.map_nil, serArrTail, List.nil_append, List.cons.injEq,
            true_and] at h2
          exact ⟨by rw [hxy], h2⟩
        | cons z t2 =>
          rw [List.map_nil, List.map_cons] at h2
          simp only [serArrTail, List.nil_append, List.cons_append] at h2
          exact absurd (List.cons.inj h2).1 (by decide)
      | cons x2 xs2 =>
        cases t with
        | nil =>
          rw [List.map_cons, List.map_nil] at h2
          simp only [serArrTail, List.nil_append, List.cons_append] at h2
          exact absurd (List.cons.inj h2).1 (by decide)
        | cons z t2 =>
          rw [List.map_cons, List.map_cons] at h2
          simp only [serArrTail, List.cons_append] at h2
          obtain ⟨-, h3⟩ := List.cons.inj h2
          obtain ⟨hxs, hrs⟩ := ih (z :: t2) r s
            (by rw [List.map_cons, List.map_cons]; exact h3)
          exact ⟨by rw [hxy, hxs], hrs⟩

theorem serJson_str_cancel (a b : Str) (r s : Str)
    (h : serJson (Json.str a) ++ r = serJson (Json.str b) ++ s) : a = b ∧ r = s :=
  jsonString_cancel h

theorem serJson_str_head (a : Str) :
    ∃ c cs, serJson (Json.str a) = c :: cs ∧ ¬ c = ']' ∧ ¬ c = ',' :=
  ⟨quoteChar, jsonEscape a ++ [quoteChar], rfl, by decide, by decide⟩

/-- A hint serialized with sorted keys cancels in any stream. -/
theorem hintJsonSorted_cancel : ∀ (h1 h2 : Hint) (r s : Str),
    serJson (hintJsonSorted h1) ++ r = serJson (hintJsonSorted h2) ++ s →
    h1 = h2 ∧ r = s := by
  intro h1 h2 r s h
  obtain ⟨i1, n1, t1, e1⟩ := h1
  obtain ⟨i2, n2, t2, e2⟩ := h2
  cases e1 with
  | none =>
    cases e2 with
    | none =>
      simp only [hintJsonSorted, serJson, serObj, List.nil_append, List.cons_append,
        List.append_assoc, List.singleton_append] at h
      obtain ⟨-, h⟩ := List.cons.inj h
      obtain ⟨-, h⟩ := jsonString_cancel h
      obtain ⟨-, h⟩ := List.cons.inj h
      obtain ⟨hi, h⟩ := jsonString_cancel h
      obtain ⟨-, h⟩ := List.cons.inj h
      obtain ⟨-, h⟩ := jsonString_cancel h
      obtain ⟨-, h⟩ := List.cons.inj h
      obtain ⟨hn, h⟩ := intRepr_comma_cancel h
      obtain ⟨-, h⟩ := jsonString_cancel h
      obtain ⟨-, h⟩ := List.cons.inj h
      obtain ⟨ht, h⟩ := jsonString_cancel h
      obtain ⟨-, hrs⟩ := List.cons.inj h
      refine ⟨?_, hrs⟩
      simp only [Hint.mk.injEq]
      exact ⟨hi, by exact_mod_cast hn, ht, trivial⟩
    | some e2x =>
      simp only [hintJsonSorted, serJson, serObj, List.nil_append, List.cons_append,
        List.append_assoc, List.singleton_append] at h
      obtain ⟨-, h⟩ := List.cons.inj h
      obtain ⟨hk, -⟩ := jsonString_cancel h
      exact absurd hk (by decide)
  | some e1x =>
    cases e2 with
    | none =>
      simp only [hintJsonSorted, serJson, serObj, List.nil_append, List.cons_append,
        List.append_assoc, List.singleton_append] at h
      obtain ⟨-, h⟩ := List.cons.inj h
      obtain ⟨hk, -⟩ := jsonString_cancel h
      exact absurd hk (by decide)
    | some e2x =>
      simp only [hintJsonSorted, serJson, serObj, List.nil_append, List.cons_append,
        List.append_assoc, List.singleton_append] at h
      obtain ⟨-, h⟩ := List.cons.inj h
      obtain ⟨-, h⟩ := jsonString_cancel h
      obtain ⟨-, h⟩ := List.cons.inj h
      obtain ⟨he, h⟩ := jsonString_cancel h
      obtain ⟨-, h⟩ := List.cons.inj h
      obtain ⟨-, h⟩ := jsonString_cancel h
      obtain ⟨-, h⟩ := List.cons.inj h
      obtain ⟨hi, h⟩ := jsonString_cancel h
      obtain ⟨-, h⟩ := List.cons.inj h
      obtain ⟨-, h⟩ := jsonString_cancel h
      obtain ⟨-, h⟩ := List.cons.inj h
      obtain ⟨hn, h⟩ := intRepr_comma_cancel h
      obtain ⟨-, h⟩ := jsonString_cancel h
      obtain ⟨-, h⟩ := List.cons.inj h
      obtain ⟨ht, h⟩ := jsonString_cancel h
      obtain ⟨-, hrs⟩ := List.cons.inj h
      refine ⟨?_, hrs⟩
      simp only [Hint.mk.injEq]
      exact ⟨hi, by exact_mod_cast hn, ht, by rw [he]⟩

theorem serJson_hint_head (a : Hint) :
    ∃ c cs, serJson (hintJsonSorted a) = c :: cs ∧ ¬ c = ']' ∧ ¬ c = ',' :=
  ⟨obraceChar, _, rfl, by decide, by decide⟩

theorem insertHint_le (h : Hint) (l : List Hint)
    (hall : ∀ x ∈ l, h.index ≤ x.index) : insertHint h l = h :: l := by
  cases l with
  | nil => rfl
  | cons x t =>
    rw [insertHint, if_neg]
    intro hlt
    exact absurd (hall x (List.mem_cons_self x t)) (by omega)

theorem sortHints_sorted (l : List Hint)
    (hs : l.Pairwise (fun a b => a.index ≤ b.index)) : sortHintsByIndex l = l := by
  induction l with
  | nil => rfl
  | cons h t ih =>
    rw [sortHintsByIndex, ih (List.pairwise_cons.mp hs).2]
    exact insertHint_le h t (List.pairwise_cons.mp hs).1

theorem buildHint_index {row : Row} {i : Nat} {h : Hint}
    (he : buildHint row i = some h) : h.index = i := by
  simp only [buildHint] at he
  by_cases hc : stripWrappingQuotes (rowGet row (hintCol i)) = []
  · rw [if_pos hc] at he; cases he
  · rw [if_neg hc] at he
    cases Option.some.inj he
    rfl

theorem filterMap_buildHint_pairwise (row : Row) : ∀ l : List Nat,
    l.Pairwise (fun a b => a < b) →
    (l.filterMap (buildHint row)).Pairwise (fun a b => a.index ≤ b.index) := by
  intro l
  induction l with
  | nil => intro _; exact List.Pairwise.nil
  | cons i t ih =>
    intro hp
    rw [List.filterMap_cons]
    cases hb : buildHint row i with
    | none => exact ih (List.pairwise_cons.mp hp).2
    | some h =>
      refine List.pairwise_cons.mpr ⟨?_, ih (List.pairwise_cons.mp hp).2⟩
      intro y hy
      obtain ⟨j, hj, hbj⟩ := List.mem_filterMap.mp hy
      have hij : i < j := (List.pairwise_cons.mp hp).1 j hj
      rw [buildHint_index hb, buildHint_index hbj]
      omega

/-- The hints of a built puzzle record are already sorted by index, so the
sort inside `compute_content_hash` leaves them unchanged. -/
theorem build_hints_sorted (row : Row) (v : Int) :
    sortHintsByIndex (build_puzzle_object row v).hints =
      (build_puzzle_object row v).hints := by
  refine sortHints_sorted _ ?_
  exact filterMap_buildHint_pairwise row (List.range 5) (by decide)

/-- **C1**: the content hash of a record built from a row ignores the
version (same row, any two versions: identical hashes), and on built
records it is otherwise injective: two hashes agree exactly when all
eight remaining fields (id, dateKey, category, tags, answerAliases,
answerCanonical, hints, solutionExplanation) agree.  (`_sha256_text` is
modelled as an injective fingerprint of the canonical serialization, the
digest contract the claim relies on.) -/
theorem claim_C1_content_hash (row1 row2 : Row) (v1 v2 : Int) :
    compute_content_hash (build_puzzle_object row1 v1) =
      compute_content_hash (build_puzzle_object row1 v2) ∧
    (compute_content_hash (build_puzzle_object row1 v1) =
        compute_content_hash (build_puzzle_object row2 v2) ↔
      ((build_puzzle_object row1 v1).id = (build_puzzle_object row2 v2).id ∧
       (build_puzzle_object row1 v1).dateKey = (build_puzzle_object row2 v2).dateKey ∧
       (build_puzzle_object row1 v1).category = (build_puzzle_object row2 v2).category ∧
       (build_puzzle_object row1 v1).tags = (build_puzzle_object row2 v2).tags ∧
       (build_puzzle_object row1 v1).answerAliases =
         (build_puzzle_object row2 v2).answerAliases ∧
       (build_puzzle_object row1 v1).answerCanonical =
         (build_puzzle_object row2 v2).answerCanonical ∧
       (build_puzzle_object row1 v1).hints = (build_puzzle_object row2 v2).hints ∧
       (build_puzzle_object row1 v1).solutionExplanation =
         (build_puzzle_object row2 v2).solutionExplanation)) := by
  refine ⟨rfl, ?_, ?_⟩
  · intro h
    have h' : serJson (contentJson (build_puzzle_object row1 v1)) =
        serJson (contentJson (build_puzzle_object row2 v2)) := h
    simp only [contentJson, serJson, serObj, List.cons_append, List.append_assoc,
      List.singleton_append, List.nil_append] at h'
    obtain ⟨-, h'⟩ := List.cons.inj h'
    obtain ⟨-, h'⟩ := jsonString_cancel h'
    obtain ⟨-, h'⟩ := List.cons.inj h'
    obtain ⟨-, h'⟩ := List.cons.inj h'
    obtain ⟨hal, h'⟩ := serArr_map_cancel Json.str serJson_str_cancel serJson_str_head
      _ _ _ _ h'
    obtain ⟨-, h'⟩ := List.cons.inj h'
    obtain ⟨-, h'⟩ := jsonString_cancel h'
    obtain ⟨-, h'⟩ := List.cons.inj h'
    obtain ⟨hac, h'⟩ := jsonString_cancel h'
    obtain ⟨-, h'⟩ := List.cons.inj h'
    obtain ⟨-, h'⟩ := jsonString_cancel h'
    obtain ⟨-, h'⟩ := List.cons.inj h'
    obtain ⟨hcat, h'⟩ := jsonString_cancel h'
    obtain ⟨-, h'⟩ := List.cons.inj h'
    obtain ⟨-, h'⟩ := jsonString_cancel h'
    obtain ⟨-, h'⟩ := List.cons.inj h'
    obtain ⟨hdk, h'⟩ := jsonString_cancel h'
    obtain ⟨-, h'⟩ := List.cons.inj h'
    obtain ⟨-, h'⟩ := jsonString_cancel h'
    obtain ⟨-, h'⟩ := List.cons.inj h'
    obtain ⟨-, h'⟩ := List.cons.inj h'
    obtain ⟨hh, h'⟩ := serArr_map_cancel hintJsonSorted hintJsonSorted_cancel
      serJson_hint_head _ _ _ _ h'
    obtain ⟨-, h'⟩ := List.cons.inj h'
    obtain ⟨-, h'⟩ := jsonString_cancel h'
    obtain ⟨-, h'⟩ := List.cons.inj h'
    obtain ⟨hid, h'⟩ := jsonString_cancel h'
    obtain ⟨-, h'⟩ := List.cons.inj h'
    obtain ⟨-, h'⟩ := jsonString_cancel h'
    obtain ⟨-, h'⟩ := List.cons.inj h'
    obtain ⟨hse, h'⟩ := jsonString_cancel h'
    obtain ⟨-, h'⟩ := List.cons.inj h'
    obtain ⟨-, h'⟩ := jsonString_cancel h'
    obtain ⟨-, h'⟩ := List.cons.inj h'
    obtain ⟨-, h'⟩ := List.cons.inj h'
    obtain ⟨htg, -⟩ := serArr_map_cancel Json.str serJson_str_cancel serJson_str_head
      _ _ _ _ h'
    refine ⟨hid, hdk, hcat, htg, hal, hac, ?_, hse⟩
    rw [← build_hints_sorted row1 v1, ← build_hints_sorted row2 v2]
    exact hh
  · rintro ⟨hid, hdk, hcat, htg, hal, hac, hh, hse⟩
    simp only [compute_content_hash, sha256Text]
    exact congrArg serJson (by rw [contentJson, contentJson, hid, hdk, hcat, htg,
      hal, hac, hh, hse])


/-! ## Shared infrastructure for the run-level claims C3 and C5 -/

theorem mem_of_getLast? : ∀ {l : Str} {c : Char}, l.getLast? = some c → c ∈ l := by
  intro l
  induction l with
  | nil => intro c h; simp at h
  | cons x t ih =>
    intro c h
    cases t with
    | nil =>
      simp only [List.getLast?_singleton, Option.some.injEq] at h
      simp [h]
    | cons y u =>
      rw [List.getLast?_cons_cons] at h
      exact List.mem_cons_of_mem _ (ih h)

theorem intRepr_ne_nil (v : Int) : ¬ intRepr v = [] := by
  intro h
  unfold intRepr at h
  by_cases hv : v < 0
  · rw [if_pos hv] at h; cases h
  · rw [if_neg hv] at h
    exact natRepr_ne_nil _ h

/-- A decimal integer serialization never contains `.` or `v`. -/
theorem intRepr_no_dot_v (w : Int) :
    ¬ ('.' : Char) ∈ intRepr w ∧ ¬ ('v' : Char) ∈ intRepr w := by
  constructor <;>
    · intro h
      have := intRepr_mem h
      revert this
      decide

/-- Distinct normalized day keys give distinct artifact file names (the
version infix is dot-free, so the name determines the day key). -/
theorem filename_dk_inj {dk1 dk2 : Str} {v1 v2 : Int}
    (h : dk1 ++ ".v".data ++ intRepr v1 ++ ".json".data =
      dk2 ++ ".v".data ++ intRepr v2 ++ ".json".data) : dk1 = dk2 := by
  have h' := congrArg List.reverse h
  simp only [List.reverse_append] at h'
  rw [show (".json".data.reverse : Str) = ['n', 'o', 's', 'j', '.'] from rfl,
    show (".v".data.reverse : Str) = ['v', '.'] from rfl] at h'
  simp only [List.cons_append, List.nil_append, List.append_assoc] at h'
  obtain ⟨-, h'⟩ := List.cons.inj h'
  obtain ⟨-, h'⟩ := List.cons.inj h'
  obtain ⟨-, h'⟩ := List.cons.inj h'
  obtain ⟨-, h'⟩ := List.cons.inj h'
  obtain ⟨-, h'⟩ := List.cons.inj h'
  have hv1 : ¬ ('v' : Char) ∈ (intRepr v1).reverse :=
    fun hm => (intRepr_no_dot_v v1).2 (List.mem_reverse.mp hm)
  have hv2 : ¬ ('v' : Char) ∈ (intRepr v2).reverse :=
    fun hm => (intRepr_no_dot_v v2).2 (List.mem_reverse.mp hm)
  obtain ⟨-, h2⟩ := append_cancel_of_not_mem hv1 hv2 h'
  obtain ⟨-, h3⟩ := List.cons.inj h2
  exact List.reverse_injective h3

theorem rowFile_ne_of_dk_ne {a b : Row} (h : ¬ rowDk a = rowDk b) :
    ¬ rowFile a = rowFile b := by
  intro hf
  exact h (filename_dk_inj hf)

/-- Pairwise over a filtered list, pushed back to the whole list. -/
theorem pairwise_of_filter {R : Row → Row → Prop} {p : Row → Bool} :
    ∀ l : List Row, (l.filter p).Pairwise R →
      l.Pairwise (fun a b => p a = true → p b = true → R a b) := by
  intro l
  induction l with
  | nil => intro _; exact List.Pairwise.nil
  | cons r t ih =>
    intro h
    rw [List.filter_cons] at h
    by_cases hp : p r = true
    · rw [if_pos hp] at h
      refine List.pairwise_cons.mpr ⟨?_, ih (List.pairwise_cons.mp h).2⟩
      intro b hb _ hpb
      exact (List.pairwise_cons.mp h).1 b (List.mem_filter.mpr ⟨hb, hpb⟩)
    · rw [if_neg (by simpa using hp)] at h
      refine List.pairwise_cons.mpr ⟨?_, ih h⟩
      intro b _ hpr _
      exact absurd hpr hp

/-- From unique processed day keys to pairwise-distinct day keys of the
processed rows. -/
theorem pairwise_dk_of_nodup {rows : List Row}
    (h : (processedDks rows).Nodup) :
    rows.Pairwise (fun a b => rowProcessed a = true → rowProcessed b = true →
      ¬ rowDk a = rowDk b) := by
  rw [processedDks] at h
  exact pairwise_of_filter rows (List.pairwise_map.mp h)

theorem pairwise_file_of_nodup {rows : List Row}
    (h : (processedDks rows).Nodup) :
    rows.Pairwise (fun a b => rowProcessed a = true → rowProcessed b = true →
      ¬ rowFile a = rowFile b) :=
  (pairwise_dk_of_nodup h).imp (fun hab hpa hpb => rowFile_ne_of_dk_ne (hab hpa hpb))

theorem alookup_mem {α : Type} {k : Str} {v : α} :
    ∀ {d : List (Str × α)}, alookup k d = some v → (k, v) ∈ d := by
  intro d
  induction d with
  | nil => intro h; cases h
  | cons kv t ih =>
    intro h
    obtain ⟨a, b⟩ := kv
    rw [alookup] at h
    by_cases ha : a = k
    · rw [if_pos ha] at h
      rw [← ha, ← Option.some.inj h]
      exact List.mem_cons_self _ _
    · rw [if_neg ha] at h
      exact List.mem_cons_of_mem _ (ih h)

theorem alookup_eq_none {α : Type} {k : Str} :
    ∀ {d : List (Str × α)}, ¬ k ∈ d.map Prod.fst → alookup k d = none := by
  intro d
  induction d with
  | nil => intro _; rfl
  | cons kv t ih =>
    intro h
    obtain ⟨a, b⟩ := kv
    simp only [List.map_cons, List.mem_cons] at h
    push_neg at h
    rw [alookup, if_neg (fun he => h.1 he.symm)]
    exact ih h.2

/-- Under distinct keys, every binding is the one `alookup` finds. -/
theorem alookup_of_mem_nodup {α : Type} {k : Str} {v : α} :
    ∀ {d : List (Str × α)}, (d.map Prod.fst).Nodup → (k, v) ∈ d →
      alookup k d = some v := by
  intro d
  induction d with
  | nil => intro _ h; cases h
  | cons kv t ih =>
    intro hnd hm
    obtain ⟨a, b⟩ := kv
    rw [List.map_cons] at hnd
    rw [List.mem_cons] at hm
    cases hm with
    | inl h =>
      obtain ⟨h1, h2⟩ := Prod.mk.inj h.symm
      rw [alookup, if_pos h1, h2]
    | inr h =>
      have hk : k ∈ t.map Prod.fst :=
        List.mem_map.mpr ⟨(k, v), h, rfl⟩
      have ha : ¬ a = k := fun he =>
        (List.nodup_cons.mp hnd).1 (he ▸ hk)
      rw [alookup, if_neg ha]
      exact ih (List.nodup_cons.mp hnd).2 h

theorem mem_aset_self {α : Type} (k : Str) (v : α) :
    ∀ d : List (Str × α), (k, v) ∈ aset k v d := by
  intro d
  induction d with
  | nil => exact List.mem_cons_self _ _
  | cons kv t ih =>
    obtain ⟨a, b⟩ := kv
    rw [aset]
    by_cases ha : a = k
    · rw [if_pos ha]
      exact List.mem_cons_self _ _
    · rw [if_neg ha]
      exact List.mem_cons_of_mem _ ih

theorem pyRStrip_of_last {d : Char} {s : Str} (hd : isPySpace d = false)
    (h : s.getLast? = some d) : pyRStrip s = s := by
  unfold pyRStrip
  have hrev : s.reverse.head? = some d := by rw [List.head?_reverse]; exact h
  rw [show s.reverse.dropWhile isPySpace = pyLStrip s.reverse from rfl,
    pyLStrip_of_head hd hrev, List.reverse_reverse]

theorem pyStrip_plain {c d : Char} {s : Str} (hc : isPySpace c = false)
    (hd : isPySpace d = false) (hh : s.head? = some c) (hl : s.getLast? = some d) :
    pyStrip s = s := by
  unfold pyStrip
  rw [pyRStrip_of_last hd hl]
  exact pyLStrip_of_head hc hh

/-- A string with non-space, non-quote ends passes through
`_strip_wrapping_quotes` unchanged. -/
theorem stripWrappingQuotes_plain {c d : Char} {s : Str}
    (hc : isPySpace c = false) (hd : isPySpace d = false)
    (hh : s.head? = some c) (hl : s.getLast? = some d)
    (hcq : ¬ c = quoteChar) (hcs : ¬ c = squoteChar) (hds : ¬ d = squoteChar) :
    stripWrappingQuotes s = s := by
  have hps : pyStrip s = s := pyStrip_plain hc hd hh hl
  have hbig : ¬ (2 ≤ s.length ∧ s.head? = s.getLast? ∧
      (s.head? = some quoteChar ∨ s.head? = some squoteChar)) := by
    intro hx
    rcases hx.2.2 with h | h
    · rw [hh] at h; exact hcq (Option.some.inj h)
    · rw [hh] at h; exact hcs (Option.some.inj h)
  have hg2 : ¬ (s.getLast? = some squoteChar ∧ ¬ s.head? = some squoteChar) := by
    intro hx
    rw [hl] at hx
    exact hds (Option.some.inj hx.1)
  have hg3 : ¬ (s.head? = some squoteChar ∧ ¬ s.getLast? = some squoteChar) := by
    intro hx
    rw [hh] at hx
    exact hcs (Option.some.inj hx.1)
  simp only [stripWrappingQuotes]
  rw [hps, if_neg hbig, if_neg hg2, if_neg hg3]

theorem serJson_obj_head_last (ms : List (Str × Json)) :
    (serJson (Json.obj ms)).head? = some obraceChar ∧
    (serJson (Json.obj ms)).getLast? = some cbraceChar := by
  constructor
  · rfl
  · show (obraceChar :: (serObj ms ++ [cbraceChar])).getLast? = _
    rw [show obraceChar :: (serObj ms ++ [cbraceChar]) =
      (obraceChar :: serObj ms) ++ [cbraceChar] from rfl]
    exact List.getLast?_concat _

/-- The canonical content hash survives the unquoting normalization. -/
theorem stripWrappingQuotes_hash (p : Puzzle) :
    stripWrappingQuotes (compute_content_hash p) = compute_content_hash p := by
  refine stripWrappingQuotes_plain (c := obraceChar) (d := cbraceChar)
    (by decide) (by decide) ?_ ?_ (by decide) (by decide) (by decide)
  · exact (serJson_obj_head_last _).1
  · exact (serJson_obj_head_last _).2

theorem compute_content_hash_ne_nil (p : Puzzle) : ¬ compute_content_hash p = [] := by
  intro h
  have h2 : (compute_content_hash p).head? = some obraceChar :=
    (serJson_obj_head_last _).1
  rw [h] at h2
  cases h2

theorem stripWrappingQuotes_intRepr (v : Int) :
    stripWrappingQuotes (intRepr v) = intRepr v := by
  have hsafe : ∀ x ∈ "-0123456789".data,
      isPySpace x = false ∧ ¬ x = quoteChar ∧ ¬ x = squoteChar := by decide
  match hx : intRepr v with
  | [] => exact absurd hx (intRepr_ne_nil v)
  | c :: t =>
    have hcm := intRepr_mem (hx ▸ List.mem_cons_self c t)
    obtain ⟨d, hd⟩ : ∃ d, (c :: t).getLast? = some d := by
      cases hgl : (c :: t).getLast? with
      | none => simp at hgl
      | some d => exact ⟨d, rfl⟩
    have hdm := intRepr_mem (hx ▸ mem_of_getLast? hd)
    exact stripWrappingQuotes_plain (hsafe c hcm).1 (hsafe d hdm).1 rfl hd
      (hsafe c hcm).2.1 (hsafe c hcm).2.2 (hsafe d hdm).2.2

/-- `_parse_int` round-trips a written-back version number. -/
theorem parseIntDefault_intRepr (v d : Int) : parseIntDefault (intRepr v) d = v := by
  simp only [parseIntDefault]
  rw [stripWrappingQuotes_intRepr, if_neg (intRepr_ne_nil v), pyParseInt_intRepr]

/-- A fresh manifest entry is dict-equal to itself. -/
theorem entryEqPy_manifestEntry (v : Int) (u s : Str) :
    entryEqPy (manifestEntry v u s) v u s = true := by
  have h1 : ¬ ("version".data : Str) = "url".data := by decide
  have h2 : ¬ ("version".data : Str) = "sha256".data := by decide
  have h3 : ¬ ("url".data : Str) = "sha256".data := by decide
  simp [entryEqPy, manifestEntry, alookup, intOfJsonNum, h1, h2, h3]

/-- The content hash never depends on the version the record was built
with. -/
theorem hash_version_indep (r : Row) (v1 v2 : Int) :
    compute_content_hash (build_puzzle_object r v1) =
      compute_content_hash (build_puzzle_object r v2) := rfl

/-! ## Claim C5: dry runs -/

theorem stepRow_dry_dir (st : LoopState) (r : Row) : (stepRow true st r).dir = st.dir := by
  by_cases h1 : rowHasAnyContent r = true
  · by_cases h2 : rowDk r = []
    · rw [stepRow_skip_date true st r h1 h2]
    · rw [stepRow_processed true st r h1 h2]
      rfl
  · rw [stepRow_skip_blank true st r h1]

theorem foldl_dry_dir (rows : List Row) : ∀ st : LoopState,
    (rows.foldl (stepRow true) st).dir = st.dir := by
  induction rows with
  | nil => intro st; rfl
  | cons r rows ih =>
    intro st
    rw [List.foldl_cons, ih, stepRow_dry_dir]

/-- Everything of the loop state except the directory. -/
def nodirState (st : LoopState) :
    List RowResult × Nat × Nat × Bool × Bool × JObj × List Row :=
  (st.results, st.skippedBlank, st.skippedDate, st.anyCsv, st.anyMan, st.pm, st.rowsOut)

/-- A dry loop and a real loop that agree off-directory and whose
directories agree on the processed rows' file names (with those names
pairwise distinct) stay in lock step off-directory. -/
theorem foldl_dry_real (rows : List Row) : ∀ sd sr : LoopState,
    nodirState sd = nodirState sr →
    (∀ r ∈ rows, rowProcessed r = true →
      (alookup (rowFile r) sd.dir).isSome = (alookup (rowFile r) sr.dir).isSome) →
    rows.Pairwise (fun a b => rowProcessed a = true → rowProcessed b = true →
      ¬ rowFile a = rowFile b) →
    nodirState (rows.foldl (stepRow true) sd) =
      nodirState (rows.foldl (stepRow false) sr) := by
  induction rows with
  | nil => intro sd sr h _ _; exact h
  | cons r rows ih =>
    intro sd sr h hex hpw
    have h7s := h
    simp only [nodirState, Prod.mk.injEq] at h7s
    obtain ⟨h1, h2, h3, h4, h5, h6, h7⟩ := h7s
    rw [List.foldl_cons, List.foldl_cons]
    by_cases hc : rowHasAnyContent r = true
    · by_cases hdk : rowDk r = []
      · rw [stepRow_skip_date true sd r hc hdk, stepRow_skip_date false sr r hc hdk]
        refine ih _ _ ?_ ?_ (List.pairwise_cons.mp hpw).2
        · simp only [nodirState, Prod.mk.injEq]
          exact ⟨h1, h2, by rw [h3], h4, h5, h6, by rw [h7]⟩
        · exact fun q hm hp => hex q (List.mem_cons_of_mem _ hm) hp
      · have hpr : rowProcessed r = true := (rowProcessed_iff r).mpr ⟨hc, hdk⟩
        have hexr := hex r (List.mem_cons_self r rows) hpr
        rw [stepRow_processed true sd r hc hdk, stepRow_processed false sr r hc hdk]
        refine ih _ _ ?_ ?_ (List.pairwise_cons.mp hpw).2
        · simp only [nodirState, Prod.mk.injEq]
          refine ⟨?_, h2, h3, by rw [h4], by rw [h5, h6], by rw [h6], by rw [h7]⟩
          rw [h1]
          simp only [rowResult, hexr]
        · intro q hm hp
          have hne : ¬ rowFile r = rowFile q :=
            (List.pairwise_cons.mp hpw).1 q hm hpr hp
          show (alookup (rowFile q) sd.dir).isSome =
            (alookup (rowFile q) (aset (rowFile r)
              (serializeArtifact (rowPuzzle r)) sr.dir)).isSome
          rw [alookup_aset_ne hne]
          exact hex q (List.mem_cons_of_mem _ hm) hp
    · rw [stepRow_skip_blank true sd r hc, stepRow_skip_blank false sr r hc]
      refine ih _ _ ?_ ?_ (List.pairwise_cons.mp hpw).2
      · simp only [nodirState, Prod.mk.injEq]
        exact ⟨h1, by rw [h2], h3, h4, h5, h6, by rw [h7]⟩
      · exact fun q hm hp => hex q (List.mem_cons_of_mem _ hm) hp

/-- **C5** (amended): a dry run writes no puzzle, table or manifest file,
and — provided the processed rows carry pairwise-distinct day keys, the
uniqueness invariant the sheet is expected to satisfy — it reports
exactly the results (same created/refreshed/bumped classification, same
final version) and computes exactly the in-memory manifest (hence the
same per-entry sha256 artifact digests) as a real run over the same
state.  (As frozen, over arbitrary states, the claim fails: with a
duplicated day key the real run's first row creates the artifact file
the second row then sees, while the dry run's second row still reports
`created` — see the counterexample.) -/
theorem claim_C5_dry_run (fs : FsIn) (now : UtcTime) (m0 : JObj) (t : CsvTable)
    (outD outR : GenOut)
    (hmf : fs.manifestFile = some (Json.obj m0))
    (hcsv : read_csv_table fs.csvFile = .ok t)
    (hdks : (processedDks t.rows).Nodup)
    (hd : generate fs true now = .ok outD)
    (hr : generate fs false now = .ok outR) :
    outD.csvFileOut = fs.csvFile ∧ outD.manifestFileOut = fs.manifestFile ∧
    outD.dirOut = fs.puzzleFiles ∧ outD.results = outR.results ∧
    outD.manifest = outR.manifest ∧ outD.anyCsv = outR.anyCsv ∧
    outD.anyMan = outR.anyMan := by
  have hcr : (fs.csvFile.drop 1).any (recordRestkeyCrash t.header) = false :=
    generate_ok_no_crash hcsv hd
  simp only [generate, hcsv] at hd hr
  by_cases hmiss : ¬ missingColumns t = []
  · rw [if_pos hmiss] at hd; cases hd
  · rw [if_neg hmiss, hmf] at hd hr
    simp only [hcr, Except.ok.injEq] at hd hr
    subst hd
    subst hr
    rw [show (⟨[], 0, 0, false, false, fs.puzzleFiles,
      getObj (ensure_manifest_shape m0) "puzzles".data, []⟩ : LoopState) =
      initState fs m0 from rfl]
    dsimp only
    have hsim := foldl_dry_real t.rows (initState fs m0) (initState fs m0) rfl
      (fun r _ _ => rfl) (pairwise_file_of_nodup hdks)
    simp only [nodirState, Prod.mk.injEq] at hsim
    obtain ⟨hres, -, -, hcsvF, hmanF, hpm, -⟩ := hsim
    have hnc : ¬ (¬ True ∧
        (t.rows.foldl (stepRow true) (initState fs m0)).anyCsv = true) :=
      fun hx => hx.1 trivial
    have hnm : ¬ (¬ True ∧
        (t.rows.foldl (stepRow true) (initState fs m0)).anyMan = true) :=
      fun hx => hx.1 trivial
    refine ⟨by rw [if_neg hnc], by rw [if_neg hnm]; exact hmf.symm,
      foldl_dry_dir t.rows (initState fs m0), hres, ?_, hcsvF, hmanF⟩
    rw [hpm, hmanF]

/-- The result list of a successful run. -/
def genResults : Except Str GenOut → Option (List RowResult)
  | .ok o => some o.results
  | .error _ => none

/-- A fixture with the same day key on two rows. -/
def dupRecords : List (List Str) :=
  [REQUIRED_COLS ++ [CONTENT_HASH_COL],
   ["2024-01-01".data, "cat".data, [], "ans".data, [], "sol".data, [], []],
   ["2024-01-01".data, "cat".data, [], "ans".data, [], "sol".data, [], []]]

/-- Counterexample for C5 as frozen: with a duplicated day key the dry
run and the real run over the same state report different results (the
second row is `created` in the dry run but `refreshed` in the real
run). -/
theorem claim_C5_counterexample :
    ¬ genResults (generate ⟨dupRecords, [], some (Json.obj [])⟩ true fixtureNow) =
      genResults (generate ⟨dupRecords, [], some (Json.obj [])⟩ false fixtureNow) := by decide

/-- Witness for C5: on a single-row fixture the dry run reports exactly
the real run's results and leaves the empty manifest file untouched. -/
theorem claim_C5_dry_run_witness :
    genResults (generate ⟨fixtureRecords, [], some (Json.obj [])⟩ true fixtureNow) =
      genResults (generate ⟨fixtureRecords, [], some (Json.obj [])⟩ false fixtureNow) ∧
    genManifestFileOut (generate ⟨fixtureRecords, [], some (Json.obj [])⟩ true fixtureNow) =
      some (some (Json.obj [])) := by
  cases hgd : generate ⟨fixtureRecords, [], some (Json.obj [])⟩ true fixtureNow with
  | error e =>
    have hok : exceptIsOk (generate ⟨fixtureRecords, [], some (Json.obj [])⟩ true fixtureNow)
        = true := by decide
    rw [hgd] at hok
    simp [exceptIsOk] at hok
  | ok outD =>
    cases hgr : generate ⟨fixtureRecords, [], some (Json.obj [])⟩ false fixtureNow with
    | error e =>
      have hok : exceptIsOk (generate ⟨fixtureRecords, [], some (Json.obj [])⟩ false fixtureNow)
          = true := by decide
      rw [hgr] at hok
      simp [exceptIsOk] at hok
    | ok outR =>
      have h := claim_C5_dry_run ⟨fixtureRecords, [], some (Json.obj [])⟩ fixtureNow [] tFix
        outD outR rfl (by decide) (by decide) hgd hgr
      exact ⟨by simp only [genResults, h.2.2.2.1],
        by simp only [genManifestFileOut, h.2.1]⟩

/-! ## Claim C3: idempotence machinery -/

theorem hintCol_head (i : Nat) : (hintCol i).head? = some 'h' := rfl

theorem hintExplCol_head (i : Nat) : (hintExplCol i).head? = some 'h' := rfl

theorem hintCol_ne (i : Nat) :
    ¬ hintCol i = CONTENT_HASH_COL ∧ ¬ hintCol i = VERSION_COL := by
  constructor <;>
    · intro he
      have h2 := congrArg List.head? he
      rw [hintCol_head] at h2
      exact absurd h2 (by decide)

theorem hintExplCol_ne (i : Nat) :
    ¬ hintExplCol i = CONTENT_HASH_COL ∧ ¬ hintExplCol i = VERSION_COL := by
  constructor <;>
    · intro he
      have h2 := congrArg List.head? he
      rw [hintExplCol_head] at h2
      exact absurd h2 (by decide)

theorem buildHint_congr {r q : Row}
    (h : ∀ c, ¬ c = CONTENT_HASH_COL → ¬ c = VERSION_COL → rowGet r c = rowGet q c)
    (i : Nat) : buildHint r i = buildHint q i := by
  simp only [buildHint]
  rw [h (hintCol i) (hintCol_ne i).1 (hintCol_ne i).2,
    h (hintExplCol i) (hintExplCol_ne i).1 (hintExplCol_ne i).2]

/-- The built record depends only on the non-version, non-hash columns. -/
theorem build_congr {r q : Row}
    (h : ∀ c, ¬ c = CONTENT_HASH_COL → ¬ c = VERSION_COL → rowGet r c = rowGet q c)
    (v : Int) : build_puzzle_object r v = build_puzzle_object q v := by
  unfold build_puzzle_object
  rw [h DATEKEY_COL (by decide) (by decide), h CATEGORY_COL (by decide) (by decide),
    h TAGS_COL (by decide) (by decide), h ANSWER_CANONICAL_COL (by decide) (by decide),
    h ANSWER_ALIASES_COL (by decide) (by decide),
    h SOLUTION_EXPLANATION_COL (by decide) (by decide),
    List.filterMap_congr (fun i _ => buildHint_congr h i)]

/-- All per-row loop quantities depend on the row only through its
field lookups. -/
theorem row_congr_full {r q : Row} (h : ∀ c, rowGet r c = rowGet q c) :
    rowDk r = rowDk q ∧ rowVer r = rowVer q ∧ rowStored r = rowStored q ∧
    rowHash r = rowHash q ∧ rowBump r = rowBump q ∧ rowFinalVer r = rowFinalVer q ∧
    rowPuzzle r = rowPuzzle q ∧ rowFile r = rowFile q ∧ rowUrl r = rowUrl q ∧
    rowSha r = rowSha q ∧ rowEntry r = rowEntry q := by
  have hb : ∀ v, build_puzzle_object r v = build_puzzle_object q v :=
    build_congr (fun c _ _ => h c)
  have hdk : rowDk r = rowDk q := by simp only [rowDk, h]
  have hv : rowVer r = rowVer q := by simp only [rowVer, h]
  have hst : rowStored r = rowStored q := by simp only [rowStored, h]
  have hh : rowHash r = rowHash q := by simp only [rowHash, hb, hv]
  have hbp : rowBump r = rowBump q := by simp only [rowBump, hst, hh]
  have hfv : rowFinalVer r = rowFinalVer q := by simp only [rowFinalVer, hbp, hv]
  have hpz : rowPuzzle r = rowPuzzle q := by simp only [rowPuzzle, hb, hfv]
  have hf : rowFile r = rowFile q := by simp only [rowFile, hdk, hfv]
  have hu : rowUrl r = rowUrl q := by simp only [rowUrl, hf]
  have hs : rowSha r = rowSha q := by simp only [rowSha, hpz]
  exact ⟨hdk, hv, hst, hh, hbp, hfv, hpz, hf, hu, hs,
    by simp only [rowEntry, hfv, hu, hs]⟩

theorem rowOut_get_other {r : Row} {c : Str}
    (hc1 : ¬ c = CONTENT_HASH_COL) (hc2 : ¬ c = VERSION_COL) :
    rowGet (rowOut r) c = rowGet r c := by
  rw [rowOut, rowGet, alookup_aset_ne (fun he => hc1 he.symm)]
  by_cases hb : rowBump r = true
  · rw [if_pos hb, alookup_aset_ne (fun he => hc2 he.symm)]
    rfl
  · rw [if_neg hb]
    rfl

/-- The written-back row reproduces the loop's final quantities: no
bump, same final version, same artifact and manifest entry. -/
theorem rowOut_facts (r : Row) :
    rowDk (rowOut r) = rowDk r ∧
    rowStored (rowOut r) = rowHash r ∧
    rowVer (rowOut r) = rowFinalVer r ∧
    rowHash (rowOut r) = rowHash r ∧
    rowBump (rowOut r) = false ∧
    rowFinalVer (rowOut r) = rowFinalVer r ∧
    rowPuzzle (rowOut r) = rowPuzzle r ∧
    rowFile (rowOut r) = rowFile r ∧
    rowUrl (rowOut r) = rowUrl r ∧
    rowSha (rowOut r) = rowSha r ∧
    rowEntry (rowOut r) = rowEntry r := by
  have hother : ∀ c, ¬ c = CONTENT_HASH_COL → ¬ c = VERSION_COL →
      rowGet (rowOut r) c = rowGet r c := fun c hc1 hc2 => rowOut_get_other hc1 hc2
  have hbuild : ∀ v, build_puzzle_object (rowOut r) v = build_puzzle_object r v :=
    build_congr hother
  have hdk : rowDk (rowOut r) = rowDk r := by
    rw [rowDk, rowDk, hother DATEKEY_COL (by decide) (by decide)]
  have hstored : rowStored (rowOut r) = rowHash r := by
    rw [rowStored, rowGet, rowOut, alookup_aset_self]
    exact stripWrappingQuotes_hash _
  have hver : rowVer (rowOut r) = rowFinalVer r := by
    rw [rowVer, rowGet, rowOut,
      alookup_aset_ne (show ¬ CONTENT_HASH_COL = VERSION_COL by decide)]
    by_cases hb : rowBump r = true
    · rw [if_pos hb, alookup_aset_self]
      exact parseIntDefault_intRepr _ _
    · rw [if_neg hb]
      rw [rowFinalVer, if_neg hb]
      rfl
  have hhash : rowHash (rowOut r) = rowHash r := by
    rw [rowHash, hbuild, hver]
    exact hash_version_indep r (rowFinalVer r) (rowVer r)
  have hbump : rowBump (rowOut r) = false := by
    rw [rowBump, hstored, hhash]
    simp
  have hfv : rowFinalVer (rowOut r) = rowFinalVer r := by
    rw [rowFinalVer, hbump, hver]
    rfl
  have hpz : rowPuzzle (rowOut r) = rowPuzzle r := by
    rw [rowPuzzle, rowPuzzle, hbuild, hfv]
  have hfile : rowFile (rowOut r) = rowFile r := by
    rw [rowFile, rowFile, hdk, hfv]
  have hurl : rowUrl (rowOut r) = rowUrl r := by rw [rowUrl, rowUrl, hfile]
  have hsha : rowSha (rowOut r) = rowSha r := by rw [rowSha, rowSha, hpz]
  exact ⟨hdk, hstored, hver, hhash, hbump, hfv, hpz, hfile, hurl, hsha,
    by rw [rowEntry, rowEntry, hfv, hurl, hsha]⟩

/-- The written-back row is never blank: it carries the content hash. -/
theorem rowOut_hasContent (r : Row) : rowHasAnyContent (rowOut r) = true := by
  rw [rowHasAnyContent, List.any_eq_true]
  refine ⟨(CONTENT_HASH_COL, rowHash r), ?_, ?_⟩
  · rw [rowOut]
    exact mem_aset_self _ _ _
  · have h1 : pyStrip (rowHash r) = rowHash r :=
      pyStrip_plain (c := obraceChar) (d := cbraceChar) (by decide) (by decide)
        (serJson_obj_head_last _).1 (serJson_obj_head_last _).2
    simp only [h1]
    rw [decide_eq_true_eq]
    intro hx
    rw [List.isEmpty_iff] at hx
    exact compute_content_hash_ne_nil _ hx

theorem zipRow_keys : ∀ (hs vs : List Str), (zipRow hs vs).map Prod.fst = hs := by
  intro hs
  induction hs with
  | nil => intro vs; cases vs <;> rfl
  | cons c cs ih =>
    intro vs
    cases vs with
    | nil =>
      simp only [zipRow, List.map_cons, List.cons.injEq, true_and]
      exact ih []
    | cons v vs =>
      simp only [zipRow, List.map_cons, List.cons.injEq, true_and]
      exact ih vs

theorem aset_keys_mem {α : Type} (k : Str) (v : α) :
    ∀ d : List (Str × α), k ∈ d.map Prod.fst →
      (aset k v d).map Prod.fst = d.map Prod.fst := by
  intro d
  induction d with
  | nil => intro h; simp at h
  | cons kv t ih =>
    intro h
    obtain ⟨a, b⟩ := kv
    rw [aset]
    by_cases ha : a = k
    · rw [if_pos ha, List.map_cons, List.map_cons, ha]
    · rw [if_neg ha, List.map_cons, List.map_cons, ih ?_]
      rcases List.mem_cons.mp h with he | hm
      · exact absurd he.symm ha
      · exact hm

theorem aset_keys_not_mem {α : Type} (k : Str) (v : α) :
    ∀ d : List (Str × α), ¬ k ∈ d.map Prod.fst →
      (aset k v d).map Prod.fst = d.map Prod.fst ++ [k] := by
  intro d
  induction d with
  | nil => intro _; rfl
  | cons kv t ih =>
    intro h
    obtain ⟨a, b⟩ := kv
    simp only [List.map_cons, List.mem_cons] at h
    push_neg at h
    rw [aset, if_neg (fun he => h.1 he.symm), List.map_cons, List.map_cons,
      ih h.2, List.cons_append]

/-- The row as re-read from the serialized table: one binding per header
column, holding the row lookup. -/
def reserializeRow (header : List Str) (r : Row) : Row :=
  header.map (fun c => (c, rowGet r c))

theorem reserialize_keys (header : List Str) (r : Row) :
    (reserializeRow header r).map Prod.fst = header := by
  rw [reserializeRow, List.map_map]
  exact List.map_id' header

/-- Re-reading a serialized row preserves every field lookup, as long as
the row's keys all appear in the header. -/
theorem rowGet_reserialize (header : List Str) (r : Row)
    (hsub : ∀ c ∈ r.map Prod.fst, c ∈ header) (c : Str) :
    rowGet (reserializeRow header r) c = rowGet r c := by
  by_cases hc : c ∈ header
  · have hl : alookup c (reserializeRow header r) = some (rowGet r c) := by
      clear hsub
      induction header with
      | nil => cases hc
      | cons a t ih =>
        rw [reserializeRow, List.map_cons, alookup]
        by_cases ha : a = c
        · rw [if_pos ha, ha]
        · rw [if_neg ha]
          exact ih (by
            rcases List.mem_cons.mp hc with he | hm
            · exact absurd he.symm ha
            · exact hm)
    rw [rowGet, hl]
    rfl
  · have h1 : alookup c (reserializeRow header r) = none := by
      apply alookup_eq_none
      rw [reserialize_keys]
      exact hc
    have h2 : alookup c r = none := by
      apply alookup_eq_none
      intro hm
      exact hc (hsub c hm)
    rw [rowGet, rowGet, h1, h2]

/-- Re-reading a serialized row preserves blankness, as long as the
row's keys are distinct and all appear in the header. -/
theorem rowHasAnyContent_reserialize (header : List Str) (r : Row)
    (hnd : (r.map Prod.fst).Nodup) (hsub : ∀ c ∈ r.map Prod.fst, c ∈ header) :
    rowHasAnyContent (reserializeRow header r) = rowHasAnyContent r := by
  cases hr : rowHasAnyContent r with
  | true =>
    rw [rowHasAnyContent, List.any_eq_true] at hr
    obtain ⟨kv, hkm, hp⟩ := hr
    rw [rowHasAnyContent, List.any_eq_true]
    refine ⟨(kv.1, rowGet r kv.1), ?_, ?_⟩
    · rw [reserializeRow]
      exact List.mem_map.mpr ⟨kv.1, hsub kv.1 (List.mem_map.mpr ⟨kv, hkm, rfl⟩), rfl⟩
    · have hval : rowGet r kv.1 = kv.2 := by
        rw [rowGet, alookup_of_mem_nodup hnd hkm]
        rfl
      rw [hval]
      exact hp
  | false =>
    rw [rowHasAnyContent, List.any_eq_false] at hr
    rw [rowHasAnyContent, List.any_eq_false]
    intro kv hkv
    rw [reserializeRow] at hkv
    obtain ⟨c, hcm, hce⟩ := List.mem_map.mp hkv
    rw [← hce]
    cases hlk : alookup c r with
    | none =>
      rw [rowGet, hlk]
      show ¬ (decide (¬ (pyStrip ([] : Str)).isEmpty = true) = true)
      decide
    | some v =>
      have hv := hr (c, v) (alookup_mem hlk)
      rw [rowGet, hlk]
      exact hv

theorem zipRow_map_self : ∀ (hs : List Str) (f : Str → Str),
    zipRow hs (hs.map f) = hs.map (fun c => (c, f c)) := by
  intro hs f
  induction hs with
  | nil => rfl
  | cons c cs ih => rw [List.map_cons, zipRow, ih, List.map_cons]

/-- Reading back a written table: same header, rows reserialized in
header order. -/
theorem read_serializeTable (t : CsvTable) (hne : ¬ t.header = []) :
    read_csv_table (serializeTable t) =
      .ok ⟨t.header, t.rows.map (reserializeRow t.header)⟩ := by
  rw [serializeTable, read_csv_table, if_neg hne]
  have hfil : (t.rows.map (fun r => t.header.map (fun c => rowGet r c))).filter
      (fun r => ¬ r = []) =
      t.rows.map (fun r => t.header.map (fun c => rowGet r c)) := by
    rw [List.filter_eq_self]
    intro a ha
    obtain ⟨r, -, hre⟩ := List.mem_map.mp ha
    rw [← hre]
    simp only [decide_eq_true_eq]
    intro hx
    exact hne (List.map_eq_nil_iff.mp hx)
  rw [hfil, List.map_map]
  have hco : (zipRow t.header ∘ fun r => t.header.map (fun c => rowGet r c)) =
      reserializeRow t.header := by
    funext r
    show zipRow t.header (t.header.map (fun c => rowGet r c)) = _
    rw [zipRow_map_self]
    rfl
  rw [hco]

theorem read_rows_shape {records : List (List Str)} {t : CsvTable}
    (h : read_csv_table records = .ok t) :
    ∀ r ∈ t.rows, ∃ vs, r = zipRow t.header vs := by
  cases records with
  | nil => cases h
  | cons hd tl =>
    rw [read_csv_table] at h
    by_cases hhd : hd = []
    · rw [if_pos hhd] at h; cases h
    · rw [if_neg hhd] at h
      rw [← Except.ok.inj h]
      intro r hr
      obtain ⟨vs, -, hve⟩ := List.mem_map.mp hr
      exact ⟨vs, hve.symm⟩

theorem stepRow_anyCsv (dry : Bool) (st : LoopState) (r : Row) :
    (stepRow dry st r).anyCsv =
      if rowProcessed r = true then
        (if rowBump r then true else if rowStored r = [] then true else st.anyCsv)
      else st.anyCsv := by
  by_cases h1 : rowHasAnyContent r = true
  · by_cases h2 : rowDk r = []
    · rw [stepRow_skip_date dry st r h1 h2,
        if_neg (by simp [rowProcessed_iff, h1, h2])]
    · rw [stepRow_processed dry st r h1 h2,
        if_pos ((rowProcessed_iff r).mpr ⟨h1, h2⟩)]
  · rw [stepRow_skip_blank dry st r h1,
      if_neg (by simp [rowProcessed_iff, h1])]

theorem foldl_anyCsv_false (dry : Bool) (rows : List Row) : ∀ st : LoopState,
    (rows.foldl (stepRow dry) st).anyCsv = false →
    st.anyCsv = false ∧ ∀ r ∈ rows, rowProcessed r = true →
      ¬ rowStored r = [] ∧ rowBump r = false := by
  induction rows with
  | nil => intro st h; exact ⟨h, fun r hr => absurd hr (List.not_mem_nil r)⟩
  | cons q rows ih =>
    intro st h
    rw [List.foldl_cons] at h
    obtain ⟨h1, h2⟩ := ih _ h
    rw [stepRow_anyCsv] at h1
    by_cases hp : rowProcessed q = true
    · rw [if_pos hp] at h1
      by_cases hb : rowBump q = true
      · rw [if_pos hb] at h1; cases h1
      · rw [if_neg hb] at h1
        by_cases hs : rowStored q = []
        · rw [if_pos hs] at h1; cases h1
        · rw [if_neg hs] at h1
          refine ⟨h1, fun r hr hpr => ?_⟩
          rcases List.mem_cons.mp hr with he | hm
          · subst he
            exact ⟨hs, Bool.eq_false_iff.mpr hb⟩
          · exact h2 r hm hpr
    · rw [if_neg hp] at h1
      refine ⟨h1, fun r hr hpr => ?_⟩
      rcases List.mem_cons.mp hr with he | hm
      · subst he; exact absurd hpr hp
      · exact h2 r hm hpr

theorem rowEntryChanged_aset_ne {r : Row} {k : Str} (h : ¬ k = rowDk r)
    (v : Json) (pm : JObj) :
    rowEntryChanged r (aset k v pm) = rowEntryChanged r pm := by
  rw [rowEntryChanged, rowEntryChanged, alookup_aset_ne h]

/-- A row whose upsert did not change the manifest has a dict-equal
entry already present. -/
theorem entry_unchanged_inv {r : Row} {pm : JObj} (h : rowEntryChanged r pm = false) :
    ∃ e, alookup (rowDk r) pm = some e ∧
      entryEqPy e (rowFinalVer r) (rowUrl r) (rowSha r) = true := by
  rw [rowEntryChanged] at h
  cases hl : alookup (rowDk r) pm with
  | none => rw [hl] at h; simp at h
  | some e =>
    rw [hl] at h
    refine ⟨e, rfl, ?_⟩
    simpa using h

/-- When the whole run reports no manifest change, every processed row
found a dict-equal entry under its own day key in the initial object
(day keys pairwise distinct). -/
theorem foldl_anyMan_false_entry (dry : Bool) (rows : List Row) : ∀ st : LoopState,
    rows.Pairwise (fun a b => rowProcessed a = true → rowProcessed b = true →
      ¬ rowDk a = rowDk b) →
    (rows.foldl (stepRow dry) st).anyMan = false →
    ∀ r ∈ rows, rowProcessed r = true → rowEntryChanged r st.pm = false := by
  induction rows with
  | nil => intro st _ _ r hr; cases hr
  | cons q rows ih =>
    intro st hpw h r hr hp
    rw [List.foldl_cons] at h
    have hstep : (stepRow dry st q).anyMan = false := by
      cases hsq : (stepRow dry st q).anyMan with
      | false => rfl
      | true => rw [foldl_anyMan_mono dry rows _ hsq] at h; cases h
    rcases List.mem_cons.mp hr with he | hm
    · subst he
      rw [stepRow_anyMan, if_pos hp] at hstep
      by_cases hch : rowEntryChanged r st.pm = true
      · rw [if_pos hch] at hstep; cases hstep
      · exact Bool.eq_false_iff.mpr hch
    · have hq := ih _ (List.pairwise_cons.mp hpw).2 h r hm hp
      by_cases hpq : rowProcessed q = true
      · have hne : ¬ rowDk q = rowDk r := (List.pairwise_cons.mp hpw).1 r hm hpq hp
        obtain ⟨hc, hdk⟩ := (rowProcessed_iff q).mp hpq
        rw [stepRow_processed dry st q hc hdk] at hq
        have hq2 : rowEntryChanged r (aset (rowDk q) (rowEntry q) st.pm) = false := hq
        rw [rowEntryChanged_aset_ne hne] at hq2
        exact hq2
      · rw [(stepRow_not_processed dry st q hpq).1] at hq
        exact hq

theorem stepRow_real_dir_other (st : LoopState) (r : Row) (k : Str)
    (hk : rowProcessed r = true → ¬ rowFile r = k) :
    alookup k (stepRow false st r).dir = alookup k st.dir := by
  by_cases h1 : rowHasAnyContent r = true
  · by_cases h2 : rowDk r = []
    · rw [stepRow_skip_date false st r h1 h2]
    · have hpr := (rowProcessed_iff r).mpr ⟨h1, h2⟩
      rw [stepRow_processed false st r h1 h2]
      exact alookup_aset_ne (hk hpr) _ _
  · rw [stepRow_skip_blank false st r h1]

theorem foldl_dir_other (rows : List Row) : ∀ (st : LoopState) (k : Str),
    (∀ r ∈ rows, rowProcessed r = true → ¬ rowFile r = k) →
    alookup k (rows.foldl (stepRow false) st).dir = alookup k st.dir := by
  induction rows with
  | nil => intro st k _; rfl
  | cons r rows ih =>
    intro st k hk
    rw [List.foldl_cons, ih _ k (fun q hm => hk q (List.mem_cons_of_mem _ hm)),
      stepRow_real_dir_other st r k (hk r (List.mem_cons_self r rows))]

/-- A real run leaves each processed row's artifact in the directory
(file names pairwise distinct). -/
theorem foldl_dir_of_mem (rows : List Row) : ∀ st : LoopState,
    rows.Pairwise (fun a b => rowProcessed a = true → rowProcessed b = true →
      ¬ rowFile a = rowFile b) →
    ∀ r ∈ rows, rowProcessed r = true →
    alookup (rowFile r) (rows.foldl (stepRow false) st).dir =
      some (serializeArtifact (rowPuzzle r)) := by
  induction rows with
  | nil => intro st _ r hr; cases hr
  | cons q rows ih =>
    intro st hpw r hr hp
    rw [List.foldl_cons]
    rcases List.mem_cons.mp hr with he | hm
    · subst he
      have hother : ∀ b ∈ rows, rowProcessed b = true → ¬ rowFile b = rowFile r :=
        fun b hb hpb hfb => (List.pairwise_cons.mp hpw).1 b hb hp hpb hfb.symm
      rw [foldl_dir_other rows _ _ hother]
      obtain ⟨hc, hdk⟩ := (rowProcessed_iff r).mp hp
      rw [stepRow_processed false st r hc hdk]
      exact alookup_aset_self _ _ _
    · exact ih _ (List.pairwise_cons.mp hpw).2 r hm hp

theorem foldl_pm_other (dry : Bool) (rows : List Row) : ∀ (st : LoopState) (k : Str),
    (∀ r ∈ rows, rowProcessed r = true → ¬ rowDk r = k) →
    alookup k (rows.foldl (stepRow dry) st).pm = alookup k st.pm := by
  induction rows with
  | nil => intro st k _; rfl
  | cons r rows ih =>
    intro st k hk
    rw [List.foldl_cons, ih _ k (fun q hm => hk q (List.mem_cons_of_mem _ hm)),
      stepRow_pm_other dry st r k (hk r (List.mem_cons_self r rows))]

/-- A run leaves each processed row's fresh entry in the `puzzles`
object (day keys pairwise distinct). -/
theorem foldl_pm_of_mem (dry : Bool) (rows : List Row) : ∀ st : LoopState,
    rows.Pairwise (fun a b => rowProcessed a = true → rowProcessed b = true →
      ¬ rowDk a = rowDk b) →
    ∀ r ∈ rows, rowProcessed r = true →
    alookup (rowDk r) (rows.foldl (stepRow dry) st).pm = some (rowEntry r) := by
  induction rows with
  | nil => intro st _ r hr; cases hr
  | cons q rows ih =>
    intro st hpw r hr hp
    rw [List.foldl_cons]
    rcases List.mem_cons.mp hr with he | hm
    · subst he
      have hother : ∀ b ∈ rows, rowProcessed b = true → ¬ rowDk b = rowDk r :=
        fun b hb hpb hfb => (List.pairwise_cons.mp hpw).1 b hb hp hpb hfb.symm
      rw [foldl_pm_other dry rows _ _ hother]
      obtain ⟨hc, hdk⟩ := (rowProcessed_iff r).mp hp
      rw [stepRow_processed dry st r hc hdk]
      exact alookup_aset_self _ _ _
    · exact ih _ (List.pairwise_cons.mp hpw).2 r hm hp

/-- The loop's row mutation, per row. -/
def loopRowOut (r : Row) : Row := if rowProcessed r = true then rowOut r else r

theorem foldl_rowsOut (dry : Bool) (rows : List Row) : ∀ st : LoopState,
    (rows.foldl (stepRow dry) st).rowsOut = st.rowsOut ++ rows.map loopRowOut := by
  induction rows with
  | nil =>
    intro st
    rw [List.map_nil, List.append_nil]
    rfl
  | cons r rows ih =>
    intro st
    rw [List.foldl_cons, ih, List.map_cons]
    by_cases h1 : rowHasAnyContent r = true
    · by_cases h2 : rowDk r = []
      · rw [stepRow_skip_date dry st r h1 h2, loopRowOut,
          if_neg (show ¬ rowProcessed r = true by simp [rowProcessed_iff, h2])]
        simp [List.append_assoc]
      · rw [stepRow_processed dry st r h1 h2, loopRowOut,
          if_pos ((rowProcessed_iff r).mpr ⟨h1, h2⟩)]
        simp [List.append_assoc]
    · rw [stepRow_skip_blank dry st r h1, loopRowOut,
        if_neg (show ¬ rowProcessed r = true by simp [rowProcessed_iff, h1])]
      simp [List.append_assoc]

theorem ensure_getObj_puzzles {m : JObj} {o : JObj}
    (h : alookup "puzzles".data m = some (Json.obj o)) :
    getObj (ensure_manifest_shape m) "puzzles".data = o := by
  obtain ⟨hp, -, -⟩ := ensure_shape_spec m
  rw [getObj, hp, h]

/-- A processed row is stable for a directory and `puzzles` object: no
pending bump, its artifact already on disk byte for byte, and a
dict-equal manifest entry already present. -/
def stableRow (r : Row) (dir : List (Str × Str)) (pm : JObj) : Prop :=
  rowBump r = false ∧ ¬ rowStored r = [] ∧
  alookup (rowFile r) dir = some (serializeArtifact (rowPuzzle r)) ∧
  ∃ e, alookup (rowDk r) pm = some e ∧
    entryEqPy e (rowFinalVer r) (rowUrl r) (rowSha r) = true

theorem stepRow_stable (st : LoopState) {r : Row} (hp : rowProcessed r = true)
    (hs : stableRow r st.dir st.pm) :
    (stepRow false st r).anyCsv = st.anyCsv ∧
    (stepRow false st r).anyMan = st.anyMan ∧
    (stepRow false st r).dir = st.dir ∧
    (stepRow false st r).pm = aset (rowDk r) (rowEntry r) st.pm ∧
    (stepRow false st r).results = st.results ++
      [⟨rowDk r, rowFinalVer r, false, true, false, rowReason r⟩] := by
  obtain ⟨hc, hdk⟩ := (rowProcessed_iff r).mp hp
  obtain ⟨hb, hst, hdir, e, hpme, heq⟩ := hs
  have hech : rowEntryChanged r st.pm = false := by
    rw [rowEntryChanged, hpme]
    simp [heq]
  have hex : (alookup (rowFile r) st.dir).isSome = true := by rw [hdir]; rfl
  rw [stepRow_processed false st r hc hdk]
  refine ⟨?_, ?_, ?_, rfl, ?_⟩
  · show (if rowBump r then true else if rowStored r = [] then true
      else st.anyCsv) = st.anyCsv
    rw [hb]
    simp [hst]
  · show (if rowEntryChanged r st.pm then true else st.anyMan) = st.anyMan
    rw [hech]
    simp
  · show (if false then st.dir else
      aset (rowFile r) (serializeArtifact (rowPuzzle r)) st.dir) = st.dir
    rw [if_neg (by simp)]
    exact aset_self_of_alookup hdir
  · show st.results ++ [rowResult r st.dir] = _
    rw [rowResult, hex, hb]
    rfl

/-- Folding over rows that are all stable (with pairwise-distinct day
keys) changes none of the update flags, writes nothing new to the
directory, and reports every processed row as an unchanged refresh. -/
theorem foldl_stable (rows : List Row) : ∀ st : LoopState,
    (∀ r ∈ rows, rowProcessed r = true → stableRow r st.dir st.pm) →
    rows.Pairwise (fun a b => rowProcessed a = true → rowProcessed b = true →
      ¬ rowDk a = rowDk b) →
    (rows.foldl (stepRow false) st).anyCsv = st.anyCsv ∧
    (rows.foldl (stepRow false) st).anyMan = st.anyMan ∧
    (rows.foldl (stepRow false) st).dir = st.dir ∧
    (∀ res ∈ (rows.foldl (stepRow false) st).results,
      res ∈ st.results ∨ (res.bumped = false ∧ res.created = false)) := by
  induction rows with
  | nil => intro st _ _; exact ⟨rfl, rfl, rfl, fun res hres => Or.inl hres⟩
  | cons q rows ih =>
    intro st hst hpw
    rw [List.foldl_cons]
    by_cases hp : rowProcessed q = true
    · obtain ⟨hcs, hmn, hdr, hpm, hrs⟩ :=
        stepRow_stable st hp (hst q (List.mem_cons_self q rows) hp)
      have hstable1 : ∀ r ∈ rows, rowProcessed r = true →
          stableRow r (stepRow false st q).dir (stepRow false st q).pm := by
        intro r hm hpr
        obtain ⟨hb, hsd, hdir2, e, hpme, heq⟩ := hst r (List.mem_cons_of_mem _ hm) hpr
        have hne : ¬ rowDk q = rowDk r := (List.pairwise_cons.mp hpw).1 r hm hp hpr
        refine ⟨hb, hsd, by rw [hdr]; exact hdir2, e, ?_, heq⟩
        rw [hpm, alookup_aset_ne hne]
        exact hpme
      obtain ⟨c1, c2, c3, c4⟩ := ih _ hstable1 (List.pairwise_cons.mp hpw).2
      refine ⟨c1.trans hcs, c2.trans hmn, c3.trans hdr, fun res hres => ?_⟩
      rcases c4 res hres with h | h
      · rw [hrs] at h
        rcases List.mem_append.mp h with h2 | h2
        · exact Or.inl h2
        · rw [List.mem_singleton.mp h2]
          exact Or.inr ⟨rfl, rfl⟩
      · exact Or.inr h
    · obtain ⟨hpm, hdr, hcs, hmn, hrs⟩ := stepRow_not_processed false st q hp
      have hstable1 : ∀ r ∈ rows, rowProcessed r = true →
          stableRow r (stepRow false st q).dir (stepRow false st q).pm := by
        intro r hm hpr
        obtain ⟨hb, hsd, hdir2, e, hpme, heq⟩ := hst r (List.mem_cons_of_mem _ hm) hpr
        exact ⟨hb, hsd, by rw [hdr]; exact hdir2, e, by rw [hpm]; exact hpme, heq⟩
      obtain ⟨c1, c2, c3, c4⟩ := ih _ hstable1 (List.pairwise_cons.mp hpw).2
      refine ⟨c1.trans hcs, c2.trans hmn, c3.trans hdr, fun res hres => ?_⟩
      rcases c4 res hres with h | h
      · rw [hrs] at h
        exact Or.inl h
      · exact Or.inr h

/-- A run over a fully stable state succeeds and changes nothing: no
version bumps, no table rewrite, no manifest change, no new artifact
bytes. -/
theorem generate_stable (fs : FsIn) (now : UtcTime) (m0 : JObj) (t : CsvTable)
    (hmf : fs.manifestFile = some (Json.obj m0))
    (hcsv : read_csv_table fs.csvFile = .ok t)
    (hmiss : missingColumns t = [])
    (hnocrash : (fs.csvFile.drop 1).any (recordRestkeyCrash t.header) = false)
    (hstable : ∀ r ∈ t.rows, rowProcessed r = true →
      stableRow r fs.puzzleFiles (getObj (ensure_manifest_shape m0) "puzzles".data))
    (hpw : t.rows.Pairwise (fun a b => rowProcessed a = true →
      rowProcessed b = true → ¬ rowDk a = rowDk b)) :
    ∃ out, generate fs false now = .ok out ∧
      out.anyCsv = false ∧ out.anyMan = false ∧
      out.csvFileOut = fs.csvFile ∧ out.manifestFileOut = fs.manifestFile ∧
      out.dirOut = fs.puzzleFiles ∧
      ∀ res ∈ out.results, res.bumped = false ∧ res.created = false := by
  have hmiss2 : ¬ ¬ missingColumns t = [] := by simp [hmiss]
  obtain ⟨hacsv, haman, hdir, hres⟩ := foldl_stable t.rows (initState fs m0)
    (fun r hm hp => hstable r hm hp) hpw
  simp only [generate, hcsv, if_neg hmiss2, hmf, hnocrash]
  rw [show (⟨[], 0, 0, false, false, fs.puzzleFiles,
    getObj (ensure_manifest_shape m0) "puzzles".data, []⟩ : LoopState) =
    initState fs m0 from rfl]
  refine ⟨_, rfl, hacsv, haman, ?_, ?_, hdir, ?_⟩
  · dsimp only
    rw [if_neg (show ¬ (¬ (false : Bool) = true ∧
        (t.rows.foldl (stepRow false) (initState fs m0)).anyCsv = true) from
      fun hc => Bool.false_ne_true
        (show (false : Bool) = true from hacsv.symm.trans hc.2))]
  · dsimp only
    rw [if_neg (show ¬ (¬ (false : Bool) = true ∧
        (t.rows.foldl (stepRow false) (initState fs m0)).anyMan = true) from
      fun hc => Bool.false_ne_true
        (show (false : Bool) = true from haman.symm.trans hc.2))]
  · intro res hmem
    rcases hres res hmem with h | h
    · cases h
    · exact h

/-- Transport of the per-row loop quantities through write-back and
table re-serialization: the re-read row of a processed row is processed,
carries no pending bump, and reproduces the first run's final version,
artifact and manifest entry; skipped rows stay skipped. -/
theorem row2_transport {t1 : CsvTable} (hnodup : t1.header.Nodup)
    (hver : VERSION_COL ∈ t1.header) (header2 : List Str)
    (hh : header2 = if CONTENT_HASH_COL ∈ t1.header then t1.header
      else t1.header ++ [CONTENT_HASH_COL])
    {r : Row} (hrs : ∃ vs, r = zipRow t1.header vs) :
    rowProcessed (reserializeRow header2 (loopRowOut r)) = rowProcessed r ∧
    (rowProcessed r = true →
      rowDk (reserializeRow header2 (loopRowOut r)) = rowDk r ∧
      rowBump (reserializeRow header2 (loopRowOut r)) = false ∧
      ¬ rowStored (reserializeRow header2 (loopRowOut r)) = [] ∧
      rowFile (reserializeRow header2 (loopRowOut r)) = rowFile r ∧
      rowPuzzle (reserializeRow header2 (loopRowOut r)) = rowPuzzle r ∧
      rowFinalVer (reserializeRow header2 (loopRowOut r)) = rowFinalVer r ∧
      rowUrl (reserializeRow header2 (loopRowOut r)) = rowUrl r ∧
      rowSha (reserializeRow header2 (loopRowOut r)) = rowSha r) := by
  obtain ⟨vs, hre⟩ := hrs
  have hkeys : r.map Prod.fst = t1.header := by rw [hre, zipRow_keys]
  have hkeysOut : ((loopRowOut r).map Prod.fst = t1.header ∧
      CONTENT_HASH_COL ∈ t1.header) ∨
      ((loopRowOut r).map Prod.fst = t1.header ++ [CONTENT_HASH_COL] ∧
        ¬ CONTENT_HASH_COL ∈ t1.header) ∨
      (loopRowOut r).map Prod.fst = t1.header := by
    rw [loopRowOut]
    by_cases hp : rowProcessed r = true
    · rw [if_pos hp, rowOut]
      have hkin : (if rowBump r then aset VERSION_COL (intRepr (rowFinalVer r)) r
          else r).map Prod.fst = t1.header := by
        by_cases hb : rowBump r = true
        · rw [if_pos hb, aset_keys_mem _ _ _ (hkeys ▸ hver)]
          exact hkeys
        · rw [if_neg hb]
          exact hkeys
      by_cases hch : CONTENT_HASH_COL ∈ t1.header
      · exact Or.inl ⟨by rw [aset_keys_mem _ _ _ (hkin ▸ hch), hkin], hch⟩
      · exact Or.inr (Or.inl ⟨by
          rw [aset_keys_not_mem _ _ _ (fun hm => hch (hkin ▸ hm)), hkin], hch⟩)
    · rw [if_neg hp]
      exact Or.inr (Or.inr hkeys)
  have hsub : ∀ c ∈ (loopRowOut r).map Prod.fst, c ∈ header2 := by
    intro c hc
    rcases hkeysOut with ⟨hk, hm⟩ | ⟨hk, hm⟩ | hk
    · rw [hh, if_pos hm]
      exact hk ▸ hc
    · rw [hh, if_neg hm]
      exact hk ▸ hc
    · rw [hh]
      by_cases hm2 : CONTENT_HASH_COL ∈ t1.header
      · rw [if_pos hm2]
        exact hk ▸ hc
      · rw [if_neg hm2]
        exact List.mem_append_left _ (hk ▸ hc)
  have hnd : ((loopRowOut r).map Prod.fst).Nodup := by
    rcases hkeysOut with ⟨hk, -⟩ | ⟨hk, hm⟩ | hk
    · rw [hk]; exact hnodup
    · rw [hk]
      simp [List.nodup_append, hnodup, hm]
    · rw [hk]; exact hnodup
  have hget : ∀ c, rowGet (reserializeRow header2 (loopRowOut r)) c =
      rowGet (loopRowOut r) c := rowGet_reserialize _ _ hsub
  have hcontent : rowHasAnyContent (reserializeRow header2 (loopRowOut r)) =
      rowHasAnyContent (loopRowOut r) := rowHasAnyContent_reserialize _ _ hnd hsub
  obtain ⟨cdk, -, cst, -, cbump, cfv, cpz, cf, cu, cs, -⟩ := row_congr_full hget
  by_cases hp : rowProcessed r = true
  · have hlo : loopRowOut r = rowOut r := by rw [loopRowOut, if_pos hp]
    obtain ⟨fdk, fst2, -, -, fbump, ffv, fpz, ffile, furl, fsha, -⟩ := rowOut_facts r
    constructor
    · have hq : rowProcessed (reserializeRow header2 (loopRowOut r)) = true := by
        refine (rowProcessed_iff _).mpr ⟨?_, ?_⟩
        · rw [hcontent, hlo]
          exact rowOut_hasContent r
        · rw [cdk, hlo, fdk]
          exact ((rowProcessed_iff r).mp hp).2
      rw [hq, hp]
    · intro _
      refine ⟨by rw [cdk, hlo, fdk], by rw [cbump, hlo, fbump],
        by rw [cst, hlo, fst2]; exact compute_content_hash_ne_nil _,
        by rw [cf, hlo, ffile], by rw [cpz, hlo, fpz], by rw [cfv, hlo, ffv],
        by rw [cu, hlo, furl], by rw [cs, hlo, fsha]⟩
  · have hlo : loopRowOut r = r := by rw [loopRowOut, if_neg hp]
    constructor
    · have hq : rowProcessed (reserializeRow header2 (loopRowOut r)) = false := by
        cases hcr : rowHasAnyContent r with
        | false =>
          rw [rowProcessed, hcontent, hlo, hcr]
          rfl
        | true =>
          have hdk2 : rowDk r = [] := by
            by_contra hne
            exact hp ((rowProcessed_iff r).mpr ⟨hcr, hne⟩)
          rw [rowProcessed, cdk, hlo, hdk2]
          simp
      rw [hq, Bool.eq_false_iff.mpr hp]
    · intro hp2
      exact absurd hp2 hp

/-- A record no longer than the header never crashes the row loop
(`DictReader` stores no `restkey` entry for it). -/
theorem recordRestkeyCrash_len (header fields : List Str)
    (h : fields.length ≤ header.length) :
    recordRestkeyCrash header fields = false := by
  rw [recordRestkeyCrash, decide_eq_false (Nat.not_lt.mpr h)]
  rfl

/-- A re-serialized table has exactly header-many fields per record, so
no record of it crashes the row loop. -/
theorem serializeTable_no_restkeyCrash (t : CsvTable) :
    ((serializeTable t).drop 1).any (recordRestkeyCrash t.header) = false := by
  have hdrop : ((serializeTable t).drop 1)
      = t.rows.map fun r => t.header.map fun c => rowGet r c := rfl
  rw [hdrop]
  cases hany : (t.rows.map fun r => t.header.map fun c => rowGet r c).any
      (recordRestkeyCrash t.header) with
  | false => rfl
  | true =>
    obtain ⟨x, hx, hpx⟩ := List.any_eq_true.mp hany
    obtain ⟨r, hr, rfl⟩ := List.mem_map.mp hx
    rw [recordRestkeyCrash_len _ _ (by simp)] at hpx
    cases hpx

/-- A second run whose rows are pointwise tied to stable first-run rows
succeeds and reports no updates. -/
theorem run2_ok (fs2 : FsIn) (now2 : UtcTime) (m2 : JObj) (t2 : CsvTable)
    (hmf2 : fs2.manifestFile = some (Json.obj m2))
    (hcsv2 : read_csv_table fs2.csvFile = .ok t2)
    (hmiss2 : missingColumns t2 = [])
    (hnocrash2 : (fs2.csvFile.drop 1).any (recordRestkeyCrash t2.header) = false)
    (rows1 : List Row) (f : Row → Row)
    (hrows : t2.rows = rows1.map f)
    (hproc : ∀ r ∈ rows1, rowProcessed (f r) = rowProcessed r)
    (hfacts : ∀ r ∈ rows1, rowProcessed r = true →
      rowDk (f r) = rowDk r ∧ rowBump (f r) = false ∧ ¬ rowStored (f r) = [] ∧
      rowFile (f r) = rowFile r ∧ rowPuzzle (f r) = rowPuzzle r ∧
      rowFinalVer (f r) = rowFinalVer r ∧ rowUrl (f r) = rowUrl r ∧
      rowSha (f r) = rowSha r)
    (hpw : rows1.Pairwise (fun a b => rowProcessed a = true →
      rowProcessed b = true → ¬ rowDk a = rowDk b))
    (hdir2 : ∀ r ∈ rows1, rowProcessed r = true →
      alookup (rowFile r) fs2.puzzleFiles = some (serializeArtifact (rowPuzzle r)))
    (hpm2 : ∀ r ∈ rows1, rowProcessed r = true →
      ∃ e, alookup (rowDk r) (getObj (ensure_manifest_shape m2) "puzzles".data) =
        some e ∧ entryEqPy e (rowFinalVer r) (rowUrl r) (rowSha r) = true) :
    ∃ out, generate fs2 false now2 = .ok out ∧
      out.anyCsv = false ∧ out.anyMan = false ∧
      out.csvFileOut = fs2.csvFile ∧ out.manifestFileOut = fs2.manifestFile ∧
      out.dirOut = fs2.puzzleFiles ∧
      ∀ res ∈ out.results, res.bumped = false ∧ res.created = false := by
  apply generate_stable fs2 now2 m2 t2 hmf2 hcsv2 hmiss2 hnocrash2
  · rw [hrows]
    intro q hq hpq
    obtain ⟨r, hr, hqe⟩ := List.mem_map.mp hq
    subst hqe
    have hpr : rowProcessed r = true := by rw [← hproc r hr]; exact hpq
    obtain ⟨fdk, fb, fsn, ff, fpz, ffv, fu, fsh⟩ := hfacts r hr hpr
    refine ⟨fb, fsn, ?_, ?_⟩
    · rw [ff, fpz]
      exact hdir2 r hr hpr
    · obtain ⟨e, he1, he2⟩ := hpm2 r hr hpr
      exact ⟨e, by rw [fdk]; exact he1, by rw [ffv, fu, fsh]; exact he2⟩
  · rw [hrows, List.pairwise_map]
    refine hpw.imp_of_mem ?_
    intro a b ha hb hab hpa hpb
    rw [hproc a ha] at hpa
    rw [hproc b hb] at hpb
    rw [(hfacts a ha hpa).1, (hfacts b hb hpb).1]
    exact hab hpa hpb

/-- **C3** (amended): after a completed real run — hashes written back,
versions reconciled, artifacts and manifest persisted — a second real
run over the produced state succeeds and is a no-op, provided the
table's column names are distinct and the processed rows carry
pairwise-distinct day keys (the sheet invariant): it bumps no version,
rewrites no table value (`anyCsv` false, file untouched), changes no
manifest entry (`anyMan` false, file untouched), and leaves every
artifact byte-identical.  (As frozen, without the distinct-day-key
proviso, the claim fails — see the counterexample.) -/
theorem claim_C3_idempotence (fs : FsIn) (now1 now2 : UtcTime) (m0 : JObj)
    (t1 : CsvTable) (out1 : GenOut)
    (hmf : fs.manifestFile = some (Json.obj m0))
    (hcsv : read_csv_table fs.csvFile = .ok t1)
    (hnodup : t1.header.Nodup)
    (hdks : (processedDks t1.rows).Nodup)
    (h1 : generate fs false now1 = .ok out1) :
    ∃ out2, generate ⟨out1.csvFileOut, out1.dirOut, out1.manifestFileOut⟩ false now2 =
        .ok out2 ∧
      out2.anyCsv = false ∧ out2.anyMan = false ∧
      out2.csvFileOut = out1.csvFileOut ∧
      out2.manifestFileOut = out1.manifestFileOut ∧
      out2.dirOut = out1.dirOut ∧
      ∀ res ∈ out2.results, res.bumped = false ∧ res.created = false := by
  have hshape := read_rows_shape hcsv
  have hpwdk := pairwise_dk_of_nodup hdks
  have hpwfile := pairwise_file_of_nodup hdks
  have hmp : ¬ ("meta".data : Str) = "puzzles".data := by decide
  have hcr1 : (fs.csvFile.drop 1).any (recordRestkeyCrash t1.header) = false :=
    generate_ok_no_crash hcsv h1
  simp only [generate, hcsv] at h1
  by_cases hmiss : ¬ missingColumns t1 = []
  · rw [if_pos hmiss] at h1; cases h1
  · have hmiss0 : missingColumns t1 = [] := not_not.mp hmiss
    have hreq : ∀ c ∈ REQUIRED_COLS, c ∈ t1.header := by
      intro c hc
      by_contra hnc
      have hx : c ∈ ([] : List Str) := by
        rw [← hmiss0, missingColumns]
        exact List.mem_filter.mpr ⟨hc, decide_eq_true hnc⟩
      cases hx
    have hver_mem : VERSION_COL ∈ t1.header := hreq VERSION_COL (by decide)
    have hhne : ¬ t1.header = [] := List.ne_nil_of_mem hver_mem
    rw [if_neg hmiss, hmf] at h1
    simp only [hcr1, Except.ok.injEq] at h1
    subst h1
    rw [show (⟨[], 0, 0, false, false, fs.puzzleFiles,
      getObj (ensure_manifest_shape m0) "puzzles".data, []⟩ : LoopState) =
      initState fs m0 from rfl]
    dsimp only
    set fin := t1.rows.foldl (stepRow false) (initState fs m0) with hfin
    set hdr2 := (if CONTENT_HASH_COL ∈ t1.header then t1.header
      else t1.header ++ [CONTENT_HASH_COL]) with hhdr2
    have hh2ne : ¬ hdr2 = [] := by
      rw [hhdr2]
      by_cases hch : CONTENT_HASH_COL ∈ t1.header
      · rw [if_pos hch]; exact hhne
      · rw [if_neg hch]; simp
    have hreq2 : ∀ c ∈ REQUIRED_COLS, c ∈ hdr2 := by
      intro c hc
      rw [hhdr2]
      by_cases hch : CONTENT_HASH_COL ∈ t1.header
      · rw [if_pos hch]; exact hreq c hc
      · rw [if_neg hch]; exact List.mem_append_left _ (hreq c hc)
    have hro : fin.rowsOut = t1.rows.map loopRowOut := by
      rw [hfin, foldl_rowsOut]
      rfl
    have hdirlook : ∀ r ∈ t1.rows, rowProcessed r = true →
        alookup (rowFile r) fin.dir = some (serializeArtifact (rowPuzzle r)) := by
      rw [hfin]
      exact foldl_dir_of_mem t1.rows (initState fs m0) hpwfile
    have hmiss2 : missingColumns ⟨hdr2, fin.rowsOut.map (reserializeRow hdr2)⟩ = [] := by
      rw [missingColumns, List.filter_eq_nil_iff]
      intro c hc hx
      exact absurd (hreq2 c hc) (of_decide_eq_true hx)
    have hrows2 : fin.rowsOut.map (reserializeRow hdr2) =
        t1.rows.map (reserializeRow hdr2 ∘ loopRowOut) := by
      rw [hro, List.map_map]
    have htrans := fun (r : Row) (hr : r ∈ t1.rows) =>
      row2_transport hnodup hver_mem hdr2 hhdr2 (hshape r hr)
    by_cases ham : fin.anyMan = true
    · rw [if_pos ham,
        if_pos (show ¬ (false : Bool) = true ∧ fin.anyMan = true from
          ⟨Bool.false_ne_true, ham⟩)]
      have hm2pz : getObj (ensure_manifest_shape
          (aset "meta".data (Json.obj (aset "generatedAtUtc".data
              (Json.str (utc_now_iso_z now1))
              (getObj (aset "puzzles".data (Json.obj fin.pm)
                (ensure_manifest_shape m0)) "meta".data)))
            (aset "puzzles".data (Json.obj fin.pm) (ensure_manifest_shape m0))))
          "puzzles".data = fin.pm :=
        ensure_getObj_puzzles ((alookup_aset_ne hmp _ _).trans (alookup_aset_self _ _ _))
      have hpmlook : ∀ r ∈ t1.rows, rowProcessed r = true →
          alookup (rowDk r) fin.pm = some (rowEntry r) := by
        rw [hfin]
        exact foldl_pm_of_mem false t1.rows (initState fs m0) hpwdk
      have hpm2 : ∀ r ∈ t1.rows, rowProcessed r = true →
          ∃ e, alookup (rowDk r) (getObj (ensure_manifest_shape
            (aset "meta".data (Json.obj (aset "generatedAtUtc".data
                (Json.str (utc_now_iso_z now1))
                (getObj (aset "puzzles".data (Json.obj fin.pm)
                  (ensure_manifest_shape m0)) "meta".data)))
              (aset "puzzles".data (Json.obj fin.pm) (ensure_manifest_shape m0))))
            "puzzles".data) = some e ∧
            entryEqPy e (rowFinalVer r) (rowUrl r) (rowSha r) = true :=
        fun r hr hp => ⟨rowEntry r, by rw [hm2pz]; exact hpmlook r hr hp,
          entryEqPy_manifestEntry _ _ _⟩
      by_cases hac : fin.anyCsv = true
      · rw [if_pos (show ¬ (false : Bool) = true ∧ fin.anyCsv = true from
          ⟨Bool.false_ne_true, hac⟩)]
        exact run2_ok _ now2 _ _ rfl
          (read_serializeTable ⟨hdr2, fin.rowsOut⟩ hh2ne) hmiss2
          (serializeTable_no_restkeyCrash ⟨hdr2, fin.rowsOut⟩) t1.rows
          (reserializeRow hdr2 ∘ loopRowOut) hrows2
          (fun r hr => (htrans r hr).1) (fun r hr hp => (htrans r hr).2 hp)
          hpwdk hdirlook hpm2
      · rw [if_neg (show ¬ (¬ (false : Bool) = true ∧ fin.anyCsv = true) from
          fun hx => hac hx.2)]
        have hcsvfacts := (foldl_anyCsv_false false t1.rows (initState fs m0)
          (Bool.eq_false_iff.mpr hac)).2
        exact run2_ok _ now2 _ t1 rfl hcsv hmiss0 hcr1 t1.rows (fun r => r)
          (List.map_id' t1.rows).symm (fun r _ => rfl)
          (fun r hr hp => ⟨rfl, (hcsvfacts r hr hp).2, (hcsvfacts r hr hp).1,
            rfl, rfl, rfl, rfl, rfl⟩)
          hpwdk hdirlook hpm2
    · rw [if_neg (show ¬ (¬ (false : Bool) = true ∧ fin.anyMan = true) from
        fun hx => ham hx.2)]
      have hpm2 : ∀ r ∈ t1.rows, rowProcessed r = true →
          ∃ e, alookup (rowDk r) (getObj (ensure_manifest_shape m0) "puzzles".data)
            = some e ∧ entryEqPy e (rowFinalVer r) (rowUrl r) (rowSha r) = true :=
        fun r hr hp => entry_unchanged_inv
          (foldl_anyMan_false_entry false t1.rows (initState fs m0) hpwdk
            (Bool.eq_false_iff.mpr ham) r hr hp)
      by_cases hac : fin.anyCsv = true
      · rw [if_pos (show ¬ (false : Bool) = true ∧ fin.anyCsv = true from
          ⟨Bool.false_ne_true, hac⟩)]
        exact run2_ok _ now2 m0 _ rfl
          (read_serializeTable ⟨hdr2, fin.rowsOut⟩ hh2ne) hmiss2
          (serializeTable_no_restkeyCrash ⟨hdr2, fin.rowsOut⟩) t1.rows
          (reserializeRow hdr2 ∘ loopRowOut) hrows2
          (fun r hr => (htrans r hr).1) (fun r hr hp => (htrans r hr).2 hp)
          hpwdk hdirlook hpm2
      · rw [if_neg (show ¬ (¬ (false : Bool) = true ∧ fin.anyCsv = true) from
          fun hx => hac hx.2)]
        have hcsvfacts := (foldl_anyCsv_false false t1.rows (initState fs m0)
          (Bool.eq_false_iff.mpr hac)).2
        exact run2_ok _ now2 m0 t1 rfl hcsv hmiss0 hcr1 t1.rows (fun r => r)
          (List.map_id' t1.rows).symm (fun r _ => rfl)
          (fun r hr hp => ⟨rfl, (hcsvfacts r hr hp).2, (hcsvfacts r hr hp).1,
            rfl, rfl, rfl, rfl, rfl⟩)
          hpwdk hdirlook hpm2

/-- The filesystem state a completed real run leaves behind. -/
def afterRun (fs : FsIn) (now : UtcTime) : Option FsIn :=
  match generate fs false now with
  | .ok o => some ⟨o.csvFileOut, o.dirOut, o.manifestFileOut⟩
  | .error _ => none

/-- The second run's `anyMan` report over the state the first run left. -/
def run2AnyMan (fs : FsIn) (now1 now2 : UtcTime) : Option (Option Bool) :=
  (afterRun fs now1).map (fun f2 => genAnyMan (generate f2 false now2))

/-- A fixture with the same day key on two rows of different content. -/
def dupRecords2 : List (List Str) :=
  [REQUIRED_COLS ++ [CONTENT_HASH_COL],
   ["2024-01-01".data, "a".data, [], "ans".data, [], "sol".data, [], []],
   ["2024-01-01".data, "b".data, [], "ans".data, [], "sol".data, [], []]]

/-- Counterexample for C3 as frozen: with a duplicated day key the
second row's upsert overwrites the first row's manifest entry, so on the
very next run the first row's upsert differs again and the run reports
the manifest as updated — the pipeline never reaches a fixed point. -/
theorem claim_C3_counterexample :
    run2AnyMan ⟨dupRecords2, [], some (Json.obj [])⟩ fixtureNow fixtureNow =
      some (some true) := by decide

/-- Witness for C3: over the single-row fixture, the run after the first
run reports the manifest unchanged. -/
theorem claim_C3_idempotence_witness :
    run2AnyMan ⟨fixtureRecords, [], some (Json.obj [])⟩ fixtureNow fixtureNow =
      some (some false) := by
  cases hg1 : generate ⟨fixtureRecords, [], some (Json.obj [])⟩ false fixtureNow with
  | error e =>
    have hok : exceptIsOk (generate ⟨fixtureRecords, [], some (Json.obj [])⟩ false fixtureNow)
        = true := by decide
    rw [hg1] at hok
    simp [exceptIsOk] at hok
  | ok out1 =>
    obtain ⟨out2, ho2, -, hman2, -⟩ :=
      claim_C3_idempotence ⟨fixtureRecords, [], some (Json.obj [])⟩ fixtureNow fixtureNow []
        tFix out1 rfl (by decide) (by decide) (by decide) hg1
    rw [run2AnyMan, afterRun, hg1]
    show some (genAnyMan (generate ⟨out1.csvFileOut, out1.dirOut,
      out1.manifestFileOut⟩ false fixtureNow)) = some (some false)
    rw [ho2]
    simp only [genAnyMan, hman2]

end Unvelo
